import Mathlib

/-!
# Verification development for `webpa-common`

A shallow embedding of the request-fanout helpers (`xhttp/fanout`), the webhook
subscription store (`webhookStore`) and the WRP fanout construction
(`wrp/wrphttp`), followed by theorems about them.

Conventions of the embedding:

* a Go `map[string]T` is a list of key/value pairs (`GoMap`); Go leaves the
  iteration order of a map unspecified, so statements about map contents are
  made through `GoMap.get` and membership, never through positions;
* a Go `error` is `Option Error`, `none` being `nil`;
* a Go pointer that may be `nil` is an `Option`;
* a Go call that may panic returns an `Option`, `none` being the panic;
* Go integers (`int`, `int64`, `time.Duration`) are `Int`; no arithmetic is
  performed on them here, only comparisons with constants.
-/

namespace WebpaCommon

/-! ## Go maps -/

/-- A Go `map[string]β`: a list of bindings. A well-formed map binds every key once. -/
abbrev GoMap (β : Type) := List (String × β)

namespace GoMap

/-- The map index expression `m[k]` in its two-valued form. -/
def get {β : Type} : GoMap β → String → Option β
  | [], _ => none
  | (k', v) :: m, k => if k' = k then some v else get m k

/-- The builtin `delete(m, k)`. -/
def delete {β : Type} : GoMap β → String → GoMap β
  | [], _ => []
  | (k', v) :: m, k => if k' = k then delete m k else (k', v) :: delete m k

/-- The assignment `m[k] = v`: any earlier binding of `k` is dropped. -/
def set {β : Type} (m : GoMap β) (k : String) (v : β) : GoMap β :=
  delete m k ++ [(k, v)]

/-- The values met by `for _, value := range m`. -/
def values {β : Type} (m : GoMap β) : List β := m.map Prod.snd

/-- The keys of the bindings. -/
def keys {β : Type} (m : GoMap β) : List String := m.map Prod.fst

/-- Well-formedness: no key is bound twice. -/
def WF {β : Type} (m : GoMap β) : Prop := (keys m).Nodup

instance {β : Type} (m : GoMap β) : Decidable (WF m) := by
  unfold WF; infer_instance

end GoMap

/-! ## Basic Go types -/

/-- A Go `error` value, identified by its message. -/
abbrev Error := String

/-- A byte. -/
abbrev Byte := Fin 256

/-- A Go `[]byte`. -/
abbrev Bytes := List Byte

/-- A `context.Context`, seen as the values it carries. -/
abbrev Context := List (String × String)

/-- A `net/http` `Header`: `map[string][]string`. -/
abbrev Header := GoMap (List String)

/-- The bytes `net/textproto` accepts in a header field name (token characters). -/
def validHeaderFieldByte (c : Char) : Bool :=
  c.isAlphanum || "!#$%&'*+-.^_|~".toList.contains c || c == Char.ofNat 96

/-- Capitalisation step of `net/textproto.canonicalMIMEHeaderKey`: a letter at the start or
after a hyphen is upper-cased, every other letter lower-cased. -/
def canonicalLoop : Bool → List Char → List Char
  | _, [] => []
  | upper, c :: cs =>
    let c' := if upper then c.toUpper else c.toLower
    c' :: canonicalLoop (c' == '-') cs

/-- Go's `textproto.CanonicalMIMEHeaderKey` (standard library): a name made of header
field bytes only is capitalised, any other string is returned unchanged. -/
def CanonicalMIMEHeaderKey (s : String) : String :=
  if s.toList.all validHeaderFieldByte then String.mk (canonicalLoop true s.toList) else s

/-- A `net/url` `URL`. -/
structure URL where
  Scheme : String := ""
  Opaque : String := ""
  User : Option (String × Option String) := none
  Host : String := ""
  Path : String := ""
  RawPath : String := ""
  ForceQuery : Bool := false
  RawQuery : String := ""
  Fragment : String := ""
  deriving DecidableEq, Repr

/-- A request body (`io.ReadCloser`): reading it to the end either yields its bytes or
fails with an error after some bytes. -/
inductive Body where
  | data (b : Bytes)
  | failing (read : Bytes) (err : Error)
  deriving DecidableEq, Repr

/-- Go's `ioutil.ReadAll` on a body. -/
def Body.readAll : Body → Bytes × Option Error
  | .data b => (b, none)
  | .failing r e => (r, some e)

/-- A `net/http` `Request`, with the fields the fanout helpers touch. -/
structure Request where
  Method : String := ""
  URL : Option URL := none
  Header : Header := []
  Body : Option Body := none
  deriving DecidableEq, Repr

/-- A `net/http` `Response`, with the fields the fanout helpers touch. -/
structure Response where
  StatusCode : Int := 0
  Header : Header := []
  Body : Option Body := none
  deriving DecidableEq, Repr

/-- A fanout `Result`: the outcome of one replica. -/
structure Result where
  Response : Option Response := none
  Body : Bytes := []
  Err : Option Error := none
  deriving DecidableEq, Repr

/-! ## `xhttp/fanout`: decoder, encoder and request functions -/

/-- Copy of the values of one header from `src` into `dst`, when `src` has any. -/
def copyHeaderValues (key : String) (src dst : Header) : Header :=
  match GoMap.get src key with
  | some (v :: vs) => GoMap.set dst key (v :: vs)
  | _ => dst

/-- What a decoder call leaves behind: the returned triple and the fanout header. -/
structure Decoded where
  ctx : Context
  body : Bytes
  err : Option Error
  fanout : Header
  deriving DecidableEq, Repr

/-- Modelled from the spec: `DefaultDecoder` of `xhttp/fanout/requestResponse.go`, whose
source file is not available (only its tests are). Section 4.1: the decoder
drains the inbound body; a nil inbound body fails fast (a panic, `none` here); the
Content-Type header is copied into the fanout header; the context is returned. On a read
error the tests expect the given context, no body, the error, and an untouched fanout
header. -/
def DefaultDecoder (ctx : Context) (original : Request) (fanout : Header) : Option Decoded :=
  match original.Body with
  | none => none
  | some body =>
    match body.readAll with
    | (_, some err) => some { ctx := ctx, body := [], err := some err, fanout := fanout }
    | (b, none) =>
      some { ctx := ctx, body := b, err := none,
             fanout := copyHeaderValues "Content-Type" original.Header fanout }

/-- What an encoder call leaves behind: the returned pair and the outbound header. -/
structure Encoded where
  body : Bytes
  err : Option Error
  outbound : Header
  deriving DecidableEq, Repr

/-- Modelled from the spec: `DefaultEncoder` of `xhttp/fanout/requestResponse.go`, whose
source file is not available (only its tests are). Section 4.1: the encoder
copies the Content-Type header of the winning response into the outbound header and
returns the body bytes verbatim; a nil `Result.Response` yields an empty body with no
headers. -/
def DefaultEncoder (_ctx : Context) (result : Result) (outbound : Header) : Encoded :=
  match result.Response with
  | none => { body := [], err := none, outbound := outbound }
  | some r =>
    { body := result.Body, err := none,
      outbound := copyHeaderValues "Content-Type" r.Header outbound }

/-- A fanout request function: given the context, the original request and the replica, it
returns the context and an error, having possibly changed the replica; `none` is a panic. -/
abbrev RequestFunc := Context → Request → Request → Option (Context × Option Error × Request)

/-- Modelled from the spec: `ForwardHeaders` of `xhttp/fanout/requestResponse.go`, whose
source file is not available (only its tests are). Section 4.2: for each
name, matched case-insensitively (that is, through its canonical form, as `net/http` does),
the values of the header are copied from the original to the replica if present; unknown
names are skipped. The tests expect a header without values to be skipped too. -/
def ForwardHeaders (headers : List String) : RequestFunc :=
  fun ctx original fanout =>
    some (ctx, none,
      { fanout with
        Header := headers.foldl
          (fun h name => copyHeaderValues (CanonicalMIMEHeaderKey name) original.Header h)
          fanout.Header })

/-- The request function `UsePath` returns: see `UsePath`. -/
def usePathFunc (path : String) : RequestFunc :=
  fun ctx _original fanout =>
    match fanout.URL with
    | none => none
    | some u => some (ctx, none, { fanout with URL := some { u with Path := path, RawPath := "" } })

/-- Modelled from the spec: `UsePath` of `xhttp/fanout/requestResponse.go`, whose source
file is not available (only its tests are). Section 4.2: the path must begin with a slash,
else construction fails with a configuration error; the request function overwrites the
replica URL's path with the literal and clears the raw path. The tests expect a panic when
the replica has no URL. -/
def UsePath (path : String) : Except Error RequestFunc :=
  if path.toList.head? = some '/' then .ok (usePathFunc path)
  else .error "config: path must begin with a slash"

/-! ## `webhookStore`: the subscription store -/

/-- Modelled from the spec: the `Config` part of a subscription `webhook.W`; the type is
declared in the `webhook` package, outside the available sources. The fields are those of
the literal in `inmemStore_test.go`. -/
structure WConfig where
  URL : String := ""
  ContentType : String := ""
  Secret : String := ""
  AlternativeURLs : List String := []
  deriving DecidableEq, Repr

/-- Modelled from the spec: a webhook subscription `webhook.W`, declared in the `webhook`
package, outside the available sources. Section 3 and the JSON schema of section 6:
`config`, `events`, `matcher.device_id`, `duration`, `until`, `address`. -/
structure W where
  Config : WConfig := {}
  Events : List String := []
  MatcherDeviceID : List String := []
  Duration : Int := 0
  Until : Int := 0
  Address : String := ""
  deriving DecidableEq, Repr

/-- Modelled from the spec: `W.ID`, declared in the `webhook` package, outside the available
sources. Section 3: the id derives from `config.url`. -/
def W.ID (w : W) : String := w.Config.URL

/-- A `Listener`, seen through the calls of `Update` it has received, oldest first. -/
structure Listener where
  received : List (List W) := []
  deriving DecidableEq, Repr

/-- The call `listener.Update(hooks)`. -/
def Listener.Update (l : Listener) (hooks : List W) : Listener :=
  { received := l.received ++ [hooks] }

/-- The `storeConfig` of a store, with the field `hookStorage` reads; `none` is a nil
listener. -/
structure storeConfig where
  listener : Option Listener := none
  deriving DecidableEq, Repr

/-- The store `hookStorage` of `inmemStore_test.go`: a map from id to subscription and its
options. The mutex is left out: the operations are taken one at a time. The map and the
options pointer are non-nil, as in every construction of the store in the sources. -/
structure hookStorage where
  hooks : GoMap W := []
  options : storeConfig := {}
  deriving DecidableEq, Repr

/-- The method `hookStorage.SetListener`. -/
def hookStorage.SetListener (h : hookStorage) (listener : Option Listener) :
    hookStorage × Option Error :=
  ({ h with options := { h.options with listener := listener } }, none)

/-- The method `hookStorage.GetWebhook`: the values of the map, in the order of iteration. -/
def hookStorage.GetWebhook (h : hookStorage) : List W × Option Error :=
  (GoMap.values h.hooks, none)

/-- The method `hookStorage.Push`: the subscription is stored under its id, then a registered
listener is handed the result of `GetWebhook`. -/
def hookStorage.Push (h : hookStorage) (w : W) : hookStorage × Option Error :=
  let h := { h with hooks := GoMap.set h.hooks w.ID w }
  match h.options.listener with
  | some l =>
    let hooks := h.GetWebhook.1
    ({ h with options := { h.options with listener := some (l.Update hooks) } }, none)
  | none => (h, none)

/-- The method `hookStorage.Remove`: the binding of the id is deleted, then a registered
listener is handed the result of `GetWebhook`. -/
def hookStorage.Remove (h : hookStorage) (id : String) : hookStorage × Option Error :=
  let h := { h with hooks := GoMap.delete h.hooks id }
  match h.options.listener with
  | some l =>
    let hooks := h.GetWebhook.1
    ({ h with options := { h.options with listener := some (l.Update hooks) } }, none)
  | none => (h, none)

/-- The states a store can be in: every key is bound once, to a subscription with that id. -/
def hookStorage.Inv (h : hookStorage) : Prop :=
  GoMap.WF h.hooks ∧ ∀ e ∈ h.hooks, e.1 = e.2.ID

instance (h : hookStorage) : Decidable h.Inv := by
  unfold hookStorage.Inv; infer_instance

/-- The subscription `neatWebhook` of `inmemStore_test.go`. -/
def neatWebhook : W :=
  { Config := { URL := "http://localhost/events?neat", ContentType := "json",
                Secret := "idontknow" },
    Events := [".*"] }

/-- The subscription `neatWebhookWithDifferentSecret` of `inmemStore_test.go`. -/
def neatWebhookWithDifferentSecret : W :=
  { Config := { URL := "http://localhost/events?neat", ContentType := "json",
                Secret := "ohnowiknow" },
    Events := [".*"] }

/-- A store holding one other subscription, with a listener that has received nothing. -/
def sampleStore : hookStorage :=
  { hooks := [("http://localhost/events?other",
               { Config := { URL := "http://localhost/events?other", ContentType := "json" } })],
    options := { listener := some {} } }

/-! ## `wrp/wrphttp`: the fanout options and `NewFanoutEndpoint` -/

/-- One second as a `time.Duration`, in nanoseconds. -/
def Second : Int := 1000000000

/-- The constant `DefaultMethod`. -/
def DefaultMethod : String := "POST"

/-- The constant `DefaultEndpoint`. -/
def DefaultEndpoint : String := "http://localhost:7000/api/v2/device/send"

/-- The constant `DefaultMaxIdleConnsPerHost`. -/
def DefaultMaxIdleConnsPerHost : Int := 20

/-- The constant `DefaultFanoutTimeout`. -/
def DefaultFanoutTimeout : Int := 45 * Second

/-- The constant `DefaultClientTimeout`. -/
def DefaultClientTimeout : Int := 30 * Second

/-- The constant `DefaultMaxClients`. -/
def DefaultMaxClients : Int := 10000

/-- The constant `DefaultConcurrency`. -/
def DefaultConcurrency : Int := 1000

/-- A go-kit `log.Logger`, identified by a name. -/
abbrev Logger := String

/-- The logger `logging.DefaultLogger()` returns. -/
def DefaultLogger : Logger := "logging.DefaultLogger"

/-- A `net/http` `Transport`, with its plain settings; its zero value has them all zero. -/
structure Transport where
  DisableKeepAlives : Bool := false
  DisableCompression : Bool := false
  MaxIdleConns : Int := 0
  MaxIdleConnsPerHost : Int := 0
  IdleConnTimeout : Int := 0
  ResponseHeaderTimeout : Int := 0
  deriving DecidableEq, Repr

/-- An `xhttp.Error`: a status code and a text. -/
structure XhttpError where
  Code : Int
  Text : String
  deriving DecidableEq, Repr

/-- An `endpoint.Middleware`, seen as the call that constructed it: the four middleware of
the `middleware` package that `NewFanoutEndpoint` uses, with their arguments, or a
middleware supplied by the caller, identified by a name. -/
inductive Middleware where
  | Logging
  | Busy (maxClients : Int) (onDenied : XhttpError)
  | Timeout (timeout : Int)
  | Concurrent (concurrency : Int) (onDenied : XhttpError)
  | Custom (name : String)
  deriving DecidableEq, Repr

/-- The type `FanoutOptions`. -/
structure FanoutOptions where
  Logger : Option Logger := none
  Method : String := ""
  Endpoints : List String := []
  Authorization : String := ""
  Transport : Transport := {}
  FanoutTimeout : Int := 0
  ClientTimeout : Int := 0
  MaxClients : Int := 0
  Concurrency : Int := 0
  Middleware : List Middleware := []
  deriving DecidableEq, Repr

namespace FanoutOptions

/-- The method `(*FanoutOptions).logger`; the receiver may be nil. -/
def logger (f : Option FanoutOptions) : WebpaCommon.Logger :=
  match f with
  | some f =>
    match f.Logger with
    | some l => l
    | none => DefaultLogger
  | none => DefaultLogger

/-- The method `(*FanoutOptions).method`. -/
def method (f : Option FanoutOptions) : String :=
  match f with
  | some f => if f.Method.length > 0 then f.Method else DefaultMethod
  | none => DefaultMethod

/-- The method `(*FanoutOptions).endpoints`. -/
def endpoints (f : Option FanoutOptions) : List String :=
  match f with
  | some f => if f.Endpoints.length > 0 then f.Endpoints else [DefaultEndpoint]
  | none => [DefaultEndpoint]

/-- The method `(*FanoutOptions).authorization`. -/
def authorization (f : Option FanoutOptions) : String :=
  match f with
  | some f => if f.Authorization.length > 0 then f.Authorization else ""
  | none => ""

/-- The loop of `(*FanoutOptions).urls`: the endpoints are parsed in order and appended to
`urls`; the first parse error is returned, with no URLs. -/
def urlsLoop (parse : String → Except Error URL) : List String → List URL → Except Error (List URL)
  | [], urls => .ok urls
  | endpoint :: rest, urls =>
    match parse endpoint with
    | .error err => .error err
    | .ok url => urlsLoop parse rest (urls ++ [url])

/-- The method `(*FanoutOptions).urls`. Go's `url.Parse`, of the standard library, is the
parameter `parse`. -/
def urls (parse : String → Except Error URL) (f : Option FanoutOptions) :
    Except Error (List URL) :=
  urlsLoop parse (endpoints f) []

/-- The method `(*FanoutOptions).transport`. -/
def transport (f : Option FanoutOptions) : WebpaCommon.Transport :=
  let transport : WebpaCommon.Transport :=
    match f with
    | some f => f.Transport
    | none => {}
  if transport.MaxIdleConnsPerHost < 1 then
    { transport with MaxIdleConnsPerHost := DefaultMaxIdleConnsPerHost }
  else transport

/-- The method `(*FanoutOptions).fanoutTimeout`. -/
def fanoutTimeout (f : Option FanoutOptions) : Int :=
  match f with
  | some f => if f.FanoutTimeout > 0 then f.FanoutTimeout else DefaultFanoutTimeout
  | none => DefaultFanoutTimeout

/-- The method `(*FanoutOptions).clientTimeout`. -/
def clientTimeout (f : Option FanoutOptions) : Int :=
  match f with
  | some f => if f.ClientTimeout > 0 then f.ClientTimeout else DefaultClientTimeout
  | none => DefaultClientTimeout

/-- The method `(*FanoutOptions).maxClients`. -/
def maxClients (f : Option FanoutOptions) : Int :=
  match f with
  | some f => if f.MaxClients > 0 then f.MaxClients else DefaultMaxClients
  | none => DefaultMaxClients

/-- The method `(*FanoutOptions).concurrency`. -/
def concurrency (f : Option FanoutOptions) : Int :=
  match f with
  | some f => if f.Concurrency > 0 then f.Concurrency else DefaultConcurrency
  | none => DefaultConcurrency

/-- The method `(*FanoutOptions).middleware`. -/
def middleware (f : Option FanoutOptions) : List WebpaCommon.Middleware :=
  match f with
  | some f => f.Middleware
  | none => []

end FanoutOptions

/-- The `http.Client` that `NewFanoutEndpoint` shares among the endpoint clients. -/
structure HTTPClient where
  CheckRedirect : Logger
  Transport : Transport
  Timeout : Int
  deriving DecidableEq, Repr

/-- What `gokithttp.NewClient(...).Endpoint()` is built from in `NewFanoutEndpoint`: the
method, the URL, the header handed to the request encoder, the HTTP client, and the logger
of the `GetBody` hook. -/
structure EndpointClient where
  method : String
  url : URL
  customHeader : Header
  httpClient : HTTPClient
  getBody : Logger
  deriving DecidableEq, Repr

/-- A go-kit `endpoint.Endpoint` as `NewFanoutEndpoint` composes it: the fanout over a map of
endpoint clients (`fanout.New`), or a middleware applied to an endpoint. -/
inductive Endpoint where
  | fanout (fanoutEndpoints : GoMap EndpointClient)
  | wrap (m : Middleware) (next : Endpoint)
  deriving DecidableEq, Repr

/-- The middleware around the fanout, outermost first. -/
def Endpoint.layers : Endpoint → List Middleware
  | .fanout _ => []
  | .wrap m next => m :: layers next

/-- The endpoint clients of the fanout at the core. -/
def Endpoint.clients : Endpoint → GoMap EndpointClient
  | .fanout fanoutEndpoints => fanoutEndpoints
  | .wrap _ next => clients next

/-- The function `endpoint.Chain` of go-kit: `outer` is applied last, so it is outermost; the
others are applied from the last to the first. -/
def Chain (outer : Middleware) (others : List Middleware) (next : Endpoint) : Endpoint :=
  Endpoint.wrap outer (others.foldr Endpoint.wrap next)

/-- The function `NewFanoutEndpoint`. A returned pair `(nil, err)` is `Except.error err`, a
pair `(endpoint, nil)` is `Except.ok endpoint`. The methods `url.Parse` and `(*URL).String` of
Go's standard library are the parameters `parse` and `urlString`. -/
def NewFanoutEndpoint (parse : String → Except Error URL) (urlString : URL → String)
    (o : Option FanoutOptions) : Except Error Endpoint :=
  match FanoutOptions.urls parse o with
  | .error err => .error err
  | .ok urls =>
    let logger := FanoutOptions.logger o
    let httpClient : HTTPClient :=
      { CheckRedirect := logger,
        Transport := FanoutOptions.transport o,
        Timeout := FanoutOptions.clientTimeout o }
    let customHeader : Header := [("Accept", ["application/msgpack"])]
    let authorization := FanoutOptions.authorization o
    let customHeader : Header :=
      if authorization.length > 0 then
        GoMap.set customHeader (CanonicalMIMEHeaderKey "Authorization") ["Basic " ++ authorization]
      else customHeader
    let fanoutEndpoints : GoMap EndpointClient :=
      urls.foldl
        (fun fanoutEndpoints url =>
          GoMap.set fanoutEndpoints (urlString url)
            { method := FanoutOptions.method o, url := url, customHeader := customHeader,
              httpClient := httpClient, getBody := logger })
        []
    let middlewareChain : List Middleware :=
      [ Middleware.Logging,
        Middleware.Busy (FanoutOptions.maxClients o) { Code := 503, Text := "Server Busy" },
        Middleware.Timeout (FanoutOptions.fanoutTimeout o),
        Middleware.Concurrent (FanoutOptions.concurrency o)
          { Code := 429, Text := "Too Many Requests" } ]
        ++ FanoutOptions.middleware o
    .ok (Chain (middlewareChain.headD Middleware.Logging) middlewareChain.tail
      (Endpoint.fanout fanoutEndpoints))

/-- The values of `url.Parse` on the endpoint strings used in the examples below: the default
endpoint, a second absolute URL, and a string with a malformed percent escape, which
`url.Parse` rejects. No other string is tabulated. -/
def parseTable : String → Except Error URL
  | "http://localhost:7000/api/v2/device/send" =>
    .ok { Scheme := "http", Host := "localhost:7000", Path := "/api/v2/device/send" }
  | "https://talaria.example.com:8080/api/v2/device/send" =>
    .ok { Scheme := "https", Host := "talaria.example.com:8080", Path := "/api/v2/device/send" }
  | "http://localhost/%zz" => .error "parse \"http://localhost/%zz\": invalid URL escape \"%zz\""
  | _ => .error "not tabulated"

/-- The value of `(*URL).String` on a URL that has a scheme, a host and a path that needs no
escaping, as those of `parseTable`. -/
def urlStringPlain (u : URL) : String :=
  u.Scheme ++ "://" ++ u.Host ++ u.Path

/-- Options that leave the concurrency at 0 and name two endpoints and one middleware. -/
def zeroConcurrencyOptions : FanoutOptions :=
  { Endpoints := ["http://localhost:7000/api/v2/device/send",
                  "https://talaria.example.com:8080/api/v2/device/send"],
    Concurrency := 0,
    Middleware := [Middleware.Custom "metrics"] }

/-- The table `parseTable` extended with a bare path, which `url.Parse` accepts as a URL with
an empty scheme and an empty host. -/
def parseTableWithPath : String → Except Error URL
  | "/api/v2/device/send" => .ok { Path := "/api/v2/device/send" }
  | s => parseTable s

/-- The value of `(*URL).String` on a URL made of a path that needs no escaping, alone or
after a scheme and a host. -/
def urlStringNoEscape (u : URL) : String :=
  if u.Scheme = "" ∧ u.Host = "" then u.Path else urlStringPlain u

/-- Options with an authorization token, a method and two custom middleware. -/
def authorizedOptions : FanoutOptions :=
  { Method := "PATCH",
    Endpoints := ["https://talaria.example.com:8080/api/v2/device/send"],
    Authorization := "dXNlcjpwYXNz",
    Middleware := [Middleware.Custom "metrics", Middleware.Custom "audit"] }

/-! ## `webhookStore`: the remote store `YggdrasilClient` -/

/-- The bytes of a Go string holding the text `s`: its UTF-8 encoding, one character at a
time. -/
def utf8EncodeChar (c : Char) : Bytes :=
  let n := c.toNat
  if n < 128 then [Fin.ofNat n]
  else if n < 2048 then [Fin.ofNat (192 + n / 64), Fin.ofNat (128 + n % 64)]
  else if n < 65536 then
    [Fin.ofNat (224 + n / 4096), Fin.ofNat (128 + n / 64 % 64), Fin.ofNat (128 + n % 64)]
  else
    [Fin.ofNat (240 + n / 262144), Fin.ofNat (128 + n / 4096 % 64),
     Fin.ofNat (128 + n / 64 % 64), Fin.ofNat (128 + n % 64)]

/-- The conversion `[]byte(s)` of Go. -/
def stringBytes (s : String) : Bytes := s.toList.flatMap utf8EncodeChar

namespace RawURLEncoding

/-- The alphabet `encodeURL` of Go's `encoding/base64`. -/
def encodeURL : List Char :=
  "ABCDEFGHIJKLMNOPQRSTUVWXYZabcdefghijklmnopqrstuvwxyz0123456789-_".toList

/-- The character of a six-bit value: `enc.encode[v]`. -/
def encodeChar (v : Nat) : Char := encodeURL.getD v 'A'

/-- The six-bit value of a character, if it is in the alphabet: `enc.decodeMap[c]`. -/
def decodeChar (c : Char) : Option Nat :=
  if encodeURL.indexOf c < 64 then some (encodeURL.indexOf c) else none

/-- The loop of `(*Encoding).Encode` without padding: three bytes give four characters, a
remainder of two bytes three characters, a remainder of one byte two characters. -/
def encodeLoop : Bytes → List Char
  | [] => []
  | [b0] =>
    let val := b0.val * 65536
    [encodeChar (val / 262144 % 64), encodeChar (val / 4096 % 64)]
  | [b0, b1] =>
    let val := b0.val * 65536 + b1.val * 256
    [encodeChar (val / 262144 % 64), encodeChar (val / 4096 % 64), encodeChar (val / 64 % 64)]
  | b0 :: b1 :: b2 :: rest =>
    let val := b0.val * 65536 + b1.val * 256 + b2.val
    encodeChar (val / 262144 % 64) :: encodeChar (val / 4096 % 64) ::
      encodeChar (val / 64 % 64) :: encodeChar (val % 64) :: encodeLoop rest

/-- Go's `base64.RawURLEncoding.EncodeToString`. -/
def EncodeToString (src : Bytes) : String := String.mk (encodeLoop src)

/-- The six-bit values of the characters of the input; a character outside the alphabet is
an error (`CorruptInputError`, whose position is left out of the message). -/
def decodeChars : List Char → Except Error (List Nat)
  | [] => .ok []
  | c :: cs =>
    match decodeChar c with
    | none => .error "illegal base64 data"
    | some v =>
      match decodeChars cs with
      | .error err => .error err
      | .ok vs => .ok (v :: vs)

/-- The quanta of `(*Encoding).Decode` without padding and without strictness: four values
give three bytes, a last group of three values two bytes, of two values one byte; a last
group of one value is an error. -/
def decodeQuanta : List Nat → Except Error Bytes
  | [] => .ok []
  | [_] => .error "illegal base64 data"
  | [s0, s1] =>
    let val := s0 * 262144 + s1 * 4096
    .ok [Fin.ofNat (val / 65536 % 256)]
  | [s0, s1, s2] =>
    let val := s0 * 262144 + s1 * 4096 + s2 * 64
    .ok [Fin.ofNat (val / 65536 % 256), Fin.ofNat (val / 256 % 256)]
  | s0 :: s1 :: s2 :: s3 :: rest =>
    let val := s0 * 262144 + s1 * 4096 + s2 * 64 + s3
    match decodeQuanta rest with
    | .error err => .error err
    | .ok bytes =>
      .ok (Fin.ofNat (val / 65536 % 256) :: Fin.ofNat (val / 256 % 256) ::
        Fin.ofNat (val % 256) :: bytes)

/-- Go's `base64.RawURLEncoding.DecodeString`: carriage returns and line feeds are skipped,
then the characters are decoded by quanta. -/
def DecodeString (s : String) : Except Error Bytes :=
  match decodeChars (s.toList.filter (fun c => c != '\r' && c != '\n')) with
  | .error err => .error err
  | .ok vs => decodeQuanta vs

end RawURLEncoding

/-- Go's `fmt.Sprint` on operands that are all strings: the operands are written one after
the other (a space is added only between operands that are both not strings). -/
def fmtSprint (a : List String) : String := String.join a

/-- Go's `http.NewRequest` for a valid method: the URL text is parsed with `url.Parse` (the
parameter `parse`), and a parse error is the error of the call. -/
def NewRequest (parse : String → Except Error URL) (method url : String) (body : Option Body) :
    Except Error Request :=
  match parse url with
  | .error err => .error err
  | .ok u => .ok { Method := method, URL := some u, Header := [], Body := body }

/-- The method `Header.Add` of `net/http`: the value is appended under the canonical key. -/
def headerAdd (h : Header) (key value : String) : Header :=
  GoMap.set h (CanonicalMIMEHeaderKey key)
    ((GoMap.get h (CanonicalMIMEHeaderKey key)).getD [] ++ [value])

/-- A JSON value, as `encoding/json` reads it; a number is kept as its literal. -/
inductive JSON where
  | null
  | bool (b : Bool)
  | number (literal : String)
  | string (s : String)
  | array (elems : List JSON)
  | object (members : List (String × JSON))
  deriving Repr

/-- The name `encoding/json` gives the kind of a value in an `UnmarshalTypeError`. -/
def JSON.kind : JSON → String
  | .null => "null"
  | .bool _ => "bool"
  | .number _ => "number"
  | .string _ => "string"
  | .array _ => "array"
  | .object _ => "object"

mutual
/-- The number literals of a JSON value, nested ones included, in the order of the text. -/
def JSON.numbers : JSON → List String
  | .number literal => [literal]
  | .array elems => JSON.numbersOfList elems
  | .object members => JSON.numbersOfMembers members
  | _ => []
/-- The number literals of the elements of an array. -/
def JSON.numbersOfList : List JSON → List String
  | [] => []
  | v :: vs => v.numbers ++ JSON.numbersOfList vs
/-- The number literals of the members of an object. -/
def JSON.numbersOfMembers : List (String × JSON) → List String
  | [] => []
  | (_, v) :: ms => v.numbers ++ JSON.numbersOfMembers ms
end

/-- The functions of Go's standard library that the remote store calls on data: `url.Parse`
(inside `http.NewRequest`), `json.Marshal` of a subscription, the reading of a payload as a
JSON value (the syntactic part of `json.Unmarshal`), and, for one entry of the payload,
`json.Marshal` of the entry followed by `json.Unmarshal` into a `webhook.W`. For the typed
part of `json.Unmarshal`: `parseFloatOK` says whether `strconv.ParseFloat(literal, 64)`
succeeds on a number literal (it fails on one that overflows a `float64`), and `typeError`
gives the text of the `UnmarshalTypeError` saved for the value found under a path of keys
(the empty path for the payload itself), a text that depends on the release of Go. -/
structure GoLib where
  parse : String → Except Error URL
  marshalW : W → Except Error Bytes
  parseJSON : Bytes → Except Error JSON
  hookOf : JSON → Except Error W
  parseFloatOK : String → Bool
  typeError : List String → JSON → Error

/-- The type `YggdrasilConfig`; `Auth` is the result of `Auth.Acquire()`. -/
structure YggdrasilConfig where
  Prefix : String := ""
  Address : String := ""
  Auth : Except Error String := .ok ""

/-- The type `YggdrasilClient`; `client` is the method `Do` of its `*http.Client`. -/
structure YggdrasilClient where
  client : Request → Except Error Response
  config : YggdrasilConfig := {}

/-- What a call of `Push` or `Remove` did: the error it returned, whether the token was
acquired, and the requests it handed to the HTTP client. -/
structure StoreOutcome where
  err : Option Error
  acquired : Bool := false
  sent : List Request := []
  deriving DecidableEq, Repr

/-- What a call of `GetWebhook` did, when it returned. -/
structure FetchOutcome where
  hooks : List W := []
  err : Option Error
  acquired : Bool := false
  sent : List Request := []
  deriving DecidableEq, Repr

namespace YggdrasilClient

/-- The URL text of `GetWebhook`: `fmt.Sprint("%s/store/%s", address, prefix)`. -/
def getURL (c : YggdrasilClient) : String :=
  fmtSprint ["%s/store/%s", c.config.Address, c.config.Prefix]

/-- The `id` of `Push`: `base64.RawURLEncoding.EncodeToString([]byte(w.ID()))`. -/
def pushID (w : W) : String := RawURLEncoding.EncodeToString (stringBytes w.ID)

/-- The URL text of `Push`: `fmt.Sprint("%s/store/%s/%s", address, prefix, id)`. -/
def pushURL (c : YggdrasilClient) (w : W) : String :=
  fmtSprint ["%s/store/%s/%s", c.config.Address, c.config.Prefix, pushID w]

/-- The URL text of `Remove`: `fmt.Sprint("%s/store/%s/%s", address, prefix, id)`. -/
def removeURL (c : YggdrasilClient) (id : String) : String :=
  fmtSprint ["%s/store/%s/%s", c.config.Address, c.config.Prefix, id]

/-- The error `json.Unmarshal` saves while it stores the member of the payload with key `k`
into a `map[string]interface{}`: a value that is an object is stored, its numbers as
`float64`, and a number literal that does not fit a `float64` is a type error; `null` is
stored as a nil map; any other value is a type error. -/
def entryError (lib : GoLib) (k : String) (v : JSON) : Option Error :=
  match v with
  | .object _ =>
    if v.numbers.all lib.parseFloatOK then none else some (lib.typeError [k] v)
  | .null => none
  | _ => some (lib.typeError [k] v)

/-- The typed part of `json.Unmarshal(data, &body)` for the members of the payload object:
`body` is a `map[string]map[string]interface{}`. `json.Unmarshal` goes on after an error and
returns the first error it saved; the map it has filled by then is not used by the caller,
so the model stops at that error. -/
def unmarshalStoreLoop (lib : GoLib) :
    List (String × JSON) → GoMap JSON → Except Error (GoMap JSON)
  | [], body => .ok body
  | (k, v) :: rest, body =>
    match entryError lib k v with
    | some err => .error err
    | none => unmarshalStoreLoop lib rest (GoMap.set body k v)

/-- The typed part of `json.Unmarshal(data, &body)`: the payload must be an object (or
`null`, which leaves the empty map). -/
def unmarshalStore (lib : GoLib) : JSON → Except Error (GoMap JSON)
  | .null => .ok []
  | .object members => unmarshalStoreLoop lib members []
  | v => .error (lib.typeError [] v)

/-- The loop of `GetWebhook` over the entries of `body`: an entry that does not marshal or
does not unmarshal into a subscription is passed over, the others are appended. -/
def hooksLoop (hookOf : JSON → Except Error W) : List JSON → List W → List W
  | [], hooks => hooks
  | value :: rest, hooks =>
    match hookOf value with
    | .error _ => hooksLoop hookOf rest hooks
    | .ok hook => hooksLoop hookOf rest (hooks ++ [hook])

/-- The parsing step of `GetWebhook` (from `json.Unmarshal(data, &body)` to the end): the
payload is read into `body`, an error of which is returned with no subscriptions; then the
entries are decoded one by one. -/
def decodeHooks (lib : GoLib) (data : Bytes) : List W × Option Error :=
  match lib.parseJSON data with
  | .error err => ([], some err)
  | .ok payload =>
    match unmarshalStore lib payload with
    | .error err => ([], some err)
    | .ok body => (hooksLoop lib.hookOf (GoMap.values body) [], none)

/-- The method `YggdrasilClient.GetWebhook` from the acquisition of the token on, for the
request `http.NewRequest` has returned; `none` is a panic. The payload is read from
`request.Body`, on which `ioutil.ReadAll` panics when it is nil. -/
def getWebhookFrom (lib : GoLib) (c : YggdrasilClient) (request : Request) :
    Option FetchOutcome :=
  match c.config.Auth with
  | .error err => some { err := some err, acquired := true }
  | .ok auth =>
    let request :=
      if auth ≠ "" then { request with Header := headerAdd request.Header "Authorization" auth }
      else request
    match c.client request with
    | .error err => some { err := some err, acquired := true, sent := [request] }
    | .ok response =>
      if response.StatusCode ≠ 200 then
        some { err := some "failed to get webhooks, non 200 statuscode", acquired := true,
               sent := [request] }
      else
        match request.Body with
        | none => none
        | some body =>
          match body.readAll with
          | (_, some err) => some { err := some err, acquired := true, sent := [request] }
          | (data, none) =>
            some { hooks := (decodeHooks lib data).1, err := (decodeHooks lib data).2,
                   acquired := true, sent := [request] }

/-- The method `YggdrasilClient.GetWebhook`; `none` is a panic. The request is made with a
nil body. -/
def GetWebhook (lib : GoLib) (c : YggdrasilClient) : Option FetchOutcome :=
  match NewRequest lib.parse "GET" (getURL c) none with
  | .error err => some { err := some err }
  | .ok request => getWebhookFrom lib c request

/-- The method `YggdrasilClient.Push`. -/
def Push (lib : GoLib) (c : YggdrasilClient) (w : W) : StoreOutcome :=
  match lib.marshalW w with
  | .error err => { err := some err }
  | .ok data =>
    match NewRequest lib.parse "POST" (pushURL c w) (some (Body.data data)) with
    | .error err => { err := some err }
    | .ok request =>
      match c.config.Auth with
      | .error err => { err := some err, acquired := true }
      | .ok auth =>
        let request :=
          if auth ≠ "" then
            { request with Header := headerAdd request.Header "Authorization" auth }
          else request
        match c.client request with
        | .error err => { err := some err, acquired := true, sent := [request] }
        | .ok response =>
          if response.StatusCode ≠ 200 then
            { err := some "failed to push webhook, non 200 statuscode", acquired := true,
              sent := [request] }
          else { err := none, acquired := true, sent := [request] }

/-- The method `YggdrasilClient.Remove`. -/
def Remove (lib : GoLib) (c : YggdrasilClient) (id : String) : StoreOutcome :=
  match NewRequest lib.parse "DELETE" (removeURL c id) none with
  | .error err => { err := some err }
  | .ok request =>
    match c.config.Auth with
    | .error err => { err := some err, acquired := true }
    | .ok auth =>
      let request :=
        if auth ≠ "" then { request with Header := headerAdd request.Header "Authorization" auth }
        else request
      match c.client request with
      | .error err => { err := some err, acquired := true, sent := [request] }
      | .ok response =>
        if response.StatusCode ≠ 200 then
          { err := some "failed to delete webhook, non 200 statuscode", acquired := true,
            sent := [request] }
        else { err := none, acquired := true, sent := [request] }

end YggdrasilClient

/-- The table `parseTable` extended with the texts that begin with the characters `%s/`:
`url.Parse` rejects them, the percent sign not being followed by two hexadecimal digits
(the message is the one for a text without control characters and without fragment). -/
def parseEscapeTable (s : String) : Except Error URL :=
  if "%s/".toList.isPrefixOf s.toList then
    .error ("parse \"" ++ s ++ "\": invalid URL escape \"%s/\"")
  else parseTable s

/-- The payload `{"a":{"config":{"url":"http://a"}},"b":{"config":5},"c":null}`. -/
def payloadMixed : Bytes :=
  stringBytes
    "\x7b\"a\":\x7b\"config\":\x7b\"url\":\"http://a\"\x7d\x7d,\"b\":\x7b\"config\":5\x7d,\"c\":null\x7d"

/-- The payload `{"a":"oops","b":{"config":{"url":"http://b"}}}`. -/
def payloadWithString : Bytes :=
  stringBytes "\x7b\"a\":\"oops\",\"b\":\x7b\"config\":\x7b\"url\":\"http://b\"\x7d\x7d\x7d"

/-- The payload `{"a":{"n":1e999},"b":{"config":{"url":"http://b"}}}`, whose entry `a` holds
a number that overflows a `float64`. -/
def payloadOverflow : Bytes :=
  stringBytes
    "\x7b\"a\":\x7b\"n\":1e999\x7d,\"b\":\x7b\"config\":\x7b\"url\":\"http://b\"\x7d\x7d\x7d"

/-- The JSON values of the three payloads above; no other payload is tabulated. -/
def jsonTable (data : Bytes) : Except Error JSON :=
  if data = payloadOverflow then
    .ok (.object [("a", .object [("n", .number "1e999")]),
                  ("b", .object [("config", .object [("url", .string "http://b")])])])
  else if data = payloadMixed then
    .ok (.object [("a", .object [("config", .object [("url", .string "http://a")])]),
                  ("b", .object [("config", .number "5")]),
                  ("c", .null)])
  else if data = payloadWithString then
    .ok (.object [("a", .string "oops"),
                  ("b", .object [("config", .object [("url", .string "http://b")])])])
  else .error "not tabulated"

/-- Modelled from the spec: the decoding of a payload entry into a `webhook.W` (a type
declared outside the available sources), on the entries of the payloads above, after the
schema of section 6: an entry with just a `config.url` gives the subscription with that URL,
`null` leaves the zero subscription, and a `config` that is a number is a type error. No
other entry is tabulated. -/
def hookTable : JSON → Except Error W
  | .null => .ok {}
  | .object [("config", .object [("url", .string url)])] => .ok { Config := { URL := url } }
  | .object [("config", .number _)] =>
    .error "json: cannot unmarshal number into Go struct field W.config"
  | _ => .error "not tabulated"

/-- The text of an `UnmarshalTypeError` in the wording that names the value and the type
only, for the payload itself and for one of its members. -/
def typeErrorText (path : List String) (v : JSON) : Error :=
  match path, v with
  | [], v =>
    "json: cannot unmarshal " ++ v.kind
      ++ " into Go value of type map[string]map[string]interface {}"
  | _, .object members =>
    "json: cannot unmarshal number "
      ++ ((JSON.numbersOfMembers members).find? (fun literal => literal = "1e999")).getD ""
      ++ " into Go value of type float64"
  | _, v => "json: cannot unmarshal " ++ v.kind ++ " into Go value of type map[string]interface {}"

/-- The library functions on the texts and payloads of the examples: of the number literals
of the examples, `1e999` alone does not fit a `float64`. -/
def sampleLib : GoLib :=
  { parse := parseEscapeTable,
    marshalW := fun _ => .error "not tabulated",
    parseJSON := jsonTable,
    hookOf := hookTable,
    parseFloatOK := fun literal => decide (literal ≠ "1e999"),
    typeError := typeErrorText }

/-- The library `sampleLib` with a parser that takes every text as a path. Go's `url.Parse`
rejects the URL text of `GetWebhook`, so that the steps after `http.NewRequest` are reached
with such a parser only. -/
def lenientLib : GoLib :=
  { sampleLib with parse := fun s => .ok { Path := s } }

/-- A remote store at `http://yggdrasil:8080` with the prefix `hooks`, whose HTTP client
answers every request with a 200 that carries the given body. -/
def sampleClient (body : Option Body) : YggdrasilClient :=
  { client := fun _ => .ok { StatusCode := 200, Body := body },
    config := { Prefix := "hooks", Address := "http://yggdrasil:8080", Auth := .ok "Bearer t" } }

/-! ## `secure/handler`: `WriteJsonError` -/

/-- The constant `JsonContentType`. -/
def JsonContentType : String := "application/json; charset=UTF-8"

/-- The constant `ContentTypeHeader`. -/
def ContentTypeHeader : String := "Content-Type"

/-- The constant `ContentTypeOptionsHeader`. -/
def ContentTypeOptionsHeader : String := "X-Content-Type-Options"

/-- The constant `NoSniff`. -/
def NoSniff : String := "nosniff"

/-- An `http.ResponseWriter` that records what it is given: the header map, the status code
once written, and the text written to the body; `writeError` is the error its `Write`
returns, if it fails. Writers differ on a status from 100 to 199: the writer of the
`net/http` server (since Go 1.19) sends it at once as an informational header and waits for
the final status, a recording writer (`httptest.ResponseRecorder`) keeps it as the status;
`sendsInformational` says which, and `informational` lists the statuses sent that way. -/
structure ResponseWriter where
  header : Header := []
  code : Option Int := none
  body : String := ""
  writeError : Option Error := none
  sendsInformational : Bool := false
  informational : List Int := []
  deriving DecidableEq, Repr

/-- The method `Header.Set` of `net/http`: the value replaces those under the canonical key. -/
def headerSet (h : Header) (key value : String) : Header :=
  GoMap.set h (CanonicalMIMEHeaderKey key) [value]

/-- The method `WriteHeader`: the first status code written is kept, and a call after it
does nothing. Before it, `net/http` checks the code (`checkWriteHeaderCode`): a code below
100 or above 999 panics (`invalid WriteHeader code`), which is `none`; a code from 100 to
199 other than 101 is sent as an informational header by a writer that does so, and the
status is still to be written. -/
def ResponseWriter.WriteHeader (w : ResponseWriter) (code : Int) : Option ResponseWriter :=
  match w.code with
  | some _ => some w
  | none =>
    if code < 100 ∨ code > 999 then none
    else if w.sendsInformational = true ∧ code ≤ 199 ∧ code ≠ 101 then
      some { w with informational := w.informational ++ [code] }
    else some { w with code := some code }

/-- The status after the implicit `WriteHeader(http.StatusOK)` of a `Write`. -/
def ResponseWriter.writeStatusOK (w : ResponseWriter) : ResponseWriter :=
  match w.code with
  | some _ => w
  | none => { w with code := some 200 }

/-- The method `Write`, given text: the status 200 is written if none was, then the text is
appended, unless the writer fails. -/
def ResponseWriter.Write (w : ResponseWriter) (text : String) : ResponseWriter × Option Error :=
  match w.writeError with
  | some err => (w.writeStatusOK, some err)
  | none => ({ w.writeStatusOK with body := w.body ++ text }, none)

/-- The function `WriteJsonError`: `fmt.Fprintf` with the verb `%s` writes the message as it
is between the two parts of the format text. `none` is the panic of `WriteHeader` on a code
that is not a status code. -/
def WriteJsonError (response : ResponseWriter) (code : Int) (message : String) :
    Option (ResponseWriter × Option Error) :=
  let response := { response with header := headerSet response.header ContentTypeHeader JsonContentType }
  let response := { response with header := headerSet response.header ContentTypeOptionsHeader NoSniff }
  match response.WriteHeader code with
  | none => none
  | some response => some (response.Write ("\x7b\"message\": \"" ++ message ++ "\"\x7d"))

/-- The value of a hexadecimal digit. -/
def hexDigit (c : Char) : Option Nat :=
  if '0' ≤ c ∧ c ≤ '9' then some (c.toNat - 48)
  else if 'a' ≤ c ∧ c ≤ 'f' then some (c.toNat - 87)
  else if 'A' ≤ c ∧ c ≤ 'F' then some (c.toNat - 55)
  else none

/-- The characters of a JSON string literal after its opening quote, decoded, with what
follows the closing quote (RFC 8259): a quotation mark ends the literal, a backslash starts
an escape, and a control character is not allowed. -/
def jsonStringChars : List Char → Option (List Char × List Char)
  | [] => none
  | '"' :: rest => some ([], rest)
  | '\\' :: 'u' :: h1 :: h2 :: h3 :: h4 :: rest =>
    match hexDigit h1, hexDigit h2, hexDigit h3, hexDigit h4, jsonStringChars rest with
    | some d1, some d2, some d3, some d4, some (s, after) =>
      some (Char.ofNat (d1 * 4096 + d2 * 256 + d3 * 16 + d4) :: s, after)
    | _, _, _, _, _ => none
  | '\\' :: c :: rest =>
    let decoded : Option Char :=
      if c = '"' then some '"'
      else if c = '\\' then some '\\'
      else if c = '/' then some '/'
      else if c = 'b' then some (Char.ofNat 8)
      else if c = 'f' then some (Char.ofNat 12)
      else if c = 'n' then some '\n'
      else if c = 'r' then some '\r'
      else if c = 't' then some '\t'
      else none
    match decoded, jsonStringChars rest with
    | some d, some (s, after) => some (d :: s, after)
    | _, _ => none
  | c :: rest =>
    if c.toNat < 32 then none
    else
      match jsonStringChars rest with
      | some (s, after) => some (c :: s, after)
      | none => none

/-- Removal of leading JSON white space. -/
def skipWs : List Char → List Char
  | c :: rest => if c = ' ' ∨ c = '\t' ∨ c = '\n' ∨ c = '\r' then skipWs rest else c :: rest
  | [] => []

/-- A JSON string literal at the head of the text, after white space: its decoded value and
the rest. -/
def jsonStringLit (cs : List Char) : Option (List Char × List Char) :=
  match skipWs cs with
  | '"' :: rest => jsonStringChars rest
  | _ => none

/-- The reading of a body as a JSON object with the single member `message` whose value is a
string: the decoded value of that string, or `none` when the body is not such an object. -/
def decodeMessageObject (body : String) : Option String :=
  match skipWs body.toList with
  | '\x7b' :: rest =>
    match jsonStringLit rest with
    | some (name, rest) =>
      if name = "message".toList then
        match skipWs rest with
        | ':' :: rest =>
          match jsonStringLit rest with
          | some (value, rest) =>
            match skipWs rest with
            | '\x7d' :: rest => if skipWs rest = [] then some (String.mk value) else none
            | _ => none
          | none => none
        | _ => none
      else none
    | none => none
  | _ => none

/-! ## `device/devicegate`: the filter gate -/

/-- A Go value of type `interface{}` as the gate meets it (filter values and device metadata
come from JSON): nil, a boolean, a number (an integer here; floating point is left out), a
string, a slice or a map. -/
inductive Value where
  | null
  | bool (b : Bool)
  | number (n : Int)
  | string (s : String)
  | slice (elems : List Value)
  | map (fields : List (String × Value))
  deriving Repr

/-- Whether a value can be the key of a Go map: a slice or a map cannot, and using one as a
key panics (`runtime error: hash of unhashable type`). -/
def Value.hashable : Value → Bool
  | .slice _ => false
  | .map _ => false
  | _ => true

/-- Equality of two map keys: both are values that can be keys. -/
def Value.keyEq : Value → Value → Bool
  | .null, .null => true
  | .bool a, .bool b => a == b
  | .number a, .number b => a == b
  | .string a, .string b => a == b
  | _, _ => false

/-- The type `FilterSet`: `map[interface{}]bool`, as a list of bindings. -/
abbrev FilterSet := List (Value × Bool)

namespace FilterSet

/-- The index expression `s[key]` for a key that can be hashed: `false` when the key is not
bound. -/
def get : FilterSet → Value → Bool
  | [], _ => false
  | (k, b) :: s, key => if k.keyEq key then b else get s key

/-- The assignment `s[key] = b` for a key that can be hashed. -/
def set (s : FilterSet) (key : Value) (b : Bool) : FilterSet :=
  s.filter (fun e => !e.1.keyEq key) ++ [(key, b)]

/-- The method `FilterSet.Has`: `s[key]`; `none` is the panic on a key that cannot be
hashed. -/
def Has (s : FilterSet) (key : Value) : Option Bool :=
  if key.hashable then some (s.get key) else none

end FilterSet

/-- The type `FilterGate`, without its lock; a `Set` is a `FilterSet`, the implementation of
the interface in the package, and `none` is the nil `Set`. The `FilterStore` of the zero
`FilterGate` is the nil map, `none`: it reads as the empty map, and an assignment to one of
its entries panics. -/
structure FilterGate where
  FilterStore : Option (GoMap FilterSet) := none
  AllowedFilters : Option FilterSet := none
  deriving Repr

namespace FilterGate

/-- The bindings of the filter store, as an index expression or a `range` sees them: none
for the nil map. -/
def store (f : FilterGate) : GoMap FilterSet := f.FilterStore.getD []

/-- The loop of `SetFilter`: `newValues[v] = true` for every value; `none` is the panic on
a value that cannot be hashed. -/
def setFilterLoop : List Value → FilterSet → Option FilterSet
  | [], newValues => some newValues
  | v :: values, newValues =>
    if v.hashable then setFilterLoop values (newValues.set v true) else none

/-- The method `FilterGate.SetFilter`: the gate afterwards, the old `Set` and the boolean;
`none` is a panic, of the loop on a value that cannot be hashed or of the assignment
`f.FilterStore[key] = newValues` on the nil map. -/
def SetFilter (f : FilterGate) (key : String) (values : List Value) :
    Option (FilterGate × Option FilterSet × Bool) :=
  let oldValues := GoMap.get f.store key
  match setFilterLoop values [] with
  | none => none
  | some newValues =>
    match f.FilterStore with
    | none => none
    | some filterStore =>
      let f := { f with FilterStore := some (GoMap.set filterStore key newValues) }
      match oldValues with
      | none => some (f, oldValues, true)
      | some _ => some (f, oldValues, false)

/-- The method `FilterGate.GetFilter`. -/
def GetFilter (f : FilterGate) (key : String) : Option FilterSet × Bool :=
  match GoMap.get f.store key with
  | some v => (some v, true)
  | none => (none, false)

/-- The method `FilterGate.DeleteFilter`. -/
def DeleteFilter (f : FilterGate) (key : String) : FilterGate × Bool :=
  match GoMap.get f.store key with
  | some _ =>
    ({ f with FilterStore := f.FilterStore.map (fun filterStore => GoMap.delete filterStore key) },
      true)
  | none => (f, false)

end FilterGate

/-- A gate that filters on one key. -/
def sampleGate : FilterGate :=
  { FilterStore := some [("partner-id", [(Value.string "comcast", true)])] }

/-! ## `secure/tools/cmd/keyserver`: `NumericDate` -/

/-- The value of a decimal digit. -/
def decimalDigit (c : Char) : Option Nat :=
  if '0' ≤ c ∧ c ≤ '9' then some (c.toNat - 48) else none

/-- The loop of Go's `strconv.ParseUint` in base 10: every character must be a digit. -/
def parseUintLoop : List Char → Nat → Option Nat
  | [], n => some n
  | c :: cs, n =>
    match decimalDigit c with
    | some d => parseUintLoop cs (n * 10 + d)
    | none => none

/-- Go's `strconv.ParseInt(text, 10, 64)`: an optional sign, then at least one digit and
digits only; a value outside the range of an `int64` is an error. -/
def ParseInt (text : String) : Except Error Int :=
  match text.toList with
  | [] => .error "invalid syntax"
  | c :: cs =>
    let neg := decide (c = '-')
    let digits := if c = '+' ∨ c = '-' then cs else c :: cs
    match digits with
    | [] => .error "invalid syntax"
    | d :: ds =>
      match parseUintLoop (d :: ds) 0 with
      | none => .error "invalid syntax"
      | some un =>
        if !neg && un ≥ 9223372036854775808 then .error "value out of range"
        else if neg && un > 9223372036854775808 then .error "value out of range"
        else if neg then .ok (-(un : Int)) else .ok (un : Int)

/-- A `time.Time`, as the nanoseconds since the Unix epoch. -/
abbrev Time := Int

/-- The method `Time.Add`. -/
def Time.Add (t : Time) (d : Int) : Time := t + d

/-- The method `Time.Unix`: the whole seconds since the epoch. -/
def Time.Unix (t : Time) : Int := t / 1000000000

/-- The functions of Go's `time` package that `UnmarshalText` calls: `time.ParseDuration`
and `time.Parse`. -/
structure TimeLib where
  ParseDuration : String → Except Error Int
  Parse : String → String → Except Error Time

/-- The variable `supportedNumericDateLayouts`: `time.RFC3339`, `time.RFC822`,
`time.RFC822Z`. -/
def supportedNumericDateLayouts : List String :=
  ["2006-01-02T15:04:05Z07:00", "02 Jan 06 15:04 MST", "02 Jan 06 15:04 -0700"]

/-- The type `NumericDate`. -/
structure NumericDate where
  duration : Int := 0
  absolute : Int := 0
  deriving DecidableEq, Repr

namespace NumericDate

/-- The loop of `UnmarshalText` over the layouts: the first layout the text parses with gives
the date; `none` when the text parses with no layout. -/
def layoutsLoop (lib : TimeLib) (text : String) : List String → Option NumericDate
  | [] => none
  | layout :: layouts =>
    match lib.Parse layout text with
    | .ok value => some { duration := 0, absolute := value.Unix }
    | .error _ => layoutsLoop lib text layouts

/-- The method `(*NumericDate).UnmarshalText`: the date afterwards and the error; the text
is given as a string. -/
def UnmarshalText (lib : TimeLib) (nd : NumericDate) (raw : String) :
    NumericDate × Option Error :=
  if raw.length = 0 then ({}, none)
  else
    match ParseInt raw with
    | .ok value => ({ duration := 0, absolute := value }, none)
    | .error _ =>
      match lib.ParseDuration raw with
      | .ok duration => ({ duration := duration, absolute := 0 }, none)
      | .error _ =>
        match layoutsLoop lib raw supportedNumericDateLayouts with
        | some date => (date, none)
        | none => (nd, some ("Unparseable datetime: " ++ raw))

/-- The method `(*NumericDate).Compute`. -/
def Compute (nd : NumericDate) (now : Time) : Int :=
  if nd.absolute ≠ 0 then nd.absolute else (now.Add nd.duration).Unix

end NumericDate

/-- A `time` library in which nothing parses as a duration or as a date. -/
def timeLibNone : TimeLib :=
  { ParseDuration := fun _ => .error "time: invalid duration",
    Parse := fun _ _ => .error "parsing time: cannot parse" }

/-- Go's `strconv.FormatInt(v, 10)`: the decimal text of an integer. -/
def FormatInt (v : Int) : String :=
  if v < 0 then String.mk ('-' :: Nat.toDigits 10 v.natAbs) else String.mk (Nat.toDigits 10 v.natAbs)

/-! ## `server`: the health server -/

/-- A `health.Health` monitor, as `health.New` builds it: the interval, the logger and the
options. -/
structure health.Health where
  statDumpInterval : Int := 0
  log : Logger := ""
  options : List String := []
  deriving DecidableEq, Repr

/-- The function `health.New`; an option is given by its name. -/
def health.New (interval : Int) (log : Logger) (options : List String) : health.Health :=
  { statDumpInterval := interval, log := log, options := options }

/-- The option `health.Stat(value)`. -/
def health.Stat (value : String) : String := value

/-- The `*http.Server` that `Health.New` builds: its address, the monitor its mux serves under
each pattern, the name and logger of its error log and, if set, those of its connection
state logger. -/
structure HTTPServer where
  Addr : String
  Handler : List (String × health.Health)
  ErrorLog : String × Logger
  ConnState : Option (String × Logger) := none
  deriving DecidableEq, Repr

/-- The type `Health` of the package `server`: the configuration of the health server. -/
structure Health where
  Name : String := ""
  Address : String := ""
  CertificateFile : String := ""
  KeyFile : String := ""
  LogConnectionState : Bool := false
  LogInterval : Int := 0
  Options : List String := []
  deriving DecidableEq, Repr

/-- The method `(*Health).NewHealth`; `none` is nil. -/
def Health.NewHealth (h : Health) (logger : Logger) (options : List String) :
    Option health.Health :=
  if h.Address.length = 0 then none
  else some (health.New h.LogInterval logger (options ++ h.Options.map health.Stat))

/-- The method `(*Health).New`: the monitor and the server, `none` being nil; the parameter
`health` of the source is `monitor` here. -/
def Health.New (h : Health) (logger : Logger) (monitor : Option health.Health) :
    Option health.Health × Option HTTPServer :=
  if h.Address.length = 0 then (none, none)
  else
    let monitor := match monitor with
      | some m => some m
      | none => h.NewHealth logger []
    match monitor with
    | none => (none, none)
    | some m =>
      let server : HTTPServer :=
        { Addr := h.Address, Handler := [("/health", m)], ErrorLog := (h.Name, logger) }
      let server :=
        if h.LogConnectionState then { server with ConnState := some (h.Name, logger) }
        else server
      (some m, some server)

/-! ## `webhook/aws`: the SNS signature text -/

/-- The text `fmt.Sprintf` writes for arguments left over after the format: `string=` and
the argument, separated by commas. -/
def sprintfExtra : List String → List Char
  | [] => []
  | [a] => "string=".toList ++ a.toList
  | a :: rest => "string=".toList ++ a.toList ++ ", ".toList ++ sprintfExtra rest

/-- The loop of Go's `fmt.Sprintf` over a format whose verbs are all `%s`, with string
arguments: each `%s` is replaced by the next argument (by `%!s(MISSING)` when there is none),
`%%` is a percent sign, and arguments left over are reported at the end. -/
def sprintfLoop : List Char → List String → List Char
  | [], [] => []
  | [], a :: args => "%!(EXTRA ".toList ++ sprintfExtra (a :: args) ++ [')']
  | '%' :: 's' :: format, a :: args => a.toList ++ sprintfLoop format args
  | '%' :: 's' :: format, [] => "%!s(MISSING)".toList ++ sprintfLoop format []
  | '%' :: '%' :: format, args => '%' :: sprintfLoop format args
  | c :: format, args => c :: sprintfLoop format args

/-- Go's `fmt.Sprintf` on a format whose verbs are all `%s` and string arguments. -/
def fmtSprintf (format : String) (args : List String) : String :=
  String.mk (sprintfLoop format.toList args)

/-- The type `SNSMessage`, declared in another file of the package: the fields that
`generateSignature` and `Validate` read, all strings. The field `Type` of the source is
`MessageType` here. -/
structure SNSMessage where
  MessageType : String := ""
  MessageId : String := ""
  TopicArn : String := ""
  Subject : String := ""
  Message : String := ""
  Timestamp : String := ""
  Signature : String := ""
  SigningCertURL : String := ""
  deriving DecidableEq, Repr

/-- A `hash.Hash`, seen as the bytes written to it. -/
structure Hash where
  written : Bytes := []
  deriving DecidableEq, Repr

/-- The method `Write` of a hash. -/
def Hash.Write (h : Hash) (p : Bytes) : Hash := { written := h.written ++ p }

/-- The function `generateSignature`: the SHA-1 hash to which the formatted text has been
written. -/
def generateSignature (msg : SNSMessage) : Hash :=
  let formated :=
    if msg.Subject ≠ "" then
      fmtSprintf "%s\n%s\n%s\n%s\n%s\n%s\n%s\n%s\n%s\n%s\n%s\n%s\n"
        ["Message", msg.Message, "MessageId", msg.MessageId, "Subject", msg.Subject,
         "Timestamp", msg.Timestamp, "TopicArn", msg.TopicArn, "Type", msg.MessageType]
    else
      fmtSprintf "%s\n%s\n%s\n%s\n%s\n%s\n%s\n%s\n%s\n%s\n"
        ["Message", msg.Message, "MessageId", msg.MessageId,
         "Timestamp", msg.Timestamp, "TopicArn", msg.TopicArn, "Type", msg.MessageType]
  let h : Hash := {}
  h.Write (stringBytes formated)

/-- The name/value pairs of an SNS notification that enter its signature, in the order of the
claim: the `Subject` pair is there when the subject is not empty. -/
def signedPairs (msg : SNSMessage) : List (String × String) :=
  [("Message", msg.Message), ("MessageId", msg.MessageId)]
    ++ (if msg.Subject = "" then [] else [("Subject", msg.Subject)])
    ++ [("Timestamp", msg.Timestamp), ("TopicArn", msg.TopicArn), ("Type", msg.MessageType)]

/-- An SNS notification with a subject. -/
def sampleSNSMessage : SNSMessage :=
  { MessageType := "Notification", MessageId := "22b80b92", TopicArn := "arn:aws:sns:us-west-2:1:T",
    Subject := "My First Message", Message := "Hello world!",
    Timestamp := "2012-05-02T00:54:06.655Z" }

/-! ## `secure/handler`: `AuthorizationHandler` -/

/-- The method `Header.Get` of `net/http`: the first value under the canonical key, or the
empty string. -/
def headerGet (h : Header) (key : String) : String :=
  match GoMap.get h (CanonicalMIMEHeaderKey key) with
  | some (v :: _) => v
  | _ => ""

/-- The constant `secure.AuthorizationHeader`, declared in the package `secure`. -/
def AuthorizationHeader : String := "Authorization"

/-- The constant `http.StatusForbidden`. -/
def StatusForbidden : Int := 403

/-- A `secure.Token`, declared in the package `secure`: its type and its value. -/
structure Token where
  tokenType : String
  value : String
  deriving DecidableEq, Repr

/-- The token type `secure.Bearer`. -/
def Bearer : String := "Bearer"

/-- The type `ContextValues`, declared in another file of the package: the fields that
`Decorate` and `populateContextValues` write. -/
structure ContextValues where
  SatClientID : String := ""
  Method : String := ""
  Path : String := ""
  PartnerIDs : List String := []
  deriving DecidableEq, Repr

/-- The functions of the package `secure` that the handler calls: `ParseAuthorization`, and
`DefaultJWSParser.ParseJWS` followed by the assertion that the payload is a set of claims
(`none` when it is not). -/
structure SecureLib where
  ParseAuthorization : String → Except Error Token
  ParseJWS : Token → Except Error (Option (GoMap Value))

/-- A `secure.Validator`: its method `Validate`, given the values the shared context carries
and the token. -/
abbrev Validator := ContextValues → Token → Bool × Option Error

/-- An `http.Handler`: its method `ServeHTTP`, given the `ContextValues` that the context of
the request carries, if any; `none` is a panic. -/
abbrev Handler := Option ContextValues → ResponseWriter → Request → Option ResponseWriter

/-- The type `AuthorizationHandler`; the logger and the measures, which do not bear on the
response, are left out. -/
structure AuthorizationHandler where
  HeaderName : String := ""
  ForbiddenStatusCode : Int := 0
  Validator : Option Validator := none

namespace AuthorizationHandler

/-- The method `headerName`. -/
def headerName (a : AuthorizationHandler) : String :=
  if a.HeaderName.length > 0 then a.HeaderName else AuthorizationHeader

/-- The method `forbiddenStatusCode`. -/
def forbiddenStatusCode (a : AuthorizationHandler) : Int :=
  if a.ForbiddenStatusCode > 0 then a.ForbiddenStatusCode else StatusForbidden

end AuthorizationHandler

/-- The function `populateContextValues`: the values afterwards and the error. The partner
ids are set only from a value of type `[]string`, which no `Value` is. -/
def populateContextValues (lib : SecureLib) (token : Token) (values : ContextValues) :
    ContextValues × Option Error :=
  let values := { values with SatClientID := "N/A" }
  if token.tokenType ≠ Bearer then (values, none)
  else
    match lib.ParseJWS token with
    | .error err => (values, some err)
    | .ok none => (values, some "no claims")
    | .ok (some claims) =>
      match GoMap.get claims "sub" with
      | some (Value.string sub) => ({ values with SatClientID := sub }, none)
      | _ => (values, none)

/-- The method `AuthorizationHandler.Decorate`. The handler it returns panics on a request
without URL once the header has parsed, and where `WriteJsonError` panics; `none` is a
panic. -/
def AuthorizationHandler.Decorate (lib : SecureLib) (a : AuthorizationHandler)
    (delegate : Handler) : Handler :=
  match a.Validator with
  | none => delegate
  | some validator =>
    let headerName := a.headerName
    let forbiddenStatusCode := a.forbiddenStatusCode
    fun _ response request =>
      let headerValue := headerGet request.Header headerName
      if headerValue.length = 0 then
        (WriteJsonError response forbiddenStatusCode
          (fmtSprintf "missing header: %s" [headerName])).map Prod.fst
      else
        match lib.ParseAuthorization headerValue with
        | .error err =>
          (WriteJsonError response forbiddenStatusCode
            (fmtSprintf "Invalid authorization header [%s]: %s" [headerName, err])).map Prod.fst
        | .ok token =>
          match request.URL with
          | none => none
          | some url =>
            let contextValues : ContextValues := { Method := request.Method, Path := url.Path }
            match validator contextValues token with
            | (true, none) =>
              delegate (some (populateContextValues lib token contextValues).1) response request
            | _ => (WriteJsonError response forbiddenStatusCode "request denied").map Prod.fst

/-- The functions of `secure` on the tokens of the examples: a header value `Basic <text>`
parses as a token of type `Basic`, anything else is not tabulated; no JWS is parsed. -/
def secureTable : SecureLib :=
  { ParseAuthorization := fun s =>
      if "Basic ".toList.isPrefixOf s.toList then
        .ok { tokenType := "Basic", value := String.mk (s.toList.drop 6) }
      else .error "not tabulated",
    ParseJWS := fun _ => .error "not tabulated" }

/-- A validator that accepts the one token value `dXNlcjpwYXNz`. -/
def sampleValidator : Validator :=
  fun _ token => (decide (token.value = "dXNlcjpwYXNz"), none)

/-- A delegate that answers 200 with the path the context carries. -/
def sampleDelegate : Handler :=
  fun values response _ =>
    some (response.Write ((values.map (fun v => v.Path)).getD "no context")).1

/-! ## `device/devicegate`: `AllowConnection` -/

/-- The constant `metadataMapLocation`. -/
def metadataMapLocation : String := "metadata_map"

/-- The constant `claimsLocation`. -/
def claimsLocation : String := "claims"

/-- The type `device.MatchResult`, as the gate fills it. -/
structure MatchResult where
  Location : String := ""
  Key : String := ""
  deriving DecidableEq, Repr

/-- A `*device.Metadata`, seen through the two methods the gate calls: `Claims()`, a
`map[string]interface{}`, and `Load(key)`, an `interface{}` that is nil (`Value.null`) when
nothing is stored under the key. -/
structure Metadata where
  Claims : GoMap Value := []
  Load : String → Value := fun _ => Value.null

/-- Whether a value is the nil interface. -/
def Value.isNil : Value → Bool
  | .null => true
  | _ => false

/-- Whether a type switch takes `case interface{}`: every value but the nil interface
implements the empty interface. -/
def Value.isInterface : Value → Bool
  | .null => false
  | _ => true

/-- Whether a type switch takes `case []interface{}`, and the elements then. -/
def Value.asSlice : Value → Option (List Value)
  | .slice elems => some elems
  | _ => none

/-- The function `filterMatch`: whether the set has one of the parameters; `none` is the
panic of `Has` on a parameter that cannot be hashed. -/
def filterMatch (filterValues : FilterSet) : List Value → Option Bool
  | [] => some false
  | param :: paramsToCheck =>
    match filterValues.Has param with
    | none => none
    | some true => some true
    | some false => filterMatch filterValues paramsToCheck

/-- The method `metadataMapMatch` (its receiver is not used): a type switch on the loaded
value, whose first case, `interface{}`, takes every value that is not nil, so that the
second case, `[]interface{}`, is reached by no value. `none` is a panic. -/
def metadataMapMatch (keyToCheck : String) (filterValues : FilterSet) (m : Metadata) :
    Option Bool :=
  let metadataVal := m.Load keyToCheck
  if !metadataVal.isNil then
    if metadataVal.isInterface then filterMatch filterValues [metadataVal]
    else
      match metadataVal.asSlice with
      | some t => filterMatch filterValues t
      | none => some false
  else some false

/-- The method `claimsMatch` (its receiver is not used): the same type switch on the claim
found under the key; a claim that is nil takes no case. `none` is a panic. -/
def claimsMatch (keyToCheck : String) (filterValues : FilterSet) (m : Metadata) :
    Option Bool :=
  let claimsMap := m.Claims
  match GoMap.get claimsMap keyToCheck with
  | some claimsVal =>
    if claimsVal.isInterface then filterMatch filterValues [claimsVal]
    else
      match claimsVal.asSlice with
      | some t => filterMatch filterValues t
      | none => some false
  | none => some false

/-- The loop of `AllowConnection` over the filter store, in the order of the list (Go leaves
the order of a map unspecified; every order is a list). -/
def allowConnectionLoop (m : Metadata) : List (String × FilterSet) → Option (Bool × MatchResult)
  | [] => some (true, {})
  | (filterKey, filterValues) :: rest =>
    match claimsMatch filterKey filterValues m with
    | none => none
    | some true => some (false, { Location := metadataMapLocation, Key := filterKey })
    | some false =>
      match metadataMapMatch filterKey filterValues m with
      | none => none
      | some true => some (false, { Location := claimsLocation, Key := filterKey })
      | some false => allowConnectionLoop m rest

/-- The method `FilterGate.AllowConnection`; the device is given by its metadata, the one
thing the method reads from it. `none` is a panic. -/
def FilterGate.AllowConnection (f : FilterGate) (d : Metadata) : Option (Bool × MatchResult) :=
  allowConnectionLoop d f.store

/-- A device whose claims bind `partner-id` to the value and whose metadata map is empty. -/
def deviceWithClaim (v : Value) : Metadata :=
  { Claims := [("partner-id", v)] }

/-- A device without claims whose metadata map binds `partner-id` to the value. -/
def deviceWithMetadata (v : Value) : Metadata :=
  { Load := fun key => if key = "partner-id" then v else Value.null }

/-! # Theorems -/

/-! ## Go maps -/

namespace GoMap

theorem get_append_single {β : Type} (m : GoMap β) (k k' : String) (v : β) :
    get (m ++ [(k, v)]) k' = (get m k').orElse (fun _ => if k = k' then some v else none) := by
  induction m with
  | nil => simp [get]
  | cons e m ih =>
    obtain ⟨k0, v0⟩ := e
    by_cases h : k0 = k'
    · simp [get, h]
    · simp [get, h, ih]

theorem get_delete {β : Type} (m : GoMap β) (k k' : String) :
    get (delete m k) k' = if k' = k then none else get m k' := by
  induction m with
  | nil => simp [get, delete]
  | cons e m ih =>
    obtain ⟨k0, v0⟩ := e
    by_cases h0 : k0 = k
    · subst h0
      by_cases h : k' = k0
      · subst h
        simpa [delete] using ih
      · have h2 : ¬ k0 = k' := fun e => h e.symm
        simp [delete, ih, h, get, h2]
    · by_cases h : k0 = k'
      · subst h
        simp [delete, get, h0]
      · simp [delete, get, h0, h, ih]

theorem get_set {β : Type} (m : GoMap β) (k k' : String) (v : β) :
    get (set m k v) k' = if k' = k then some v else get m k' := by
  unfold set
  rw [get_append_single, get_delete]
  by_cases h : k' = k
  · subst h; simp
  · have h2 : ¬ k = k' := fun e => h e.symm
    simp [h, h2]

theorem keys_delete_sublist {β : Type} (m : GoMap β) (k : String) :
    (keys (delete m k)).Sublist (keys m) := by
  induction m with
  | nil => simp [delete, keys]
  | cons e m ih =>
    obtain ⟨k0, v0⟩ := e
    unfold keys at ih ⊢
    by_cases h : k0 = k
    · simpa [delete, h] using ih.cons _
    · simpa [delete, h] using ih

theorem not_mem_keys_delete {β : Type} (m : GoMap β) (k : String) :
    k ∉ keys (delete m k) := by
  induction m with
  | nil => simp [delete, keys]
  | cons e m ih =>
    obtain ⟨k0, v0⟩ := e
    unfold keys at ih ⊢
    by_cases h : k0 = k
    · simpa [delete, h] using ih
    · have h2 : ¬ k = k0 := fun e => h e.symm
      simpa [delete, h, h2] using ih

theorem WF_delete {β : Type} (m : GoMap β) (k : String) (h : WF m) : WF (delete m k) := by
  unfold WF at h ⊢
  exact h.sublist (keys_delete_sublist m k)

theorem WF_set {β : Type} (m : GoMap β) (k : String) (v : β) (h : WF m) : WF (set m k v) := by
  have hd := WF_delete m k h
  unfold WF at hd ⊢
  have hk : keys (set m k v) = keys (delete m k) ++ [k] := by simp [set, keys]
  rw [hk, List.nodup_append]
  refine ⟨hd, List.nodup_singleton k, ?_⟩
  intro a ha hb
  simp at hb
  subst hb
  exact not_mem_keys_delete m a ha

theorem get_eq_none_iff {β : Type} (m : GoMap β) (k : String) :
    get m k = none ↔ k ∉ keys m := by
  induction m with
  | nil => simp [get, keys]
  | cons e m ih =>
    obtain ⟨k0, v0⟩ := e
    unfold keys at ih ⊢
    by_cases h : k0 = k
    · simp [get, h]
    · have h2 : ¬ k = k0 := fun e => h e.symm
      simp [get, h, h2, ih]

end GoMap

/-! ## `xhttp/fanout`: decoder, encoder and request functions -/

/-- On the model of section 4.1, a `Result` with a nil `Response` and the two-byte body `hi`
is encoded to the empty body, not to its own body. No available source has this case. -/
theorem defaultEncoder_nil_response :
    (DefaultEncoder [] { Response := none, Body := [104, 105] } []).body = [] ∧
    (DefaultEncoder [] { Response := none, Body := [104, 105] } []).body ≠ [104, 105] := by
  decide

/-- The round trip of section 4.1 where the sources agree: when the inbound body reads
successfully as `b`, `DefaultDecoder` returns the given context, `b` and a nil error;
`DefaultEncoder` applied to a `Result` whose body is `b` and whose response is non-nil (or
whose body is empty) returns exactly `b` and a nil error; so encoding the decoded body,
carried by a result with a response, yields the request's body bytes unchanged. -/
theorem defaultDecoder_defaultEncoder_roundtrip (ctx : Context) (original : Request)
    (b : Bytes) (fanout outbound : Header) (r : Result)
    (hread : original.Body = some (Body.data b))
    (hbody : r.Body = b)
    (hresp : r.Response.isSome = true ∨ b = []) :
    (DefaultDecoder ctx original fanout).map (fun d => (d.ctx, d.body, d.err))
        = some (ctx, b, none) ∧
      (DefaultEncoder ctx r outbound).body = b ∧
      (DefaultEncoder ctx r outbound).err = none ∧
      ∀ d : Decoded, DefaultDecoder ctx original fanout = some d →
        ∀ resp : Response,
          (DefaultEncoder d.ctx { Response := some resp, Body := d.body } outbound).body = b := by
  have hdec : DefaultDecoder ctx original fanout
      = some { ctx := ctx, body := b, err := none,
               fanout := copyHeaderValues "Content-Type" original.Header fanout } := by
    simp [DefaultDecoder, hread, Body.readAll]
  refine ⟨by simp [hdec], ?_, ?_, ?_⟩
  · cases hr : r.Response with
    | none =>
      rcases hresp with h | h
      · simp [hr] at h
      · simp [DefaultEncoder, hr, h]
    | some resp => simp [DefaultEncoder, hr, hbody]
  · cases hr : r.Response <;> simp [DefaultEncoder, hr]
  · intro d hd resp
    rw [hdec] at hd
    cases hd
    simp [DefaultEncoder]

/-- The round trip on a request with body `hi` and a `200` result carrying it. -/
theorem defaultDecoder_defaultEncoder_roundtrip_witness :
    (DefaultDecoder [("foo", "bar")]
        { Header := [("Content-Type", ["text/plain"])], Body := some (Body.data [104, 105]) } []
      ).map (fun d => (d.ctx, d.body, d.err)) = some ([("foo", "bar")], [104, 105], none) ∧
    (DefaultEncoder [("foo", "bar")]
        { Response := some { StatusCode := 200 }, Body := [104, 105] } []).body = [104, 105] :=
  have h := defaultDecoder_defaultEncoder_roundtrip [("foo", "bar")]
    { Header := [("Content-Type", ["text/plain"])], Body := some (Body.data [104, 105]) }
    [104, 105] [] [] { Response := some { StatusCode := 200 }, Body := [104, 105] }
    rfl rfl (Or.inl rfl)
  ⟨h.1, h.2.1⟩

theorem char_upper_range (P : Char → Prop) (hP : ∀ n : Nat, 65 ≤ n → n ≤ 90 → P (Char.ofNat n))
    (c : Char) (h1 : 65 ≤ c.toNat) (h2 : c.toNat ≤ 90) : P c := by
  have := hP c.toNat h1 h2
  rwa [Char.ofNat_toNat] at this

theorem toLower_of_not_upper (c : Char) (h : ¬ (65 ≤ c.toNat ∧ c.toNat ≤ 90)) :
    c.toLower = c := by
  unfold Char.toLower
  simp only []
  split
  · next h' => exact absurd h' h
  · rfl

theorem toUpper_toLower (c : Char) : c.toLower.toUpper = c.toUpper := by
  by_cases h : 65 ≤ c.toNat ∧ c.toNat ≤ 90
  · refine char_upper_range (fun c => c.toLower.toUpper = c.toUpper) ?_ c h.1 h.2
    intro n h1 h2
    interval_cases n <;> decide
  · rw [toLower_of_not_upper c h]

theorem toLower_toLower (c : Char) : c.toLower.toLower = c.toLower := by
  by_cases h : 65 ≤ c.toNat ∧ c.toNat ≤ 90
  · refine char_upper_range (fun c => c.toLower.toLower = c.toLower) ?_ c h.1 h.2
    intro n h1 h2
    interval_cases n <;> decide
  · simp only [toLower_of_not_upper c h]

theorem validHeaderFieldByte_toLower (c : Char) :
    validHeaderFieldByte c.toLower = validHeaderFieldByte c := by
  by_cases h : 65 ≤ c.toNat ∧ c.toNat ≤ 90
  · refine char_upper_range (fun c => validHeaderFieldByte c.toLower = validHeaderFieldByte c)
      ?_ c h.1 h.2
    intro n h1 h2
    interval_cases n <;> decide
  · rw [toLower_of_not_upper c h]

theorem canonicalLoop_map_toLower (upper : Bool) (cs : List Char) :
    canonicalLoop upper (cs.map Char.toLower) = canonicalLoop upper cs := by
  induction cs generalizing upper with
  | nil => rfl
  | cons c cs ih =>
    cases upper <;> simp [canonicalLoop, toUpper_toLower, toLower_toLower, ih]

theorem all_valid_map_toLower (cs : List Char) :
    (cs.map Char.toLower).all validHeaderFieldByte = cs.all validHeaderFieldByte := by
  induction cs with
  | nil => rfl
  | cons c cs ih => simp [validHeaderFieldByte_toLower, ih] 

/-- Names that differ only in the case of their letters have the same canonical form, when
they are made of header field bytes: this is the sense in which the lookup of a header by
its canonical form is case-insensitive. -/
theorem canonicalMIMEHeaderKey_case_insensitive (s t : String)
    (hcase : s.toList.map Char.toLower = t.toList.map Char.toLower)
    (hvalid : s.toList.all validHeaderFieldByte = true) :
    CanonicalMIMEHeaderKey s = CanonicalMIMEHeaderKey t := by
  have ht : t.toList.all validHeaderFieldByte = true := by
    rw [← all_valid_map_toLower, ← hcase, all_valid_map_toLower]; exact hvalid
  unfold CanonicalMIMEHeaderKey
  rw [if_pos hvalid, if_pos ht, ← canonicalLoop_map_toLower true s.toList,
    ← canonicalLoop_map_toLower true t.toList, hcase]

theorem get_copyHeaderValues (key : String) (src dst : Header) (k : String) :
    GoMap.get (copyHeaderValues key src dst) k =
      if k = key ∧ ((GoMap.get src key).filter (fun vs => !vs.isEmpty)).isSome then
        GoMap.get src key
      else GoMap.get dst k := by
  unfold copyHeaderValues
  split
  · next v vs hsrc =>
    rw [GoMap.get_set, hsrc]
    by_cases h : k = key <;> simp [h, Option.filter]
  · next hno =>
    cases hsrc : GoMap.get src key with
    | none => simp [Option.filter]
    | some vs =>
      cases vs with
      | nil => simp [Option.filter]
      | cons v vs => exact absurd hsrc (hno v vs)

theorem WF_copyHeaderValues (key : String) (src dst : Header) (h : GoMap.WF dst) :
    GoMap.WF (copyHeaderValues key src dst) := by
  unfold copyHeaderValues
  split
  · exact GoMap.WF_set _ _ _ h
  · exact h

theorem forwardHeaders_fold (original : Header) (names : List String) (h : Header)
    (hwf : GoMap.WF h) :
    GoMap.WF (names.foldl
        (fun h name => copyHeaderValues (CanonicalMIMEHeaderKey name) original h) h) ∧
    ∀ k, GoMap.get (names.foldl
        (fun h name => copyHeaderValues (CanonicalMIMEHeaderKey name) original h) h) k =
      if k ∈ names.map CanonicalMIMEHeaderKey ∧
          ((GoMap.get original k).filter (fun vs => !vs.isEmpty)).isSome then
        GoMap.get original k
      else GoMap.get h k := by
  induction names generalizing h with
  | nil => simp [hwf]
  | cons n names ih =>
    have hwf' := WF_copyHeaderValues (CanonicalMIMEHeaderKey n) original h hwf
    obtain ⟨h1, h2⟩ := ih _ hwf'
    refine ⟨by simpa using h1, fun k => ?_⟩
    simp only [List.foldl_cons, List.map_cons, List.mem_cons]
    rw [h2 k, get_copyHeaderValues]
    by_cases hk : k ∈ names.map CanonicalMIMEHeaderKey
    · by_cases hv : ((GoMap.get original k).filter (fun vs => !vs.isEmpty)).isSome = true
      · simp [hk, hv]
      · by_cases hkn : k = CanonicalMIMEHeaderKey n
        · subst hkn; simp [hv]
        · simp [hk, hv, hkn]
    · by_cases hkn : k = CanonicalMIMEHeaderKey n
      · subst hkn; simp [hk]
      · simp [hk, hkn]

/-- C2: for every original header map and every list of names, `ForwardHeaders names`
returns the context unchanged with a nil error and changes nothing of the replica but its
header; starting from an empty replica header, the resulting header binds each key at most
once, and binds key `k` exactly when `k` is the canonical form of a listed name and the
original has at least one value under `k`, the value list being the original's. In
particular a listed name made of header field bytes forwards the header stored under a
canonical key that differs from it only in case. -/
theorem forwardHeaders_spec (names : List String) (ctx : Context) (original fanout : Request)
    (hempty : fanout.Header = []) :
    ∃ fanout' : Request,
      ForwardHeaders names ctx original fanout = some (ctx, none, fanout') ∧
      fanout'.Method = fanout.Method ∧ fanout'.URL = fanout.URL ∧ fanout'.Body = fanout.Body ∧
      GoMap.WF fanout'.Header ∧
      (∀ k : String, GoMap.get fanout'.Header k =
        if k ∈ names.map CanonicalMIMEHeaderKey then
          (GoMap.get original.Header k).filter (fun vs => !vs.isEmpty)
        else none) ∧
      (∀ n ∈ names, ∀ k : String,
        n.toList.map Char.toLower = k.toList.map Char.toLower →
        n.toList.all validHeaderFieldByte = true →
        CanonicalMIMEHeaderKey k = k →
        GoMap.get fanout'.Header k
          = (GoMap.get original.Header k).filter (fun vs => !vs.isEmpty)) := by
  have hwf : GoMap.WF fanout.Header := by rw [hempty]; decide
  obtain ⟨h1, h2⟩ := forwardHeaders_fold original.Header names fanout.Header hwf
  have hget : ∀ k : String,
      GoMap.get (names.foldl
        (fun h name => copyHeaderValues (CanonicalMIMEHeaderKey name) original.Header h)
        fanout.Header) k =
        if k ∈ names.map CanonicalMIMEHeaderKey then
          (GoMap.get original.Header k).filter (fun vs => !vs.isEmpty)
        else none := by
    intro k
    rw [h2 k, hempty]
    by_cases hk : k ∈ names.map CanonicalMIMEHeaderKey
    · cases hsrc : GoMap.get original.Header k with
      | none => simp [hk, Option.filter, GoMap.get]
      | some vs =>
        cases vs with
        | nil => simp [hk, Option.filter, GoMap.get]
        | cons v vs => simp [hk, Option.filter]
    · simp [hk, GoMap.get]
  refine ⟨_, rfl, rfl, rfl, rfl, h1, hget, ?_⟩
  intro n hn k hcase hvalid hcanon
  have hk : k ∈ names.map CanonicalMIMEHeaderKey := by
    rw [List.mem_map]
    exact ⟨n, hn, by rw [canonicalMIMEHeaderKey_case_insensitive n k hcase hvalid, hcanon]⟩
  have := hget k
  simp only [hk, if_true] at this
  exact this

/-- C2 witness: mixed-case names against the header of the tests. -/
theorem forwardHeaders_spec_witness :
    ∃ fanout' : Request,
      ForwardHeaders ["X-TEST-3", "x-TEsT-1", "X-Does-Not-Exist"] [("foo", "bar")]
          { Header := [("X-Test-1", ["foo"]), ("X-Test-2", ["foo", "bar"]), ("X-Test-3", [])] }
          { Method := "POST" }
        = some ([("foo", "bar")], none, fanout') ∧
      GoMap.WF fanout'.Header ∧
      GoMap.get fanout'.Header "X-Test-1" = some ["foo"] :=
  match forwardHeaders_spec ["X-TEST-3", "x-TEsT-1", "X-Does-Not-Exist"] [("foo", "bar")]
    { Header := [("X-Test-1", ["foo"]), ("X-Test-2", ["foo", "bar"]), ("X-Test-3", [])] }
    { Method := "POST" } rfl with
  | ⟨fanout', h1, _, _, _, h5, _, h7⟩ =>
    ⟨fanout', h1, h5, h7 "x-TEsT-1" (by decide) "X-Test-1" (by decide) (by decide) (by decide)⟩

/-- The last row of the table of `TestForwardHeaders`, evaluated. -/
theorem forwardHeaders_test_row :
    ForwardHeaders ["X-TEST-3", "x-TEsT-1", "x-TesT-2"] [("foo", "bar")]
        { Header := [("X-Test-1", ["foo"]), ("X-Test-2", ["foo", "bar"]), ("X-Test-3", [])] } {}
      = some ([("foo", "bar")], none,
          { Header := [("X-Test-1", ["foo"]), ("X-Test-2", ["foo", "bar"])] }) := by
  decide

/-- C3: for every replica with a non-nil URL, the request function `UsePath p` returns the
context with a nil error and leaves a replica whose URL has `Path = p` and an empty
`RawPath`, whatever they were before and whatever the original request is; every other
field of the URL and of the replica is unchanged. -/
theorem usePath_spec (p : String) (rf : RequestFunc) (ctx : Context)
    (original fanout : Request) (u : URL)
    (hrf : UsePath p = Except.ok rf) (hurl : fanout.URL = some u) :
    ∃ u' : URL,
      rf ctx original fanout = some (ctx, none, { fanout with URL := some u' }) ∧
      u'.Path = p ∧ u'.RawPath = "" ∧
      u'.Scheme = u.Scheme ∧ u'.Opaque = u.Opaque ∧ u'.User = u.User ∧ u'.Host = u.Host ∧
      u'.ForceQuery = u.ForceQuery ∧ u'.RawQuery = u.RawQuery ∧ u'.Fragment = u.Fragment := by
  unfold UsePath at hrf
  split at hrf
  · cases hrf
    exact ⟨{ u with Path := p, RawPath := "" }, by simp [usePathFunc, hurl], rfl, rfl, rfl, rfl,
      rfl, rfl, rfl, rfl, rfl⟩
  · cases hrf

/-- C3 witness: the path and one replica of the tests. -/
theorem usePath_spec_witness :
    ∃ u' : URL,
      usePathFunc "/api/v1/device/foo/bar" [] { Method := "GET", URL := some { Path := "/" } }
          { URL := some { Host := "foobar.com:8080", Path := "/something",
                          RawPath := "this is a raw path" } }
        = some ([], none, { URL := some u' }) ∧
      u'.Path = "/api/v1/device/foo/bar" ∧ u'.RawPath = "" ∧
      u'.Scheme = "" ∧ u'.Opaque = "" ∧ u'.User = none ∧ u'.Host = "foobar.com:8080" ∧
      u'.ForceQuery = false ∧ u'.RawQuery = "" ∧ u'.Fragment = "" :=
  usePath_spec "/api/v1/device/foo/bar" (usePathFunc "/api/v1/device/foo/bar") []
    { Method := "GET", URL := some { Path := "/" } }
    { URL := some { Host := "foobar.com:8080", Path := "/something",
                    RawPath := "this is a raw path" } }
    { Host := "foobar.com:8080", Path := "/something", RawPath := "this is a raw path" }
    (by rfl) rfl

/-! ## `webhookStore`: the subscription store -/

namespace GoMap

theorem mem_delete {β : Type} (m : GoMap β) (k : String) (e : String × β) :
    e ∈ delete m k ↔ e ∈ m ∧ e.1 ≠ k := by
  induction m with
  | nil => simp [delete]
  | cons e0 m ih =>
    obtain ⟨k0, v0⟩ := e0
    by_cases h : k0 = k
    · subst h
      simp only [delete, if_true, ih, List.mem_cons]
      constructor
      · rintro ⟨h1, h2⟩; exact ⟨Or.inr h1, h2⟩
      · rintro ⟨h1 | h1, h2⟩
        · subst h1; exact absurd rfl h2
        · exact ⟨h1, h2⟩
    · simp only [delete, h, if_false, List.mem_cons, ih]
      constructor
      · rintro (h1 | ⟨h1, h2⟩)
        · subst h1; exact ⟨Or.inl rfl, h⟩
        · exact ⟨Or.inr h1, h2⟩
      · rintro ⟨h1 | h1, h2⟩
        · exact Or.inl h1
        · exact Or.inr ⟨h1, h2⟩

theorem mem_set {β : Type} (m : GoMap β) (k : String) (v : β) (e : String × β) :
    e ∈ set m k v ↔ (e ∈ m ∧ e.1 ≠ k) ∨ e = (k, v) := by
  simp [set, mem_delete]

theorem delete_delete {β : Type} (m : GoMap β) (k : String) :
    delete (delete m k) k = delete m k := by
  induction m with
  | nil => rfl
  | cons e0 m ih =>
    obtain ⟨k0, v0⟩ := e0
    by_cases h : k0 = k <;> simp [delete, h, ih]

end GoMap

theorem hookStorage.hooks_push (h : hookStorage) (w : W) :
    (h.Push w).1.hooks = GoMap.set h.hooks w.ID w := by
  unfold hookStorage.Push
  cases hl : h.options.listener <;> simp [hl]

theorem hookStorage.hooks_remove (h : hookStorage) (id : String) :
    (h.Remove id).1.hooks = GoMap.delete h.hooks id := by
  unfold hookStorage.Remove
  cases hl : h.options.listener <;> simp [hl]

theorem hookStorage.err_push (h : hookStorage) (w : W) : (h.Push w).2 = none := by
  unfold hookStorage.Push
  cases hl : h.options.listener <;> simp [hl]

theorem hookStorage.err_remove (h : hookStorage) (id : String) : (h.Remove id).2 = none := by
  unfold hookStorage.Remove
  cases hl : h.options.listener <;> simp [hl]

/-- The empty store is in a legal state. -/
theorem hookStorage.inv_empty (o : storeConfig) :
    hookStorage.Inv { hooks := [], options := o } := by
  simp [hookStorage.Inv, GoMap.WF, GoMap.keys]

/-- `Push` keeps the store in a legal state. -/
theorem hookStorage.inv_push (h : hookStorage) (w : W) (hinv : h.Inv) : (h.Push w).1.Inv := by
  unfold hookStorage.Inv at hinv ⊢
  rw [hookStorage.hooks_push]
  refine ⟨GoMap.WF_set _ _ _ hinv.1, fun e he => ?_⟩
  rw [GoMap.mem_set] at he
  rcases he with ⟨he, _⟩ | he
  · exact hinv.2 e he
  · subst he; rfl

/-- `Remove` keeps the store in a legal state. -/
theorem hookStorage.inv_remove (h : hookStorage) (id : String) (hinv : h.Inv) :
    (h.Remove id).1.Inv := by
  unfold hookStorage.Inv at hinv ⊢
  rw [hookStorage.hooks_remove]
  refine ⟨GoMap.WF_delete _ _ hinv.1, fun e he => ?_⟩
  rw [GoMap.mem_delete] at he
  exact hinv.2 e he.1

/-- `SetListener` keeps the store in a legal state. -/
theorem hookStorage.inv_setListener (h : hookStorage) (l : Option Listener) (hinv : h.Inv) :
    (h.SetListener l).1.Inv := hinv

/-- In a legal state, the subscriptions left by `delete` are those with another id. -/
theorem hookStorage.mem_values_delete (m : GoMap W) (id : String) (w : W)
    (hkey : ∀ e ∈ m, e.1 = e.2.ID) :
    w ∈ GoMap.values (GoMap.delete m id) ↔ w ∈ GoMap.values m ∧ w.ID ≠ id := by
  simp only [GoMap.values, List.mem_map, GoMap.mem_delete]
  constructor
  · rintro ⟨e, ⟨he, hne⟩, rfl⟩
    exact ⟨⟨e, he, rfl⟩, by rw [← hkey e he]; exact hne⟩
  · rintro ⟨⟨e, he, rfl⟩, hne⟩
    exact ⟨e, ⟨he, by rw [hkey e he]; exact hne⟩, rfl⟩

/-- C4: in every legal store state, for subscriptions `w1`, `w2` with the same id, `Push w1`
then `Push w2` both return a nil error and leave a store that binds the id to `w2`, whose
snapshot holds exactly one subscription with that id, equal to `w2` in every field;
subscriptions with another id are in the snapshot exactly when they were before, and the
bindings of all other ids are unchanged. -/
theorem hookStorage.push_push_replaces (h : hookStorage) (w1 w2 : W)
    (hinv : h.Inv) (hid : w1.ID = w2.ID) :
    (h.Push w1).2 = none ∧ ((h.Push w1).1.Push w2).2 = none ∧
    GoMap.get ((h.Push w1).1.Push w2).1.hooks w2.ID = some w2 ∧
    (((h.Push w1).1.Push w2).1.GetWebhook.1.filter (fun w => decide (w.ID = w2.ID))) = [w2] ∧
    (∀ w : W, w.ID ≠ w2.ID →
      (w ∈ ((h.Push w1).1.Push w2).1.GetWebhook.1 ↔ w ∈ h.GetWebhook.1)) ∧
    (∀ k : String, k ≠ w2.ID →
      GoMap.get ((h.Push w1).1.Push w2).1.hooks k = GoMap.get h.hooks k) := by
  have hinv1 := hookStorage.inv_push h w1 hinv
  have hk1 : ∀ e ∈ (h.Push w1).1.hooks, e.1 = e.2.ID := hinv1.2
  refine ⟨hookStorage.err_push _ _, hookStorage.err_push _ _, ?_, ?_, ?_, ?_⟩
  · rw [hookStorage.hooks_push, GoMap.get_set]; simp
  · simp only [hookStorage.GetWebhook]
    rw [hookStorage.hooks_push]
    have hnil : (GoMap.values (GoMap.delete (h.Push w1).1.hooks w2.ID)).filter
        (fun w => decide (w.ID = w2.ID)) = [] := by
      rw [List.filter_eq_nil_iff]
      intro w hw
      rw [hookStorage.mem_values_delete _ _ _ hk1] at hw
      simpa using hw.2
    simp only [GoMap.set, GoMap.values, List.map_append, List.filter_append] at hnil ⊢
    rw [hnil]
    simp
  · intro w hw
    simp only [hookStorage.GetWebhook]
    rw [hookStorage.hooks_push, hookStorage.hooks_push]
    simp only [GoMap.values, List.mem_map, GoMap.mem_set]
    constructor
    · rintro ⟨e, (⟨(⟨he, _⟩ | he), _⟩ | he), rfl⟩
      · exact ⟨e, he, rfl⟩
      · subst he; exact absurd hid hw
      · subst he; exact absurd rfl hw
    · rintro ⟨e, he, rfl⟩
      have hke : e.1 ≠ w2.ID := by rw [hinv.2 e he]; exact hw
      exact ⟨e, Or.inl ⟨Or.inl ⟨he, by rw [hid]; exact hke⟩, hke⟩, rfl⟩
  · intro k hk
    rw [hookStorage.hooks_push, hookStorage.hooks_push, GoMap.get_set, GoMap.get_set]
    simp [hk, hid]

/-- C4 witness: the two subscriptions of the update test, pushed into a store that holds
another subscription. -/
theorem hookStorage.push_push_replaces_witness :
    (sampleStore.Push neatWebhook).2 = none ∧
    ((sampleStore.Push neatWebhook).1.Push neatWebhookWithDifferentSecret).2 = none ∧
    GoMap.get ((sampleStore.Push neatWebhook).1.Push neatWebhookWithDifferentSecret).1.hooks
      neatWebhookWithDifferentSecret.ID = some neatWebhookWithDifferentSecret ∧
    (((sampleStore.Push neatWebhook).1.Push neatWebhookWithDifferentSecret).1.GetWebhook.1.filter
      (fun w => decide (w.ID = neatWebhookWithDifferentSecret.ID)))
      = [neatWebhookWithDifferentSecret] :=
  have h := hookStorage.push_push_replaces sampleStore neatWebhook
    neatWebhookWithDifferentSecret (by decide) (by decide)
  ⟨h.1, h.2.1, h.2.2.1, h.2.2.2.1⟩

/-- C5: in every legal store state, `Remove id` returns a nil error and leaves a store with
no binding for the id and no subscription with that id in its snapshot, while subscriptions
with another id are in the snapshot exactly when they were before; a second `Remove id`
returns a nil error and leaves the bindings and the snapshot as they are. -/
theorem hookStorage.remove_idempotent (h : hookStorage) (id : String) (hinv : h.Inv) :
    (h.Remove id).2 = none ∧
    GoMap.get (h.Remove id).1.hooks id = none ∧
    (∀ w ∈ (h.Remove id).1.GetWebhook.1, w.ID ≠ id) ∧
    (∀ w : W, w.ID ≠ id → (w ∈ (h.Remove id).1.GetWebhook.1 ↔ w ∈ h.GetWebhook.1)) ∧
    ((h.Remove id).1.Remove id).2 = none ∧
    ((h.Remove id).1.Remove id).1.hooks = (h.Remove id).1.hooks ∧
    ((h.Remove id).1.Remove id).1.GetWebhook = (h.Remove id).1.GetWebhook := by
  have hmem : ∀ w : W, w ∈ (h.Remove id).1.GetWebhook.1 ↔ w ∈ h.GetWebhook.1 ∧ w.ID ≠ id := by
    intro w
    simp only [hookStorage.GetWebhook]
    rw [hookStorage.hooks_remove]
    exact hookStorage.mem_values_delete _ _ _ hinv.2
  have hhooks : ((h.Remove id).1.Remove id).1.hooks = (h.Remove id).1.hooks := by
    rw [hookStorage.hooks_remove, hookStorage.hooks_remove, GoMap.delete_delete]
  refine ⟨hookStorage.err_remove _ _, ?_, ?_, ?_, hookStorage.err_remove _ _, hhooks, ?_⟩
  · rw [hookStorage.hooks_remove, GoMap.get_delete]; simp
  · intro w hw
    exact ((hmem w).1 hw).2
  · intro w hw
    rw [hmem w]
    exact ⟨fun x => x.1, fun x => ⟨x, hw⟩⟩
  · simp only [hookStorage.GetWebhook, hhooks]

/-- C5 witness: the subscription of the tests, pushed and then removed twice. -/
theorem hookStorage.remove_idempotent_witness :
    ((sampleStore.Push neatWebhook).1.Remove neatWebhook.ID).2 = none ∧
    GoMap.get ((sampleStore.Push neatWebhook).1.Remove neatWebhook.ID).1.hooks neatWebhook.ID
      = none ∧
    ((((sampleStore.Push neatWebhook).1.Remove neatWebhook.ID).1.Remove neatWebhook.ID).1.hooks
      = ((sampleStore.Push neatWebhook).1.Remove neatWebhook.ID).1.hooks) :=
  have h := hookStorage.remove_idempotent (sampleStore.Push neatWebhook).1 neatWebhook.ID
    (by decide)
  ⟨h.1, h.2.1, h.2.2.2.2.2.1⟩

/-- C6: with a listener registered, `Push` and `Remove` each deliver exactly one update to
it, after the updates it had already received, and the delivered list holds the same
subscriptions as `GetWebhook` returns right after the operation: the full snapshot, not the
changed entry. -/
theorem hookStorage.listener_gets_snapshot (h : hookStorage) (l : Listener) (w : W)
    (id : String) (hl : h.options.listener = some l) :
    (∃ u : List W,
      (h.Push w).1.options.listener = some { received := l.received ++ [u] } ∧
      u.Perm (h.Push w).1.GetWebhook.1) ∧
    (∃ u : List W,
      (h.Remove id).1.options.listener = some { received := l.received ++ [u] } ∧
      u.Perm (h.Remove id).1.GetWebhook.1) := by
  constructor
  · refine ⟨GoMap.values (GoMap.set h.hooks w.ID w), ?_, ?_⟩
    · simp [hookStorage.Push, hl, Listener.Update, hookStorage.GetWebhook]
    · simp only [hookStorage.GetWebhook]
      rw [hookStorage.hooks_push]
  · refine ⟨GoMap.values (GoMap.delete h.hooks id), ?_, ?_⟩
    · simp [hookStorage.Remove, hl, Listener.Update, hookStorage.GetWebhook]
    · simp only [hookStorage.GetWebhook]
      rw [hookStorage.hooks_remove]

/-- C6 witness: a push into, and a removal from, a store whose listener has received
nothing yet. -/
theorem hookStorage.listener_gets_snapshot_witness :
    (∃ u : List W,
      (sampleStore.Push neatWebhook).1.options.listener = some { received := [] ++ [u] } ∧
      u.Perm (sampleStore.Push neatWebhook).1.GetWebhook.1) ∧
    (∃ u : List W,
      (sampleStore.Remove "http://localhost/events?other").1.options.listener
        = some { received := [] ++ [u] } ∧
      u.Perm (sampleStore.Remove "http://localhost/events?other").1.GetWebhook.1) :=
  hookStorage.listener_gets_snapshot sampleStore {} neatWebhook
    "http://localhost/events?other" rfl

/-- The update delivered on a push into the sample store is the whole snapshot, two
subscriptions, not the pushed one alone. -/
theorem hookStorage.listener_snapshot_value :
    (sampleStore.Push neatWebhook).1.options.listener
      = some { received := [[{ Config := { URL := "http://localhost/events?other",
                                           ContentType := "json" } }, neatWebhook]] } := by
  decide

/-! ## `wrp/wrphttp`: the fanout options and `NewFanoutEndpoint` -/

theorem string_length_pos_iff (s : String) : s.length > 0 ↔ s ≠ "" := by
  obtain ⟨l⟩ := s
  cases l with
  | nil => simp [String.length]
  | cons c cs =>
    simp only [String.length, List.length_cons, gt_iff_lt, Nat.succ_pos, true_iff]
    intro h
    exact absurd (congrArg String.data h) (by simp)

/-- C7: for every `*FanoutOptions`, nil included (a nil receiver behaves as the zero value
of the options), each effective setting is the configured value where it is set and the
documented default otherwise: `POST`, 45 s, 30 s, 10000, 1000, and 20 idle connections per
host; the other settings of the transport are the configured ones. -/
theorem fanoutOptions_effective_settings (o : Option FanoutOptions) :
    FanoutOptions.method o
      = (if (o.getD {}).Method = "" then "POST" else (o.getD {}).Method) ∧
    FanoutOptions.fanoutTimeout o
      = (if 0 < (o.getD {}).FanoutTimeout then (o.getD {}).FanoutTimeout else 45000000000) ∧
    FanoutOptions.clientTimeout o
      = (if 0 < (o.getD {}).ClientTimeout then (o.getD {}).ClientTimeout else 30000000000) ∧
    FanoutOptions.maxClients o
      = (if 0 < (o.getD {}).MaxClients then (o.getD {}).MaxClients else 10000) ∧
    FanoutOptions.concurrency o
      = (if 0 < (o.getD {}).Concurrency then (o.getD {}).Concurrency else 1000) ∧
    (FanoutOptions.transport o).MaxIdleConnsPerHost
      = (if 1 ≤ (o.getD {}).Transport.MaxIdleConnsPerHost then
          (o.getD {}).Transport.MaxIdleConnsPerHost else 20) ∧
    FanoutOptions.transport o
      = { (o.getD {}).Transport with
          MaxIdleConnsPerHost := (FanoutOptions.transport o).MaxIdleConnsPerHost } := by
  cases o with
  | none => decide
  | some f =>
    simp only [Option.getD_some]
    refine ⟨?_, ?_, ?_, ?_, ?_, ?_, ?_⟩
    · unfold FanoutOptions.method
      by_cases h : f.Method = ""
      · simp [h, DefaultMethod]
      · simp [h, (string_length_pos_iff f.Method).2 h]
    · unfold FanoutOptions.fanoutTimeout
      by_cases h : 0 < f.FanoutTimeout <;> simp [h, DefaultFanoutTimeout, Second]
    · unfold FanoutOptions.clientTimeout
      by_cases h : 0 < f.ClientTimeout <;> simp [h, DefaultClientTimeout, Second]
    · unfold FanoutOptions.maxClients
      by_cases h : 0 < f.MaxClients <;> simp [h, DefaultMaxClients]
    · unfold FanoutOptions.concurrency
      by_cases h : 0 < f.Concurrency <;> simp [h, DefaultConcurrency]
    · unfold FanoutOptions.transport
      by_cases h : f.Transport.MaxIdleConnsPerHost < 1
      · have h2 : ¬ 1 ≤ f.Transport.MaxIdleConnsPerHost := by omega
        simp [h, h2, DefaultMaxIdleConnsPerHost]
      · have h2 : 1 ≤ f.Transport.MaxIdleConnsPerHost := by omega
        simp [h, h2]
    · unfold FanoutOptions.transport
      by_cases h : f.Transport.MaxIdleConnsPerHost < 1 <;> simp [h]

theorem layers_foldr_wrap (ms : List Middleware) (next : Endpoint) :
    (ms.foldr Endpoint.wrap next).layers = ms ++ next.layers := by
  induction ms with
  | nil => rfl
  | cons m ms ih => simp [Endpoint.layers, ih]

theorem clients_foldr_wrap (ms : List Middleware) (next : Endpoint) :
    (ms.foldr Endpoint.wrap next).clients = next.clients := by
  induction ms with
  | nil => rfl
  | cons m ms ih => simp [Endpoint.clients, ih]

/-- What `NewFanoutEndpoint` returns once the endpoints have been parsed into `urls`. -/
theorem newFanoutEndpoint_of_urls (parse : String → Except Error URL) (urlString : URL → String)
    (o : Option FanoutOptions) (urls : List URL) (hurls : FanoutOptions.urls parse o = .ok urls) :
    ∃ ep : Endpoint, NewFanoutEndpoint parse urlString o = .ok ep ∧
      ep.layers =
        [ Middleware.Logging,
          Middleware.Busy (FanoutOptions.maxClients o) { Code := 503, Text := "Server Busy" },
          Middleware.Timeout (FanoutOptions.fanoutTimeout o),
          Middleware.Concurrent (FanoutOptions.concurrency o)
            { Code := 429, Text := "Too Many Requests" } ]
          ++ FanoutOptions.middleware o ∧
      ep.clients =
        urls.foldl
          (fun fanoutEndpoints url =>
            GoMap.set fanoutEndpoints (urlString url)
              { method := FanoutOptions.method o, url := url,
                customHeader :=
                  if (FanoutOptions.authorization o).length > 0 then
                    GoMap.set [("Accept", ["application/msgpack"])]
                      (CanonicalMIMEHeaderKey "Authorization")
                      ["Basic " ++ FanoutOptions.authorization o]
                  else [("Accept", ["application/msgpack"])],
                httpClient :=
                  { CheckRedirect := FanoutOptions.logger o,
                    Transport := FanoutOptions.transport o,
                    Timeout := FanoutOptions.clientTimeout o },
                getBody := FanoutOptions.logger o })
          [] := by
  refine ⟨_, by simp only [NewFanoutEndpoint, hurls]; rfl, ?_, ?_⟩
  · simp [Chain, Endpoint.layers, layers_foldr_wrap]
  · simp [Chain, Endpoint.clients, clients_foldr_wrap]

theorem newFanoutEndpoint_of_urls_error (parse : String → Except Error URL)
    (urlString : URL → String) (o : Option FanoutOptions) (err : Error)
    (hurls : FanoutOptions.urls parse o = .error err) :
    NewFanoutEndpoint parse urlString o = .error err := by
  simp only [NewFanoutEndpoint, hurls]

/-- The loop of `urls` either parses every endpoint, in order, or stops at the first endpoint
that does not parse, with its error. -/
theorem urlsLoop_spec (parse : String → Except Error URL) (endpoints : List String)
    (acc : List URL) :
    match FanoutOptions.urlsLoop parse endpoints acc with
    | .ok urls => ∃ us, urls = acc ++ us ∧ List.Forall₂ (fun e u => parse e = .ok u) endpoints us
    | .error err => ∃ pre e post, endpoints = pre ++ e :: post ∧
        (∀ x ∈ pre, ∃ u, parse x = .ok u) ∧ parse e = .error err := by
  induction endpoints generalizing acc with
  | nil => exact ⟨[], by simp, List.Forall₂.nil⟩
  | cons e rest ih =>
    unfold FanoutOptions.urlsLoop
    cases hp : parse e with
    | error err =>
      exact ⟨[], e, rest, rfl, by simp, hp⟩
    | ok u =>
      simp only
      have h := ih (acc ++ [u])
      cases hl : FanoutOptions.urlsLoop parse rest (acc ++ [u]) with
      | ok urls =>
        rw [hl] at h
        obtain ⟨us, h1, h2⟩ := h
        exact ⟨u :: us, by simp [h1], List.Forall₂.cons hp h2⟩
      | error err =>
        rw [hl] at h
        obtain ⟨pre, e', post, h1, h2, h3⟩ := h
        refine ⟨e :: pre, e', post, by simp [h1], ?_, h3⟩
        intro x hx
        rcases List.mem_cons.1 hx with hx | hx
        · subst hx; exact ⟨u, hp⟩
        · exact h2 x hx

/-- C8 (as stated, refuted): with an empty endpoint list the effective endpoints are the
default endpoint, and the fanout `NewFanoutEndpoint` builds has one endpoint client, not
none. -/
theorem newFanoutEndpoint_empty_endpoints_counterexample :
    FanoutOptions.endpoints (some { Endpoints := [] })
      = ["http://localhost:7000/api/v2/device/send"] ∧
    (NewFanoutEndpoint parseTable urlStringPlain (some { Endpoints := [] })).toOption.map
        (fun ep => ep.clients.length) = some 1 ∧
    (NewFanoutEndpoint parseTable urlStringPlain (some { Endpoints := [] })).toOption.map
        (fun ep => ep.clients.length) ≠ some 0 := by
  decide

/-- C8 (amended): when the configured endpoint list is empty, `NewFanoutEndpoint` falls back
to the default endpoint `http://localhost:7000/api/v2/device/send`: if that string parses
to `u`, the fanout has exactly one endpoint client, stored under `u.String()` and sending
with the effective method to `u`; if it does not parse, construction fails with the parse
error. -/
theorem newFanoutEndpoint_empty_endpoints_default (parse : String → Except Error URL)
    (urlString : URL → String) (o : Option FanoutOptions)
    (hempty : (o.getD {}).Endpoints = []) :
    match parse "http://localhost:7000/api/v2/device/send" with
    | .ok u =>
      ∃ (ep : Endpoint) (c : EndpointClient),
        NewFanoutEndpoint parse urlString o = .ok ep ∧
        ep.clients = [(urlString u, c)] ∧ c.url = u ∧ c.method = FanoutOptions.method o
    | .error err => NewFanoutEndpoint parse urlString o = .error err := by
  have hend : FanoutOptions.endpoints o = ["http://localhost:7000/api/v2/device/send"] := by
    cases o with
    | none => rfl
    | some f =>
      simp only [Option.getD_some] at hempty
      simp [FanoutOptions.endpoints, hempty, DefaultEndpoint]
  cases hp : parse "http://localhost:7000/api/v2/device/send" with
  | error err =>
    exact newFanoutEndpoint_of_urls_error parse urlString o err
      (by simp [FanoutOptions.urls, hend, FanoutOptions.urlsLoop, hp])
  | ok u =>
    have hurls : FanoutOptions.urls parse o = .ok [u] := by
      simp [FanoutOptions.urls, hend, FanoutOptions.urlsLoop, hp]
    obtain ⟨ep, h1, _, h3⟩ := newFanoutEndpoint_of_urls parse urlString o [u] hurls
    exact ⟨ep, _, h1, by rw [h3]; rfl, rfl, rfl⟩

/-- C8 witness: the zero value of the options. -/
theorem newFanoutEndpoint_empty_endpoints_default_witness :
    ∃ (ep : Endpoint) (c : EndpointClient),
      NewFanoutEndpoint parseTable urlStringPlain (some {}) = .ok ep ∧
      ep.clients = [("http://localhost:7000/api/v2/device/send", c)] ∧
      c.url = { Scheme := "http", Host := "localhost:7000", Path := "/api/v2/device/send" } ∧
      c.method = "POST" :=
  newFanoutEndpoint_empty_endpoints_default parseTable urlStringPlain (some {}) rfl

/-- C9 (as stated, refuted): with the concurrency option 0 the effective concurrency is
1000 and the `Concurrent` middleware of the built fanout is constructed with 1000 slots,
not 0. -/
theorem newFanoutEndpoint_zero_concurrency_counterexample :
    FanoutOptions.concurrency (some { Concurrency := 0 }) = 1000 ∧
    (NewFanoutEndpoint parseTable urlStringPlain (some { Concurrency := 0 })).toOption.map
        Endpoint.layers
      = some [ Middleware.Logging,
               Middleware.Busy 10000 { Code := 503, Text := "Server Busy" },
               Middleware.Timeout 45000000000,
               Middleware.Concurrent 1000 { Code := 429, Text := "Too Many Requests" } ] := by
  decide

/-- C9 (amended): when the concurrency option is 0, the `Concurrent` middleware of every
fanout `NewFanoutEndpoint` builds is the fourth middleware from the outside and is
constructed with the default limit of 1000 slots and the error 429 Too Many Requests. -/
theorem newFanoutEndpoint_zero_concurrency_default (parse : String → Except Error URL)
    (urlString : URL → String) (f : FanoutOptions) (ep : Endpoint)
    (hzero : f.Concurrency = 0)
    (hbuilt : NewFanoutEndpoint parse urlString (some f) = .ok ep) :
    ep.layers.get? 3
      = some (Middleware.Concurrent 1000 { Code := 429, Text := "Too Many Requests" }) ∧
    ∀ m ∈ ep.layers.take 4, ∀ e : XhttpError, m ≠ Middleware.Concurrent 0 e := by
  cases hurls : FanoutOptions.urls parse (some f) with
  | error err =>
    rw [newFanoutEndpoint_of_urls_error parse urlString (some f) err hurls] at hbuilt
    cases hbuilt
  | ok urls =>
    obtain ⟨ep', h1, h2, _⟩ := newFanoutEndpoint_of_urls parse urlString (some f) urls hurls
    rw [h1] at hbuilt
    cases hbuilt
    have hc : FanoutOptions.concurrency (some f) = 1000 := by
      simp [FanoutOptions.concurrency, hzero, DefaultConcurrency]
    rw [h2, hc]
    refine ⟨rfl, ?_⟩
    intro m hm e
    simp at hm
    rcases hm with hm | hm | hm | hm <;> subst hm <;> simp

/-- C9 witness: options with two endpoints, one custom middleware and concurrency 0. -/
theorem newFanoutEndpoint_zero_concurrency_default_witness :
    ∃ ep : Endpoint,
      NewFanoutEndpoint parseTable urlStringPlain (some zeroConcurrencyOptions) = .ok ep ∧
      ep.layers.get? 3
        = some (Middleware.Concurrent 1000 { Code := 429, Text := "Too Many Requests" }) :=
  ⟨_, rfl, (newFanoutEndpoint_zero_concurrency_default parseTable urlStringPlain
    zeroConcurrencyOptions _ rfl rfl).1⟩

theorem forall2_left_related {α β : Type} {R : α → β → Prop} {l₁ : List α} {l₂ : List β}
    (h : List.Forall₂ R l₁ l₂) : ∀ a ∈ l₁, ∃ b, R a b := by
  induction h with
  | nil => simp
  | cons hab _ ih =>
    intro x hx
    rcases List.mem_cons.1 hx with hx | hx
    · subst hx; exact ⟨_, hab⟩
    · exact ih x hx

/-- C10: `NewFanoutEndpoint` fails exactly when one of the endpoints it is configured with
(the list `endpoints()` yields: the configured list, or the default endpoint when that list
is empty) does not parse. On failure it returns, without an endpoint, the error `urls()`
returns, which is the parse error of the first endpoint that does not parse; otherwise
`urls()` yields the parsed form of every endpoint, one per endpoint and in the configured
order, and `NewFanoutEndpoint` returns an endpoint and a nil error. -/
theorem newFanoutEndpoint_fails_iff_bad_url (parse : String → Except Error URL)
    (urlString : URL → String) (o : Option FanoutOptions) :
    FanoutOptions.endpoints o
      = (if (o.getD {}).Endpoints = [] then [DefaultEndpoint] else (o.getD {}).Endpoints) ∧
    ((∃ err, NewFanoutEndpoint parse urlString o = .error err) ↔
      ∃ e ∈ FanoutOptions.endpoints o, ∃ err, parse e = .error err) ∧
    match NewFanoutEndpoint parse urlString o with
    | .error err =>
      FanoutOptions.urls parse o = .error err ∧
      ∃ pre e post, FanoutOptions.endpoints o = pre ++ e :: post ∧
        (∀ x ∈ pre, ∃ u, parse x = .ok u) ∧ parse e = .error err
    | .ok _ =>
      ∃ urls, FanoutOptions.urls parse o = .ok urls ∧
        urls.length = (FanoutOptions.endpoints o).length ∧
        List.Forall₂ (fun e u => parse e = .ok u) (FanoutOptions.endpoints o) urls := by
  have hend : FanoutOptions.endpoints o
      = (if (o.getD {}).Endpoints = [] then [DefaultEndpoint] else (o.getD {}).Endpoints) := by
    cases o with
    | none => rfl
    | some f =>
      simp only [Option.getD_some, FanoutOptions.endpoints]
      cases hE : f.Endpoints <;> simp
  have hloop := urlsLoop_spec parse (FanoutOptions.endpoints o) []
  refine ⟨hend, ?_⟩
  cases hurls : FanoutOptions.urls parse o with
  | error err =>
    have hnew := newFanoutEndpoint_of_urls_error parse urlString o err hurls
    unfold FanoutOptions.urls at hurls
    rw [hurls] at hloop
    obtain ⟨pre, e, post, h1, h2, h3⟩ := hloop
    rw [hnew]
    refine ⟨⟨fun _ => ⟨e, by rw [h1]; simp, err, h3⟩, fun _ => ⟨err, rfl⟩⟩, rfl, ?_⟩
    exact ⟨pre, e, post, h1, h2, h3⟩
  | ok urls =>
    obtain ⟨ep, hnew, _, _⟩ := newFanoutEndpoint_of_urls parse urlString o urls hurls
    unfold FanoutOptions.urls at hurls
    rw [hurls] at hloop
    obtain ⟨us, h1, h2⟩ := hloop
    simp only [List.nil_append] at h1
    subst h1
    rw [hnew]
    refine ⟨⟨fun ⟨err, h⟩ => (by cases h), ?_⟩, urls, rfl, h2.length_eq.symm, h2⟩
    rintro ⟨e, he, err, hperr⟩
    obtain ⟨u, hu⟩ := forall2_left_related h2 e he
    rw [hperr] at hu
    cases hu

/-- The endpoint with a malformed escape makes construction fail with its parse error, while
the endpoint before it parses. -/
theorem newFanoutEndpoint_bad_url_value :
    NewFanoutEndpoint parseTable urlStringPlain
        (some { Endpoints := ["http://localhost:7000/api/v2/device/send",
                              "http://localhost/%zz"] })
      = .error "parse \"http://localhost/%zz\": invalid URL escape \"%zz\"" := by
  rfl

/-- A map built by assigning one binding per list element holds only bindings it started
with or bindings made from a list element. -/
theorem mem_foldl_set {α β : Type} (key : α → String) (val : α → β) (l : List α)
    (m : GoMap β) (e : String × β)
    (he : e ∈ l.foldl (fun m a => GoMap.set m (key a) (val a)) m) :
    e ∈ m ∨ ∃ a ∈ l, e = (key a, val a) := by
  induction l generalizing m with
  | nil => exact Or.inl he
  | cons a l ih =>
    rcases ih (GoMap.set m (key a) (val a)) he with h | ⟨b, hb, h⟩
    · rw [GoMap.mem_set] at h
      rcases h with ⟨h, _⟩ | h
      · exact Or.inl h
      · exact Or.inr ⟨a, by simp, h⟩
    · exact Or.inr ⟨b, by simp [hb], h⟩

/-- A map built by assigning one binding per element of a non-empty list is not empty. -/
theorem foldl_set_ne_nil {α β : Type} (key : α → String) (val : α → β) (l : List α)
    (m : GoMap β) (h : l ≠ [] ∨ m ≠ []) :
    l.foldl (fun m a => GoMap.set m (key a) (val a)) m ≠ [] := by
  induction l generalizing m with
  | nil => simpa using h
  | cons a l ih =>
    exact ih _ (Or.inr (by simp [GoMap.set]))

/-- The list `endpoints()` yields is never empty. -/
theorem endpoints_ne_nil (o : Option FanoutOptions) : FanoutOptions.endpoints o ≠ [] := by
  cases o with
  | none => simp [FanoutOptions.endpoints]
  | some f =>
    unfold FanoutOptions.endpoints
    cases h : f.Endpoints <;> simp [h]

/-- What a successful `NewFanoutEndpoint` was built from: the parsed URLs. -/
theorem newFanoutEndpoint_ok_urls (parse : String → Except Error URL) (urlString : URL → String)
    (o : Option FanoutOptions) (ep : Endpoint)
    (hbuilt : NewFanoutEndpoint parse urlString o = .ok ep) :
    ∃ urls, FanoutOptions.urls parse o = .ok urls ∧
      List.Forall₂ (fun e u => parse e = .ok u) (FanoutOptions.endpoints o) urls := by
  cases hurls : FanoutOptions.urls parse o with
  | error err =>
    rw [newFanoutEndpoint_of_urls_error parse urlString o err hurls] at hbuilt
    cases hbuilt
  | ok urls =>
    refine ⟨urls, rfl, ?_⟩
    have hloop := urlsLoop_spec parse (FanoutOptions.endpoints o) []
    unfold FanoutOptions.urls at hurls
    rw [hurls] at hloop
    obtain ⟨us, h1, h2⟩ := hloop
    simp only [List.nil_append] at h1
    subst h1
    exact h2

theorem forall2_right_related {α β : Type} {R : α → β → Prop} {l₁ : List α} {l₂ : List β}
    (h : List.Forall₂ R l₁ l₂) : ∀ b ∈ l₂, ∃ a ∈ l₁, R a b := by
  induction h with
  | nil => simp
  | cons hab _ ih =>
    intro x hx
    rcases List.mem_cons.1 hx with hx | hx
    · subst hx; exact ⟨_, by simp, hab⟩
    · obtain ⟨a, ha, hr⟩ := ih x hx
      exact ⟨a, by simp [ha], hr⟩

/-- C11 (as stated, refuted): the bare path `/api/v2/device/send`, which `url.Parse` accepts,
is accepted as an endpoint, and the fanout is built with an endpoint client whose URL has an
empty scheme and an empty host. -/
theorem newFanoutEndpoint_relative_endpoint_counterexample :
    (NewFanoutEndpoint parseTableWithPath urlStringNoEscape
        (some { Endpoints := ["/api/v2/device/send"] })).toOption.map
      (fun ep => ep.clients.map (fun kc => (kc.2.url.Scheme, kc.2.url.Host, kc.2.url.Path)))
      = some [("", "", "/api/v2/device/send")] := by
  decide

/-- C11 (amended): every endpoint of a fanout that `NewFanoutEndpoint` builds without error is
the URL that `url.Parse` returns for one of the endpoint strings `endpoints()` yields, and
the fanout has at least one endpoint; no other condition is checked, neither on the scheme
nor on the host. -/
theorem newFanoutEndpoint_endpoints_parsed (parse : String → Except Error URL)
    (urlString : URL → String) (o : Option FanoutOptions) (ep : Endpoint)
    (hbuilt : NewFanoutEndpoint parse urlString o = .ok ep) :
    ep.clients ≠ [] ∧
    ∀ kc ∈ ep.clients, kc.1 = urlString kc.2.url ∧
      ∃ e ∈ FanoutOptions.endpoints o, parse e = .ok kc.2.url := by
  obtain ⟨urls, hurls, hall⟩ := newFanoutEndpoint_ok_urls parse urlString o ep hbuilt
  obtain ⟨ep', h1, _, h3⟩ := newFanoutEndpoint_of_urls parse urlString o urls hurls
  rw [h1] at hbuilt
  cases hbuilt
  have hne : urls ≠ [] := by
    intro h
    subst h
    cases hend : FanoutOptions.endpoints o with
    | nil => exact endpoints_ne_nil o hend
    | cons e es => rw [hend] at hall; cases hall
  rw [h3]
  refine ⟨foldl_set_ne_nil _ _ urls [] (Or.inl hne), fun kc hkc => ?_⟩
  rcases mem_foldl_set _ _ urls [] kc hkc with h | ⟨u, hu, h⟩
  · cases h
  · subst h
    exact ⟨rfl, forall2_right_related hall u hu⟩

/-- C11 witness: the zero value of the options, whose one endpoint is the default one. -/
theorem newFanoutEndpoint_endpoints_parsed_witness :
    ∃ ep : Endpoint,
      NewFanoutEndpoint parseTable urlStringPlain (some {}) = .ok ep ∧
      ep.clients ≠ [] ∧
      ∀ kc ∈ ep.clients, kc.1 = urlStringPlain kc.2.url ∧
        ∃ e ∈ FanoutOptions.endpoints (some {}), parseTable e = .ok kc.2.url :=
  ⟨_, rfl, newFanoutEndpoint_endpoints_parsed parseTable urlStringPlain (some {}) _ rfl⟩

/-- C12: the header that `NewFanoutEndpoint` hands to every endpoint client (there is at
least one) is `Accept: application/msgpack` alone when no authorization token is configured,
and that entry followed by `Authorization: Basic <token>` when the token is not empty; it
has no other entry. -/
theorem newFanoutEndpoint_customHeader (parse : String → Except Error URL)
    (urlString : URL → String) (o : Option FanoutOptions) (ep : Endpoint)
    (hbuilt : NewFanoutEndpoint parse urlString o = .ok ep) :
    ep.clients ≠ [] ∧
    ∀ kc ∈ ep.clients,
      kc.2.customHeader =
        (if (o.getD {}).Authorization = "" then [("Accept", ["application/msgpack"])]
         else [("Accept", ["application/msgpack"]),
               ("Authorization", ["Basic " ++ (o.getD {}).Authorization])]) := by
  obtain ⟨urls, hurls, hall⟩ := newFanoutEndpoint_ok_urls parse urlString o ep hbuilt
  obtain ⟨ep', h1, _, h3⟩ := newFanoutEndpoint_of_urls parse urlString o urls hurls
  rw [h1] at hbuilt
  cases hbuilt
  have hne : urls ≠ [] := by
    intro h
    subst h
    cases hend : FanoutOptions.endpoints o with
    | nil => exact endpoints_ne_nil o hend
    | cons e es => rw [hend] at hall; cases hall
  have hauth : FanoutOptions.authorization o = (o.getD {}).Authorization := by
    cases o with
    | none => rfl
    | some f =>
      simp only [FanoutOptions.authorization, Option.getD_some]
      by_cases h : f.Authorization = ""
      · simp [h]
      · simp [(string_length_pos_iff f.Authorization).2 h]
  have hcanon : CanonicalMIMEHeaderKey "Authorization" = "Authorization" := by decide
  rw [h3]
  refine ⟨foldl_set_ne_nil _ _ urls [] (Or.inl hne), fun kc hkc => ?_⟩
  rcases mem_foldl_set _ _ urls [] kc hkc with h | ⟨u, hu, h⟩
  · cases h
  · subst h
    simp only [hauth, hcanon]
    by_cases htok : (o.getD {}).Authorization = ""
    · simp [htok]
    · simp only [(string_length_pos_iff _).2 htok, htok, if_true, if_false]
      rfl

/-- C12 witness: options with the token `dXNlcjpwYXNz`. -/
theorem newFanoutEndpoint_customHeader_witness :
    ∃ ep : Endpoint,
      NewFanoutEndpoint parseTable urlStringPlain (some authorizedOptions) = .ok ep ∧
      ep.clients ≠ [] ∧
      ∀ kc ∈ ep.clients,
        kc.2.customHeader =
          [("Accept", ["application/msgpack"]), ("Authorization", ["Basic dXNlcjpwYXNz"])] :=
  ⟨_, rfl, newFanoutEndpoint_customHeader parseTable urlStringPlain (some authorizedOptions) _ rfl⟩

/-- C13: the middleware that `NewFanoutEndpoint` wraps around the fanout are, from the
outermost to the innermost, `Logging`, `Busy(maxClients, 503 "Server Busy")`,
`Timeout(fanoutTimeout)`, `Concurrent(concurrency, 429 "Too Many Requests")`, then the
middleware of the options in their given order, the last of them being applied directly to
the fanout. -/
theorem newFanoutEndpoint_middleware_chain (parse : String → Except Error URL)
    (urlString : URL → String) (o : Option FanoutOptions) (ep : Endpoint)
    (hbuilt : NewFanoutEndpoint parse urlString o = .ok ep) :
    ep.layers =
      [ Middleware.Logging,
        Middleware.Busy (FanoutOptions.maxClients o) { Code := 503, Text := "Server Busy" },
        Middleware.Timeout (FanoutOptions.fanoutTimeout o),
        Middleware.Concurrent (FanoutOptions.concurrency o)
          { Code := 429, Text := "Too Many Requests" } ]
        ++ (o.getD {}).Middleware ∧
    ep =
      Endpoint.wrap Middleware.Logging
        (Endpoint.wrap
          (Middleware.Busy (FanoutOptions.maxClients o) { Code := 503, Text := "Server Busy" })
          (Endpoint.wrap (Middleware.Timeout (FanoutOptions.fanoutTimeout o))
            (Endpoint.wrap
              (Middleware.Concurrent (FanoutOptions.concurrency o)
                { Code := 429, Text := "Too Many Requests" })
              ((o.getD {}).Middleware.foldr Endpoint.wrap (Endpoint.fanout ep.clients))))) := by
  obtain ⟨urls, hurls, _⟩ := newFanoutEndpoint_ok_urls parse urlString o ep hbuilt
  have hmw : FanoutOptions.middleware o = (o.getD {}).Middleware := by
    cases o <;> rfl
  have hnew := hbuilt
  simp only [NewFanoutEndpoint, hurls] at hnew
  cases hnew
  refine ⟨?_, ?_⟩
  · simp [Chain, Endpoint.layers, layers_foldr_wrap, hmw]
  · simp [Chain, Endpoint.clients, clients_foldr_wrap, hmw]

/-- C13 witness: options with two custom middleware. -/
theorem newFanoutEndpoint_middleware_chain_witness :
    ∃ ep : Endpoint,
      NewFanoutEndpoint parseTable urlStringPlain (some authorizedOptions) = .ok ep ∧
      ep.layers =
        [ Middleware.Logging,
          Middleware.Busy 10000 { Code := 503, Text := "Server Busy" },
          Middleware.Timeout 45000000000,
          Middleware.Concurrent 1000 { Code := 429, Text := "Too Many Requests" },
          Middleware.Custom "metrics", Middleware.Custom "audit" ] :=
  ⟨_, rfl, (newFanoutEndpoint_middleware_chain parseTable urlStringPlain
    (some authorizedOptions) _ rfl).1⟩

/-! ## `webhookStore`: the remote store `YggdrasilClient` -/

namespace RawURLEncoding

theorem decodeChar_encodeChar (v : Nat) (hv : v < 64) :
    decodeChar (encodeChar v) = some v := by
  interval_cases v <;> decide

theorem encodeChar_not_newline (v : Nat) (hv : v < 64) :
    (encodeChar v != '\r' && encodeChar v != '\n') = true := by
  interval_cases v <;> decide

/-- Every character the encoder writes is the character of a six-bit value. -/
theorem encodeLoop_chars (src : Bytes) :
    ∀ c ∈ encodeLoop src, ∃ v, v < 64 ∧ c = encodeChar v := by
  induction src using encodeLoop.induct with
  | case1 => simp [encodeLoop]
  | case2 b0 =>
    intro c hc
    simp only [encodeLoop, List.mem_cons, List.mem_singleton, List.not_mem_nil, or_false] at hc
    rcases hc with h | h <;> exact ⟨_, Nat.mod_lt _ (by decide), h⟩
  | case3 b0 b1 =>
    intro c hc
    simp only [encodeLoop, List.mem_cons, List.mem_singleton, List.not_mem_nil, or_false] at hc
    rcases hc with h | h | h <;> exact ⟨_, Nat.mod_lt _ (by decide), h⟩
  | case4 b0 b1 b2 rest ih =>
    intro c hc
    simp only [encodeLoop, List.mem_cons] at hc
    rcases hc with h | h | h | h | h
    · exact ⟨_, Nat.mod_lt _ (by decide), h⟩
    · exact ⟨_, Nat.mod_lt _ (by decide), h⟩
    · exact ⟨_, Nat.mod_lt _ (by decide), h⟩
    · exact ⟨_, Nat.mod_lt _ (by decide), h⟩
    · exact ih c h

theorem fin_ofNat_val (b : Fin 256) : (Fin.ofNat b.val : Fin 256) = b := by
  apply Fin.ext
  simp [Fin.ofNat, Nat.mod_eq_of_lt b.isLt]

/-- Decoding the six-bit values of the encoder's output gives the bytes back. -/
theorem decode_encodeLoop (src : Bytes) :
    ∃ vs, decodeChars (encodeLoop src) = .ok vs ∧ decodeQuanta vs = .ok src := by
  induction src using encodeLoop.induct with
  | case1 => exact ⟨[], rfl, rfl⟩
  | case2 b0 =>
    refine ⟨[b0.val * 65536 / 262144 % 64, b0.val * 65536 / 4096 % 64], ?_, ?_⟩
    · simp [encodeLoop, decodeChars, decodeChar_encodeChar _ (Nat.mod_lt _ (by decide : 64 > 0))]
    · have hb := b0.isLt
      simp only [decodeQuanta]
      have h : (b0.val * 65536 / 262144 % 64 * 262144 + b0.val * 65536 / 4096 % 64 * 4096)
          / 65536 % 256 = b0.val := by omega
      rw [h, fin_ofNat_val]
  | case3 b0 b1 =>
    refine ⟨[(b0.val * 65536 + b1.val * 256) / 262144 % 64,
      (b0.val * 65536 + b1.val * 256) / 4096 % 64,
      (b0.val * 65536 + b1.val * 256) / 64 % 64], ?_, ?_⟩
    · simp [encodeLoop, decodeChars, decodeChar_encodeChar _ (Nat.mod_lt _ (by decide : 64 > 0))]
    · have hb0 := b0.isLt
      have hb1 := b1.isLt
      simp only [decodeQuanta]
      have h0 : ((b0.val * 65536 + b1.val * 256) / 262144 % 64 * 262144
          + (b0.val * 65536 + b1.val * 256) / 4096 % 64 * 4096
          + (b0.val * 65536 + b1.val * 256) / 64 % 64 * 64) / 65536 % 256 = b0.val := by omega
      have h1 : ((b0.val * 65536 + b1.val * 256) / 262144 % 64 * 262144
          + (b0.val * 65536 + b1.val * 256) / 4096 % 64 * 4096
          + (b0.val * 65536 + b1.val * 256) / 64 % 64 * 64) / 256 % 256 = b1.val := by omega
      rw [h0, h1, fin_ofNat_val, fin_ofNat_val]
  | case4 b0 b1 b2 rest ih =>
    obtain ⟨vs, h1, h2⟩ := ih
    refine ⟨(b0.val * 65536 + b1.val * 256 + b2.val) / 262144 % 64 ::
      (b0.val * 65536 + b1.val * 256 + b2.val) / 4096 % 64 ::
      (b0.val * 65536 + b1.val * 256 + b2.val) / 64 % 64 ::
      (b0.val * 65536 + b1.val * 256 + b2.val) % 64 :: vs, ?_, ?_⟩
    · simp [encodeLoop, decodeChars, decodeChar_encodeChar _ (Nat.mod_lt _ (by decide : 64 > 0)),
        h1]
    · have hb0 := b0.isLt
      have hb1 := b1.isLt
      have hb2 := b2.isLt
      simp only [decodeQuanta, h2]
      have e0 : ((b0.val * 65536 + b1.val * 256 + b2.val) / 262144 % 64 * 262144
          + (b0.val * 65536 + b1.val * 256 + b2.val) / 4096 % 64 * 4096
          + (b0.val * 65536 + b1.val * 256 + b2.val) / 64 % 64 * 64
          + (b0.val * 65536 + b1.val * 256 + b2.val) % 64)
          = b0.val * 65536 + b1.val * 256 + b2.val := by omega
      rw [e0]
      have h0 : (b0.val * 65536 + b1.val * 256 + b2.val) / 65536 % 256 = b0.val := by omega
      have h1' : (b0.val * 65536 + b1.val * 256 + b2.val) / 256 % 256 = b1.val := by omega
      have h2' : (b0.val * 65536 + b1.val * 256 + b2.val) % 256 = b2.val := by omega
      rw [h0, h1', h2', fin_ofNat_val, fin_ofNat_val, fin_ofNat_val]

/-- The decoder of `RawURLEncoding` inverts its encoder on every byte string. -/
theorem decodeString_encodeToString (src : Bytes) :
    DecodeString (EncodeToString src) = .ok src := by
  obtain ⟨vs, h1, h2⟩ := decode_encodeLoop src
  have hfilter : (encodeLoop src).filter (fun c => c != '\r' && c != '\n') = encodeLoop src := by
    rw [List.filter_eq_self]
    intro c hc
    obtain ⟨v, hv, rfl⟩ := encodeLoop_chars src c hc
    exact encodeChar_not_newline v hv
  simp only [DecodeString, EncodeToString, String.toList, hfilter, h1, h2]

end RawURLEncoding

namespace YggdrasilClient

/-- The URL text `Push` hands to `http.NewRequest` is the unformatted format text followed by
the address, the prefix and the encoded id. -/
theorem pushURL_eq (c : YggdrasilClient) (w : W) :
    pushURL c w = "%s/store/%s/%s" ++ c.config.Address ++ c.config.Prefix ++ pushID w := by
  simp [pushURL, fmtSprint, String.join]

/-- The URL text `Remove` hands to `http.NewRequest` is the unformatted format text followed
by the address, the prefix and the id as given. -/
theorem removeURL_eq (c : YggdrasilClient) (id : String) :
    removeURL c id = "%s/store/%s/%s" ++ c.config.Address ++ c.config.Prefix ++ id := by
  simp [removeURL, fmtSprint, String.join]

/-- C14 (the code at the failing input): for the address `http://yggdrasil:8080`, the prefix
`hooks` and the subscription `neatWebhook`, the URL text of `Push` is not
`http://yggdrasil:8080/store/hooks/<id>` but the format text with the three arguments
appended, and `http.NewRequest` rejects it whatever the body, so no POST request is
built. -/
theorem push_url_unformatted :
    pushURL (sampleClient none) neatWebhook
      = "%s/store/%s/%shttp://yggdrasil:8080hooksaHR0cDovL2xvY2FsaG9zdC9ldmVudHM_bmVhdA" ∧
    pushURL (sampleClient none) neatWebhook
      ≠ "http://yggdrasil:8080" ++ "/store/" ++ "hooks" ++ "/" ++ pushID neatWebhook ∧
    ∀ body : Option Body,
      NewRequest parseEscapeTable "POST" (pushURL (sampleClient none) neatWebhook) body
        = .error ("parse \"%s/store/%s/%shttp://yggdrasil:8080hooks"
            ++ "aHR0cDovL2xvY2FsaG9zdC9ldmVudHM_bmVhdA\": invalid URL escape \"%s/\"") := by
  refine ⟨by decide, by decide, fun body => ?_⟩
  have h : parseEscapeTable (pushURL (sampleClient none) neatWebhook)
      = .error ("parse \"%s/store/%s/%shttp://yggdrasil:8080hooks"
            ++ "aHR0cDovL2xvY2FsaG9zdC9ldmVudHM_bmVhdA\": invalid URL escape \"%s/\"") := by
    rfl
  simp only [NewRequest, h]

/-- C15 (the code at the failing input): for the subscription `neatWebhook`, the id segment
of the URL text of `Remove(w.ID())` is the id itself, while that of `Push(w)` is its
unpadded base64url encoding; the two differ. -/
theorem remove_id_not_encoded :
    removeURL (sampleClient none) neatWebhook.ID
      = "%s/store/%s/%shttp://yggdrasil:8080hooks" ++ "http://localhost/events?neat" ∧
    pushURL (sampleClient none) neatWebhook
      = "%s/store/%s/%shttp://yggdrasil:8080hooks" ++ "aHR0cDovL2xvY2FsaG9zdC9ldmVudHM_bmVhdA" ∧
    pushID neatWebhook = "aHR0cDovL2xvY2FsaG9zdC9ldmVudHM_bmVhdA" ∧
    neatWebhook.ID ≠ pushID neatWebhook ∧
    removeURL (sampleClient none) neatWebhook.ID ≠ pushURL (sampleClient none) neatWebhook := by
  decide

/-- C16: for every subscription, the id segment `Push` computes decodes, with the unpadded
base64url decoding, back to exactly the bytes of `w.ID()`; indeed every byte string is
recovered from its encoding. -/
theorem pushID_roundtrip (w : W) :
    RawURLEncoding.DecodeString (pushID w) = .ok (stringBytes w.ID) ∧
    ∀ id : Bytes,
      RawURLEncoding.DecodeString (RawURLEncoding.EncodeToString id) = .ok id :=
  ⟨RawURLEncoding.decodeString_encodeToString _, RawURLEncoding.decodeString_encodeToString⟩

end YggdrasilClient

namespace GoMap

/-- Assigning the bindings of a list, in order, to a map gives a map that binds a key to the
last value the list has for it, and otherwise to what the map had. -/
theorem get_foldl_set {β : Type} (l : List (String × β)) (m : GoMap β) (k : String) :
    get (l.foldl (fun m e => set m e.1 e.2) m) k = (get l.reverse k).orElse (fun _ => get m k) := by
  induction l generalizing m with
  | nil => simp [get]
  | cons e l ih =>
    obtain ⟨k0, v0⟩ := e
    simp only [List.foldl_cons, List.reverse_cons]
    rw [ih, get_append_single, get_set]
    cases get l.reverse k with
    | some v => simp
    | none =>
      by_cases h : k0 = k
      · subst h; simp
      · have h2 : ¬ k = k0 := fun e => h e.symm
        simp [h, h2]

theorem WF_foldl_set {β : Type} (l : List (String × β)) (m : GoMap β) (h : WF m) :
    WF (l.foldl (fun m e => set m e.1 e.2) m) := by
  induction l generalizing m with
  | nil => exact h
  | cons e l ih => exact ih _ (WF_set _ _ _ h)

end GoMap

namespace YggdrasilClient

/-- An entry is stored without error exactly when it is `null` or an object all of whose
numbers fit a `float64`. -/
theorem entryError_eq_none_iff (lib : GoLib) (k : String) (v : JSON) :
    entryError lib k v = none ↔
      v = JSON.null ∨
      ∃ ms, v = JSON.object ms ∧ ∀ literal ∈ v.numbers, lib.parseFloatOK literal = true := by
  cases v with
  | object ms =>
    by_cases hall : (JSON.object ms).numbers.all lib.parseFloatOK = true
    · simp only [entryError, hall, if_true, reduceCtorEq, false_or, JSON.object.injEq,
        exists_eq_left', true_iff]
      exact List.all_eq_true.1 hall
    · simp only [entryError, hall, if_false, reduceCtorEq, false_or, JSON.object.injEq,
        exists_eq_left', false_iff, Bool.false_eq_true]
      exact fun h => hall (List.all_eq_true.2 h)
  | null => simp [entryError]
  | bool b => simp [entryError]
  | number l => simp [entryError]
  | string t => simp [entryError]
  | array es => simp [entryError]

/-- When every entry is stored without error, the loop binds each id to its value, a later
value replacing an earlier one. -/
theorem unmarshalStoreLoop_ok (lib : GoLib) (members : List (String × JSON)) (body : GoMap JSON)
    (hvalues : ∀ e ∈ members, entryError lib e.1 e.2 = none) :
    unmarshalStoreLoop lib members body
      = .ok (members.foldl (fun m e => GoMap.set m e.1 e.2) body) := by
  induction members generalizing body with
  | nil => rfl
  | cons e rest ih =>
    obtain ⟨k, v⟩ := e
    have hv : entryError lib k v = none := hvalues (k, v) (List.mem_cons_self _ _)
    simp only [unmarshalStoreLoop, hv, List.foldl_cons]
    exact ih _ (fun e he => hvalues e (List.mem_cons_of_mem _ he))

/-- When one entry is not stored without error, the loop fails. -/
theorem unmarshalStoreLoop_error (lib : GoLib) (members : List (String × JSON))
    (body : GoMap JSON) (hbad : ∃ e ∈ members, entryError lib e.1 e.2 ≠ none) :
    ∃ err, unmarshalStoreLoop lib members body = .error err := by
  induction members generalizing body with
  | nil => simp at hbad
  | cons e rest ih =>
    obtain ⟨k, v⟩ := e
    cases hv : entryError lib k v with
    | some err => exact ⟨err, by simp [unmarshalStoreLoop, hv]⟩
    | none =>
      simp only [unmarshalStoreLoop, hv]
      apply ih
      obtain ⟨e, he, hne⟩ := hbad
      rcases List.mem_cons.1 he with h | h
      · subst h
        exact absurd hv hne
      · exact ⟨e, h, hne⟩

theorem hooksLoop_eq (hookOf : JSON → Except Error W) (values : List JSON) (hooks : List W) :
    hooksLoop hookOf values hooks
      = hooks ++ values.filterMap (fun value => (hookOf value).toOption) := by
  induction values generalizing hooks with
  | nil => simp [hooksLoop]
  | cons value rest ih =>
    cases h : hookOf value with
    | error err => simp [hooksLoop, h, ih, Except.toOption]
    | ok hook => simp [hooksLoop, h, ih, Except.toOption]

/-- C17 (as stated, refuted): in the payload `{"a":"oops","b":{...}}` the entry `a` is a
string, not a subscription object; the parsing step does not skip it but fails as a whole,
with the type error of `json.Unmarshal` and no subscriptions, although entry `b` is
well-formed. -/
theorem decodeHooks_string_entry_counterexample :
    decodeHooks sampleLib payloadWithString
      = ([], some (sampleLib.typeError ["a"] (JSON.string "oops"))) ∧
    (decodeHooks sampleLib payloadWithString).2 ≠ none := by
  constructor
  · rfl
  · decide

/-- C17 (amended): for every payload that is a JSON object, the parsing step is best-effort
for the entries that are objects only. When every value is `null` or an object whose numbers
all fit a `float64`, the step returns a nil error and exactly the subscriptions decoded from
the entries that decode: the entries of the payload form a map that binds each id once, to
the last value the payload has for it, and the result lists, in the order of the map, the
subscription of every entry that decodes, an entry that does not decode being skipped. When
some value is a string, a number, a boolean or an array, or an object that holds a number
that does not fit a `float64`, the whole step fails: it returns an error and no
subscription. -/
theorem decodeHooks_best_effort (lib : GoLib) (data : Bytes) (members : List (String × JSON))
    (hpayload : lib.parseJSON data = .ok (JSON.object members)) :
    ((∀ e ∈ members, e.2 = JSON.null ∨
        ∃ ms, e.2 = JSON.object ms ∧ ∀ literal ∈ e.2.numbers, lib.parseFloatOK literal = true) →
      (decodeHooks lib data).2 = none ∧
      ∃ body : GoMap JSON,
        GoMap.WF body ∧
        (∀ id, GoMap.get body id = GoMap.get members.reverse id) ∧
        (decodeHooks lib data).1
          = (GoMap.values body).filterMap (fun value => (lib.hookOf value).toOption)) ∧
    ((∃ e ∈ members,
        (∃ t, e.2 = JSON.string t) ∨ (∃ literal, e.2 = JSON.number literal) ∨
        (∃ b, e.2 = JSON.bool b) ∨ (∃ elems, e.2 = JSON.array elems) ∨
        (∃ ms, e.2 = JSON.object ms ∧
          ∃ literal ∈ e.2.numbers, lib.parseFloatOK literal = false)) →
      ∃ err, decodeHooks lib data = ([], some err)) := by
  constructor
  · intro hvalues
    have hnone : ∀ e ∈ members, entryError lib e.1 e.2 = none :=
      fun e he => (entryError_eq_none_iff lib e.1 e.2).2 (hvalues e he)
    have hbody := unmarshalStoreLoop_ok lib members [] hnone
    have hdec : decodeHooks lib data
        = (hooksLoop lib.hookOf
            (GoMap.values (members.foldl (fun m e => GoMap.set m e.1 e.2) [])) [], none) := by
      simp only [decodeHooks, hpayload, unmarshalStore, hbody]
    rw [hdec]
    refine ⟨rfl, _, GoMap.WF_foldl_set members [] (by decide), fun id => ?_, ?_⟩
    · rw [GoMap.get_foldl_set]
      cases GoMap.get members.reverse id <;> simp [GoMap.get]
    · simp only [hooksLoop_eq, List.nil_append]
  · rintro ⟨e, he, hbad⟩
    have hne : entryError lib e.1 e.2 ≠ none := by
      intro hnone
      rcases (entryError_eq_none_iff lib e.1 e.2).1 hnone with h | ⟨ms, h, hall⟩
      · rcases hbad with ⟨t, ht⟩ | ⟨l, hl⟩ | ⟨b, hb⟩ | ⟨es, hes⟩ | ⟨ms, hms, _⟩ <;>
          simp_all
      · rcases hbad with ⟨t, ht⟩ | ⟨l, hl⟩ | ⟨b, hb⟩ | ⟨es, hes⟩ | ⟨ms', _, literal, hl, hf⟩
        · rw [ht] at h; cases h
        · rw [hl] at h; cases h
        · rw [hb] at h; cases h
        · rw [hes] at h; cases h
        · rw [hall literal hl] at hf
          cases hf
    obtain ⟨err, herr⟩ := unmarshalStoreLoop_error lib members [] ⟨e, he, hne⟩
    exact ⟨err, by simp only [decodeHooks, hpayload, unmarshalStore, herr]⟩

/-- C17 witness: the payload `{"a":{"config":{"url":"http://a"}},"b":{"config":5},"c":null}`,
whose entry `b` does not decode and is skipped, and the payload
`{"a":"oops","b":{"config":{"url":"http://b"}}}`, whose entry `a` makes the step fail. -/
theorem decodeHooks_best_effort_witness :
    (sampleLib.parseJSON payloadMixed
      = .ok (JSON.object
          [("a", JSON.object [("config", JSON.object [("url", JSON.string "http://a")])]),
           ("b", JSON.object [("config", JSON.number "5")]),
           ("c", JSON.null)]) ∧
     sampleLib.parseJSON payloadWithString
      = .ok (JSON.object
          [("a", JSON.string "oops"),
           ("b", JSON.object [("config", JSON.object [("url", JSON.string "http://b")])])])) ∧
    ((decodeHooks sampleLib payloadMixed).2 = none ∧
      ∃ body : GoMap JSON,
        GoMap.WF body ∧
        (∀ id, GoMap.get body id
          = GoMap.get
              [("a", JSON.object [("config", JSON.object [("url", JSON.string "http://a")])]),
               ("b", JSON.object [("config", JSON.number "5")]),
               ("c", JSON.null)].reverse id) ∧
        (decodeHooks sampleLib payloadMixed).1
          = (GoMap.values body).filterMap (fun value => (sampleLib.hookOf value).toOption)) ∧
    (∃ err, decodeHooks sampleLib payloadWithString = ([], some err)) :=
  ⟨⟨by rfl, by rfl⟩,
    (decodeHooks_best_effort sampleLib payloadMixed
      [("a", JSON.object [("config", JSON.object [("url", JSON.string "http://a")])]),
       ("b", JSON.object [("config", JSON.number "5")]),
       ("c", JSON.null)]
      (by rfl)).1
      (by
        intro e he
        simp only [List.mem_cons, List.mem_singleton, List.not_mem_nil, or_false] at he
        rcases he with rfl | rfl | rfl
        · exact Or.inr ⟨_, rfl, by decide⟩
        · exact Or.inr ⟨_, rfl, by decide⟩
        · exact Or.inl rfl),
    (decodeHooks_best_effort sampleLib payloadWithString
      [("a", JSON.string "oops"),
       ("b", JSON.object [("config", JSON.object [("url", JSON.string "http://b")])])]
      (by rfl)).2
      ⟨("a", JSON.string "oops"), List.mem_cons_self _ _, Or.inl ⟨"oops", rfl⟩⟩⟩

/-- The subscriptions the parsing step returns for the payload of the witness: the entry
`a`, and the zero subscription for the entry `c`, which is `null`. -/
theorem decodeHooks_mixed_value :
    decodeHooks sampleLib payloadMixed = ([{ Config := { URL := "http://a" } }, {}], none) := by
  decide

/-- The payload `{"a":{"n":1e999},"b":{...}}`: every entry is an object, and the number of
entry `a` does not fit a `float64`, so the step fails as a whole. -/
theorem decodeHooks_overflow_value :
    decodeHooks sampleLib payloadOverflow
      = ([], some "json: cannot unmarshal number 1e999 into Go value of type float64") := by
  decide

end YggdrasilClient

namespace YggdrasilClient

/-- Two stores with the same configuration whose HTTP clients answer every request alike but
for the body of the response go on alike once the request is built. -/
theorem getWebhookFrom_ignores_response_body (lib : GoLib) (c₁ c₂ : YggdrasilClient)
    (hconfig : c₁.config = c₂.config)
    (hclient : ∀ request,
      (c₁.client request).map (fun response => { response with Body := none })
        = (c₂.client request).map (fun response => { response with Body := none }))
    (request : Request) :
    getWebhookFrom lib c₁ request = getWebhookFrom lib c₂ request := by
  have hstatus : ∀ request,
      (∃ err, c₁.client request = .error err ∧ c₂.client request = .error err) ∨
      (∃ r₁ r₂, c₁.client request = .ok r₁ ∧ c₂.client request = .ok r₂ ∧
        r₁.StatusCode = r₂.StatusCode) := by
    intro request
    have h := hclient request
    cases h1 : c₁.client request with
    | error e1 =>
      cases h2 : c₂.client request with
      | error e2 =>
        rw [h1, h2] at h
        simp only [Except.map] at h
        cases h
        exact Or.inl ⟨e1, rfl, rfl⟩
      | ok r2 => rw [h1, h2] at h; simp [Except.map] at h
    | ok r1 =>
      cases h2 : c₂.client request with
      | error e2 => rw [h1, h2] at h; simp [Except.map] at h
      | ok r2 =>
        rw [h1, h2] at h
        simp only [Except.map, Except.ok.injEq, Response.mk.injEq] at h
        exact Or.inr ⟨r1, r2, rfl, rfl, h.1⟩
  unfold getWebhookFrom
  rw [hconfig]
  cases hauth : c₂.config.Auth with
  | error err => rfl
  | ok auth =>
    simp only
    rcases hstatus (if auth ≠ "" then
        { request with Header := headerAdd request.Header "Authorization" auth }
      else request) with ⟨err, h1, h2⟩ | ⟨r₁, r₂, h1, h2, hs⟩
    · rw [h1, h2]
    · rw [h1, h2]
      simp only [hs]

/-- What `GetWebhook` does after a 200 response, by the body of its request: with a nil body
it panics, and with a body that reads as `data` it parses `data`. -/
theorem getWebhookFrom_reads_request_body (lib : GoLib) (c : YggdrasilClient)
    (request : Request) (auth : String) (response : Response)
    (hauth : c.config.Auth = .ok auth)
    (hclient : c.client (if auth ≠ "" then
        { request with Header := headerAdd request.Header "Authorization" auth }
      else request) = .ok response)
    (hstatus : response.StatusCode = 200) :
    (request.Body = none → getWebhookFrom lib c request = none) ∧
    (∀ data, request.Body = some (Body.data data) →
      getWebhookFrom lib c request
        = some { hooks := (decodeHooks lib data).1, err := (decodeHooks lib data).2,
                 acquired := true,
                 sent := [if auth ≠ "" then
                     { request with Header := headerAdd request.Header "Authorization" auth }
                   else request] }) := by
  have hbody : (if auth ≠ "" then
        { request with Header := headerAdd request.Header "Authorization" auth }
      else request).Body = request.Body := by
    by_cases ha : auth = "" <;> simp [ha]
  have hok : ¬ (response.StatusCode ≠ 200) := fun h => h hstatus
  constructor
  · intro hnil
    unfold getWebhookFrom
    rw [hauth]
    dsimp only
    rw [hclient]
    dsimp only
    rw [if_neg hok, hbody, hnil]
  · intro data hdata
    unfold getWebhookFrom
    rw [hauth]
    dsimp only
    rw [hclient]
    dsimp only
    rw [if_neg hok, hbody, hdata]
    rfl

/-- C18: `GetWebhook` reads the payload it parses from the body of its own request, not from
the response. Two stores with the same configuration whose HTTP clients answer every request
alike but for the body of the response produce the same outcome, whatever the status of the
responses, from `GetWebhook` and from its steps after the request is built. After a 200
response those steps parse the bytes of the request body, and panic when the request has no
body; the request of `GetWebhook` has none, so `GetWebhook` panics after every 200 response,
whatever the response carries. -/
theorem getWebhook_ignores_response_body (lib : GoLib) (c₁ c₂ : YggdrasilClient)
    (hconfig : c₁.config = c₂.config)
    (hclient : ∀ request,
      (c₁.client request).map (fun response => { response with Body := none })
        = (c₂.client request).map (fun response => { response with Body := none })) :
    GetWebhook lib c₁ = GetWebhook lib c₂ ∧
    (∀ request, getWebhookFrom lib c₁ request = getWebhookFrom lib c₂ request) ∧
    (∀ (request : Request) (auth : String) (response : Response),
      c₁.config.Auth = .ok auth →
      c₁.client (if auth ≠ "" then
          { request with Header := headerAdd request.Header "Authorization" auth }
        else request) = .ok response →
      response.StatusCode = 200 →
      (request.Body = none → getWebhookFrom lib c₁ request = none) ∧
      (∀ data, request.Body = some (Body.data data) →
        getWebhookFrom lib c₁ request
          = some { hooks := (decodeHooks lib data).1, err := (decodeHooks lib data).2,
                   acquired := true,
                   sent := [if auth ≠ "" then
                       { request with Header := headerAdd request.Header "Authorization" auth }
                     else request] })) ∧
    (∀ (u : URL) (auth : String) (response : Response),
      lib.parse (getURL c₁) = .ok u →
      c₁.config.Auth = .ok auth →
      (∀ request, c₁.client request = .ok response) →
      response.StatusCode = 200 →
      GetWebhook lib c₁ = none) := by
  have hurl : getURL c₁ = getURL c₂ := by simp [getURL, hconfig]
  refine ⟨?_, getWebhookFrom_ignores_response_body lib c₁ c₂ hconfig hclient,
    fun request auth response hauth hresp hstatus =>
      getWebhookFrom_reads_request_body lib c₁ request auth response hauth hresp hstatus, ?_⟩
  · unfold GetWebhook
    rw [hurl]
    cases NewRequest lib.parse "GET" (getURL c₂) none with
    | error err => rfl
    | ok request => exact getWebhookFrom_ignores_response_body lib c₁ c₂ hconfig hclient request
  · intro u auth response hparse hauth hresp hstatus
    unfold GetWebhook NewRequest
    simp only [hparse]
    exact (getWebhookFrom_reads_request_body lib c₁ _ auth response hauth (hresp _) hstatus).1
      rfl

/-- C18 witness: two stores that differ in the body of their 200 responses only. For a
request that carries the payload `payloadMixed`, the steps after the request is built return
the subscriptions of that payload, though the response carries `payloadWithString`; with a
parser that accepts the URL text, `GetWebhook` panics after the 200 response. -/
theorem getWebhook_ignores_response_body_witness :
    ((sampleClient (some (Body.data payloadMixed))).config
        = (sampleClient (some (Body.data payloadWithString))).config ∧
      ∀ request,
        ((sampleClient (some (Body.data payloadMixed))).client request).map
            (fun response => { response with Body := none })
          = ((sampleClient (some (Body.data payloadWithString))).client request).map
            (fun response => { response with Body := none })) ∧
    GetWebhook sampleLib (sampleClient (some (Body.data payloadMixed)))
      = GetWebhook sampleLib (sampleClient (some (Body.data payloadWithString))) ∧
    (getWebhookFrom sampleLib (sampleClient (some (Body.data payloadWithString)))
        { Method := "GET", Body := some (Body.data payloadMixed) }).map
        (fun outcome => (outcome.hooks, outcome.err))
      = some ([{ Config := { URL := "http://a" } }, {}], none) ∧
    GetWebhook lenientLib (sampleClient (some (Body.data payloadMixed))) = none :=
  ⟨⟨rfl, fun _ => rfl⟩,
    (getWebhook_ignores_response_body sampleLib (sampleClient (some (Body.data payloadMixed)))
      (sampleClient (some (Body.data payloadWithString))) rfl (fun _ => rfl)).1,
    by
      rw [((getWebhook_ignores_response_body sampleLib
        (sampleClient (some (Body.data payloadWithString)))
        (sampleClient (some (Body.data payloadWithString))) rfl (fun _ => rfl)).2.2.1
        { Method := "GET", Body := some (Body.data payloadMixed) } "Bearer t"
        { StatusCode := 200, Body := some (Body.data payloadWithString) } rfl rfl rfl).2
        payloadMixed rfl]
      decide,
    (getWebhook_ignores_response_body lenientLib (sampleClient (some (Body.data payloadMixed)))
      (sampleClient (some (Body.data payloadMixed))) rfl (fun _ => rfl)).2.2.2
      { Path := "%s/store/%shttp://yggdrasil:8080hooks" } "Bearer t"
      { StatusCode := 200, Body := some (Body.data payloadMixed) } rfl rfl (fun _ => rfl) rfl⟩

/-- The request `GetWebhook` makes has no body, so a store whose URL text parses and whose
server answers 200 panics when the request body is read, whatever the response carries. -/
theorem getWebhook_reads_request_body (lib : GoLib) (c : YggdrasilClient) (u : URL)
    (auth : String) (response : Response)
    (hparse : lib.parse (getURL c) = .ok u) (hauth : c.config.Auth = .ok auth)
    (hclient : ∀ request, c.client request = .ok response)
    (hstatus : response.StatusCode = 200) :
    GetWebhook lib c = none := by
  unfold GetWebhook NewRequest
  simp only [hparse]
  exact (getWebhookFrom_reads_request_body lib c _ auth response hauth (hclient _) hstatus).1
    rfl

end YggdrasilClient

/-! ## `secure/handler`: `WriteJsonError` -/

/-- The function `WriteJsonError` on a writer that has written no status, for a code that
the writer takes as its status (from 200 to 999, or from 100 when the writer keeps such a
status): the two headers are set, the code is written and the text is handed to `Write`. -/
theorem writeJsonError_eq (response : ResponseWriter) (code : Int) (message : String)
    (hfresh : response.code = none)
    (hcode : (200 ≤ code ∨ (100 ≤ code ∧ response.sendsInformational = false)) ∧ code ≤ 999) :
    WriteJsonError response code message
      = some (({ response with
            header := headerSet (headerSet response.header ContentTypeHeader JsonContentType)
              ContentTypeOptionsHeader NoSniff,
            code := some code } : ResponseWriter).Write
          ("\x7b\"message\": \"" ++ message ++ "\"\x7d")) := by
  have hc : ¬ (code < 100 ∨ code > 999) := by omega
  have hi : ¬ (response.sendsInformational = true ∧ code ≤ 199 ∧ code ≠ 101) := by
    rcases hcode.1 with h | ⟨_, h⟩
    · omega
    · simp [h]
  simp only [WriteJsonError, ResponseWriter.WriteHeader, hfresh, hc, hi, if_false]

/-- What `WriteJsonError` does for every writer that has not written its status, keeps a
status from 100 to 199 as the status and does not fail, and for every code that is a status
code: the two headers are set, the status code is written, and the body is the message
between the two parts of the format text, unchanged. -/
theorem writeJsonError_writes (header : Header) (code : Int) (message : String)
    (hcode : 100 ≤ code ∧ code ≤ 999) :
    ∃ w : ResponseWriter,
      WriteJsonError { header := header } code message = some (w, none) ∧
      GoMap.get w.header "Content-Type" = some ["application/json; charset=UTF-8"] ∧
      GoMap.get w.header "X-Content-Type-Options" = some ["nosniff"] ∧
      w.code = some code ∧
      w.body = "\x7b\"message\": \"" ++ message ++ "\"\x7d" := by
  have h1 : CanonicalMIMEHeaderKey ContentTypeHeader = "Content-Type" := by decide
  have h2 : CanonicalMIMEHeaderKey ContentTypeOptionsHeader = "X-Content-Type-Options" := by
    decide
  have h3 : ¬ ("Content-Type" = "X-Content-Type-Options") := by decide
  rw [writeJsonError_eq _ code message rfl ⟨Or.inr ⟨hcode.1, rfl⟩, hcode.2⟩]
  refine ⟨_, rfl, ?_, ?_, ?_, ?_⟩
  · simp [ResponseWriter.writeStatusOK, headerSet, h1, h2, GoMap.get_set, h3, JsonContentType]
  · simp [ResponseWriter.writeStatusOK, headerSet, h1, h2, GoMap.get_set, h3, NoSniff]
  · rfl
  · simp [ResponseWriter.writeStatusOK]

theorem jsonStringChars_plain (msg rest : List Char)
    (hplain : ∀ c ∈ msg, c ≠ '"' ∧ c ≠ '\\' ∧ 32 ≤ c.toNat) :
    jsonStringChars (msg ++ '"' :: rest) = some (msg, rest) := by
  induction msg with
  | nil => simp [jsonStringChars]
  | cons c msg ih =>
    obtain ⟨hq, hb, hc⟩ := hplain c (List.mem_cons_self _ _)
    have ih' := ih (fun c hc => hplain c (List.mem_cons_of_mem _ hc))
    simp only [List.cons_append]
    rw [jsonStringChars]
    · simp [ih', Nat.not_lt.2 hc]
    · intro h; exact hq h
    · intro h1 h2 h3 h4 rest' h _; exact hb h
    · intro c' rest' h _; exact hb h

/-- Where the body is sound: for a message without quotation mark, backslash and control
character, the body `WriteJsonError` writes reads back as the object whose `message` is the
message. -/
theorem writeJsonError_plain_message (header : Header) (code : Int) (message : String)
    (hcode : 100 ≤ code ∧ code ≤ 999)
    (hplain : ∀ c ∈ message.toList, c ≠ '"' ∧ c ≠ '\\' ∧ 32 ≤ c.toNat) :
    (WriteJsonError { header := header } code message).map
      (fun r => decodeMessageObject r.1.body) = some (some message) := by
  obtain ⟨w, hw, _, _, _, hb⟩ := writeJsonError_writes header code message hcode
  rw [hw]
  simp only [Option.map_some', hb, Option.some.injEq]
  have hbody : ("\x7b\"message\": \"" ++ message ++ "\"\x7d").toList
      = '\x7b' :: '"' :: 'm' :: 'e' :: 's' :: 's' :: 'a' :: 'g' :: 'e' :: '"' :: ':' :: ' ' :: '"'
        :: (message.toList ++ '"' :: ['\x7d']) := by
    simp [String.toList]
  unfold decodeMessageObject
  rw [hbody]
  have hp : jsonStringChars (message.data ++ ['"', '\x7d']) = some (message.data, ['\x7d']) :=
    jsonStringChars_plain message.data ['\x7d'] hplain
  simp [skipWs, jsonStringLit, jsonStringChars, hp]

/-- C19 (the code at failing inputs): for the status 403 and the message `say "hi"`, the
headers and the status are written as claimed, but the body is `{"message": "say "hi""}`,
which is not a JSON object with the single field `message`; for the message `C:\dir` the
body is not one either; and for the message made of `tab`, a backslash and `tbed`, the body
is such an object but its `message` decodes to a text with a tab character, not to the
message given. -/
theorem writeJsonError_unescaped_message :
    (WriteJsonError {} 403 "say \"hi\"").map (fun r => r.1.code) = some (some 403) ∧
    (WriteJsonError {} 403 "say \"hi\"").map (fun r => GoMap.get r.1.header "Content-Type")
      = some (some ["application/json; charset=UTF-8"]) ∧
    (WriteJsonError {} 403 "say \"hi\"").map
        (fun r => GoMap.get r.1.header "X-Content-Type-Options")
      = some (some ["nosniff"]) ∧
    (WriteJsonError {} 403 "say \"hi\"").map (fun r => r.1.body)
      = some "\x7b\"message\": \"say \"hi\"\"\x7d" ∧
    (WriteJsonError {} 403 "say \"hi\"").map (fun r => decodeMessageObject r.1.body)
      = some none ∧
    (WriteJsonError {} 403 "C:\\dir").map (fun r => decodeMessageObject r.1.body)
      = some none ∧
    (WriteJsonError {} 403 "tab\\tbed").map (fun r => decodeMessageObject r.1.body)
      = some (some "tab\tbed") ∧
    (WriteJsonError {} 403 "tab\\tbed").map (fun r => decodeMessageObject r.1.body)
      ≠ some (some "tab\\tbed") ∧
    (WriteJsonError {} 403 "request denied").map (fun r => decodeMessageObject r.1.body)
      = some (some "request denied") := by
  decide

/-! ## `device/devicegate`: the filter gate -/

theorem Value.keyEq_iff (a b : Value) (ha : a.hashable = true) :
    a.keyEq b = true ↔ a = b := by
  cases a <;> cases b <;> simp [Value.keyEq, Value.hashable] at ha ⊢

namespace FilterSet

/-- In a set whose bindings are all `true`, a key is in the set exactly when it is bound. -/
theorem get_true_iff (s : FilterSet) (v : Value)
    (hs : ∀ e ∈ s, e.2 = true ∧ e.1.hashable = true) :
    get s v = true ↔ ∃ e ∈ s, e.1 = v := by
  induction s with
  | nil => simp [get]
  | cons e s ih =>
    obtain ⟨k, b⟩ := e
    have hk := hs (k, b) (List.mem_cons_self _ _)
    have ih' := ih (fun e he => hs e (List.mem_cons_of_mem _ he))
    simp only at hk
    by_cases h : k.keyEq v = true
    · have hkv := (Value.keyEq_iff k v hk.2).1 h
      simp only [get, h, if_true, hk.1, true_iff]
      exact ⟨_, List.mem_cons_self _ _, hkv⟩
    · have hkv : ¬ k = v := fun e => h ((Value.keyEq_iff k v hk.2).2 e)
      simp [get, h, ih', hkv]

theorem mem_set_iff (s : FilterSet) (k : Value) (b : Bool) (e : Value × Bool) :
    e ∈ set s k b ↔ (e ∈ s ∧ e.1.keyEq k = false) ∨ e = (k, b) := by
  simp [set]

end FilterSet

namespace FilterGate

/-- The loop of `SetFilter` on values that can all be hashed: it does not panic, and the
keys of the resulting set are the values and the keys it started with. -/
theorem setFilterLoop_hashable (values : List Value) (s₀ : FilterSet)
    (hvalues : ∀ v ∈ values, v.hashable = true)
    (hs₀ : ∀ e ∈ s₀, e.2 = true ∧ e.1.hashable = true) :
    ∃ s, setFilterLoop values s₀ = some s ∧
      (∀ e ∈ s, e.2 = true ∧ e.1.hashable = true) ∧
      ∀ v, (∃ e ∈ s, e.1 = v) ↔ v ∈ values ∨ ∃ e ∈ s₀, e.1 = v := by
  induction values generalizing s₀ with
  | nil => exact ⟨s₀, rfl, hs₀, fun v => by simp⟩
  | cons v₀ values ih =>
    have hv₀ := hvalues v₀ (List.mem_cons_self _ _)
    have hs₁ : ∀ e ∈ FilterSet.set s₀ v₀ true, e.2 = true ∧ e.1.hashable = true := by
      intro e he
      rw [FilterSet.mem_set_iff] at he
      rcases he with ⟨he, _⟩ | he
      · exact hs₀ e he
      · subst he; exact ⟨rfl, hv₀⟩
    obtain ⟨s, h1, h2, h3⟩ :=
      ih (FilterSet.set s₀ v₀ true) (fun v hv => hvalues v (List.mem_cons_of_mem _ hv)) hs₁
    refine ⟨s, by simp [setFilterLoop, hv₀, h1], h2, fun v => ?_⟩
    rw [h3 v, List.mem_cons]
    constructor
    · rintro (h | ⟨e, he, hev⟩)
      · exact Or.inl (Or.inr h)
      · rw [FilterSet.mem_set_iff] at he
        rcases he with ⟨he, _⟩ | he
        · exact Or.inr ⟨e, he, hev⟩
        · subst he; exact Or.inl (Or.inl hev.symm)
    · rintro ((h | h) | ⟨e, he, hev⟩)
      · subst h
        exact Or.inr ⟨(v, true), (FilterSet.mem_set_iff _ _ _ _).2 (Or.inr rfl), rfl⟩
      · exact Or.inl h
      · by_cases hvv : v = v₀
        · subst hvv
          exact Or.inr ⟨(v, true), (FilterSet.mem_set_iff _ _ _ _).2 (Or.inr rfl), rfl⟩
        · refine Or.inr ⟨e, (FilterSet.mem_set_iff _ _ _ _).2 (Or.inl ⟨he, ?_⟩), hev⟩
          cases hk : e.1.keyEq v₀ with
          | false => rfl
          | true =>
            have := (Value.keyEq_iff e.1 v₀ (hs₀ e he).2).1 hk
            exact absurd (hev.symm.trans this) hvv

/-- The loop of `SetFilter` panics as soon as one value cannot be hashed. -/
theorem setFilterLoop_unhashable (values : List Value) (s₀ : FilterSet)
    (hvalues : ∃ v ∈ values, v.hashable = false) :
    setFilterLoop values s₀ = none := by
  induction values generalizing s₀ with
  | nil => simp at hvalues
  | cons v₀ values ih =>
    by_cases hv₀ : v₀.hashable = true
    · obtain ⟨v, hv, hh⟩ := hvalues
      rcases List.mem_cons.1 hv with h | h
      · subst h; rw [hv₀] at hh; cases hh
      · simp only [setFilterLoop, hv₀, if_true]
        exact ih _ ⟨v, h, hh⟩
    · simp [setFilterLoop, hv₀]

/-- What `SetFilter` does on a gate whose filter store is not the nil map, on values that
can all be hashed (strings, numbers, booleans, nil): it returns the set stored under the key
before the call and a boolean that is true exactly when the key was not in the store;
afterwards the set under the key has a value exactly when the value occurs in the list, and
the sets under the other keys and the allowed filters are unchanged. -/
theorem setFilter_hashable (f : FilterGate) (key : String) (values : List Value)
    (hstore : f.FilterStore ≠ none)
    (hvalues : ∀ v ∈ values, v.hashable = true) :
    ∃ (f' : FilterGate) (s : FilterSet),
      SetFilter f key values
        = some (f', GoMap.get f.store key, (GoMap.get f.store key).isNone) ∧
      f'.FilterStore ≠ none ∧
      GoMap.get f'.store key = some s ∧
      (∀ v : Value, v.hashable = true → (s.Has v = some true ↔ v ∈ values)) ∧
      (∀ k : String, k ≠ key → GoMap.get f'.store k = GoMap.get f.store k) ∧
      f'.AllowedFilters = f.AllowedFilters := by
  obtain ⟨s, h1, h2, h3⟩ := setFilterLoop_hashable values [] hvalues (by simp)
  cases hfs : f.FilterStore with
  | none => exact absurd hfs hstore
  | some filterStore =>
    have hst : f.store = filterStore := by simp [store, hfs]
    refine ⟨{ f with FilterStore := some (GoMap.set filterStore key s) }, s, ?_, ?_, ?_, ?_, ?_,
      rfl⟩
    · unfold SetFilter
      simp only [h1, hfs, hst]
      cases GoMap.get filterStore key <;> rfl
    · simp
    · simp [store, GoMap.get_set]
    · intro v hv
      simp only [FilterSet.Has, hv, if_true, Option.some.injEq]
      rw [FilterSet.get_true_iff s v h2, h3 v]
      simp
    · intro k hk
      simp [store, hfs, GoMap.get_set, hk]

/-- On the zero `FilterGate`, whose filter store is the nil map, `SetFilter` panics whatever
the key and the values. -/
theorem setFilter_nil_store (f : FilterGate) (key : String) (values : List Value)
    (hstore : f.FilterStore = none) : SetFilter f key values = none := by
  unfold SetFilter
  cases setFilterLoop values [] <;> simp [hstore]

/-- C20 (the code at the failing input): with the value list `[["sky"]]`, whose one element
is a slice, `SetFilter` panics at `newValues[v] = true` and returns nothing, whether the
key is new or not; with the list `["sky"]` it returns the old set and `false` for the key
`partner-id`, which the gate has, and no set and `true` for a key it has not. -/
theorem setFilter_unhashable_value :
    (SetFilter sampleGate "partner-id" [Value.slice [Value.string "sky"]]).isNone = true ∧
    (SetFilter sampleGate "other" [Value.slice [Value.string "sky"]]).isNone = true ∧
    (SetFilter sampleGate "partner-id" [Value.string "sky"]).map (fun r => (r.2.1, r.2.2))
      = some (some [(Value.string "comcast", true)], false) ∧
    (SetFilter sampleGate "other" [Value.string "sky"]).map (fun r => (r.2.1.isNone, r.2.2))
      = some (true, true) := by
  refine ⟨rfl, rfl, rfl, rfl⟩

end FilterGate

/-! ## `secure/tools/cmd/keyserver`: `NumericDate` -/

theorem decimalDigit_digitChar (k : Nat) (hk : k < 10) :
    decimalDigit (Nat.digitChar k) = some k := by
  interval_cases k <;> decide

theorem decimalDigit_not_sign (c : Char) (k : Nat) (h : decimalDigit c = some k) :
    c ≠ '+' ∧ c ≠ '-' := by
  have hplus : decimalDigit '+' = none := by decide
  have hminus : decimalDigit '-' = none := by decide
  constructor
  · rintro rfl; rw [hplus] at h; cases h
  · rintro rfl; rw [hminus] at h; cases h

theorem parseUintLoop_toDigitsCore (fuel n : Nat) (ds : List Char) (hfuel : n < fuel) :
    parseUintLoop (Nat.toDigitsCore 10 fuel n ds) 0 = parseUintLoop ds n := by
  induction fuel generalizing n ds with
  | zero => omega
  | succ fuel ih =>
    unfold Nat.toDigitsCore
    simp only
    by_cases h0 : n / 10 = 0
    · have hn : n % 10 = n := by omega
      have hk := decimalDigit_digitChar n (by omega)
      simp [h0, parseUintLoop, hn, hk]
    · have hlt : n / 10 < fuel := by omega
      simp only [h0, if_false]
      rw [ih (n / 10) _ hlt]
      simp only [parseUintLoop, decimalDigit_digitChar (n % 10) (Nat.mod_lt _ (by decide))]
      congr 1
      omega

theorem parseUintLoop_toDigits (n : Nat) : parseUintLoop (Nat.toDigits 10 n) 0 = some n := by
  unfold Nat.toDigits
  rw [parseUintLoop_toDigitsCore (n + 1) n [] (by omega)]
  rfl

/-- `ParseInt` reads the decimal text of every `int64` back to it. -/
theorem parseInt_formatInt (v : Int) (hlo : -9223372036854775808 ≤ v)
    (hhi : v ≤ 9223372036854775807) : ParseInt (FormatInt v) = .ok v := by
  have hp := parseUintLoop_toDigits v.natAbs
  cases hd : Nat.toDigits 10 v.natAbs with
  | nil =>
    rw [hd] at hp
    simp only [parseUintLoop, Option.some.injEq] at hp
    rw [← hp] at hd
    exact absurd hd (by decide)
  | cons d ds =>
    rw [hd] at hp
    by_cases hneg : v < 0
    · have hun : ¬ (v.natAbs > 9223372036854775808) := by omega
      have hv : -|v| = v := by rw [abs_of_neg hneg]; omega
      simp [ParseInt, FormatInt, hneg, hd, hp, hun, hv]
    · have hdig : ∃ k, decimalDigit d = some k := by
        cases hk : decimalDigit d with
        | none => simp [parseUintLoop, hk] at hp
        | some k => exact ⟨k, rfl⟩
      obtain ⟨k, hk⟩ := hdig
      obtain ⟨h1, h2⟩ := decimalDigit_not_sign d k hk
      have hun : ¬ (v.natAbs ≥ 9223372036854775808) := by omega
      have hv : |v| = v := abs_of_nonneg (by omega)
      simp [ParseInt, FormatInt, hneg, hd, hp, h1, h2, hun, hv]

/-- Where the date is exact: for every `int64` other than 0, `UnmarshalText` of its decimal
text succeeds and `Compute` returns that value, whatever the time. -/
theorem NumericDate.compute_exact_of_ne_zero (lib : TimeLib) (nd : NumericDate) (v : Int)
    (now : Time) (hlo : -9223372036854775808 ≤ v) (hhi : v ≤ 9223372036854775807)
    (hv : v ≠ 0) :
    NumericDate.UnmarshalText lib nd (FormatInt v) = ({ duration := 0, absolute := v }, none) ∧
    (NumericDate.UnmarshalText lib nd (FormatInt v)).1.Compute now = v := by
  have hparse := parseInt_formatInt v hlo hhi
  have hlen : ¬ (FormatInt v).length = 0 := by
    intro h
    have hempty : (FormatInt v).toList = [] := List.length_eq_zero.1 h
    unfold ParseInt at hparse
    rw [hempty] at hparse
    cases hparse
  have hu : NumericDate.UnmarshalText lib nd (FormatInt v)
      = ({ duration := 0, absolute := v }, none) := by
    simp [NumericDate.UnmarshalText, hlen, hparse]
  refine ⟨hu, ?_⟩
  rw [hu]
  simp [NumericDate.Compute, hv]

/-- C21 (the code at the failing input): the `int64` value 0 is not used as the exact value.
`UnmarshalText` of its decimal text `0` succeeds and leaves `absolute = 0`, which `Compute`
takes for a date that is not absolute: at a time 1500000000 seconds after the epoch it
returns 1500000000, not 0. -/
theorem NumericDate.compute_zero_is_now :
    FormatInt 0 = "0" ∧
    NumericDate.UnmarshalText timeLibNone { duration := 5, absolute := 7 } "0"
      = ({ duration := 0, absolute := 0 }, none) ∧
    (NumericDate.UnmarshalText timeLibNone { duration := 5, absolute := 7 } "0").1.Compute
      1500000000123456789 = 1500000000 ∧
    (NumericDate.UnmarshalText timeLibNone { duration := 5, absolute := 7 } "0").1.Compute
      1500000000123456789 ≠ 0 := by
  decide

/-! ## `server`: the health server -/

/-- What `Health.New` returns for every configuration: with an empty address, no monitor and
no server, whatever monitor it was given; with an address, the monitor it was given, or the
one `NewHealth` creates when it was given none, and a server at that address that serves
the monitor under `/health`. -/
theorem Health.new_cases (h : Health) (logger : Logger) (monitor : Option health.Health) :
    (h.Address = "" → h.New logger monitor = (none, none)) ∧
    (h.Address ≠ "" →
      ∃ (m : health.Health) (server : HTTPServer),
        h.New logger monitor = (some m, some server) ∧
        (∀ given, monitor = some given → m = given) ∧
        (monitor = none → some m = h.NewHealth logger []) ∧
        server.Addr = h.Address ∧ server.Handler = [("/health", m)]) := by
  constructor
  · intro ha
    simp [Health.New, ha]
  · intro ha
    have hlen : ¬ h.Address.length = 0 := by
      have := (string_length_pos_iff h.Address).2 ha
      omega
    cases monitor with
    | some given =>
      refine ⟨given, _, by simp only [Health.New, hlen, if_false]; rfl, ?_, ?_, ?_, ?_⟩
      · intro g hg; cases hg; rfl
      · intro hn; cases hn
      · by_cases hc : h.LogConnectionState <;> simp [hc]
      · by_cases hc : h.LogConnectionState <;> simp [hc]
    | none =>
      refine ⟨health.New h.LogInterval logger ([] ++ h.Options.map health.Stat), _,
        by simp only [Health.New, Health.NewHealth, hlen, if_false]; rfl, ?_, ?_, ?_, ?_⟩
      · intro g hg; cases hg
      · intro _; simp [Health.NewHealth, hlen]
      · by_cases hc : h.LogConnectionState <;> simp [hc]
      · by_cases hc : h.LogConnectionState <;> simp [hc]

/-- C22 (the code at the failing input): with an empty `Address` and a monitor given,
`Health.New` returns a nil monitor and a nil server: the monitor it was given is not
returned. -/
theorem Health.new_disabled_drops_monitor :
    Health.New { Name := "health", Address := "" } "logger"
        (some { statDumpInterval := 1000000000, log := "logger" })
      = (none, none) ∧
    (Health.New { Name := "health", Address := "" } "logger"
        (some { statDumpInterval := 1000000000, log := "logger" })).1
      ≠ some { statDumpInterval := 1000000000, log := "logger" } := by
  decide

/-! ## `webhook/aws`: the SNS signature text -/

/-- A string made of a list of characters is the string with those characters. -/
theorem string_mk_eq_iff (l : List Char) (s : String) : String.mk l = s ↔ l = s.data := by
  constructor
  · rintro rfl; rfl
  · rintro rfl; rfl

/-- C23: for every SNS message, the text `generateSignature` writes to the hash is, for each
name/value pair in turn, the name, a newline, the value and a newline; the pairs are those
named Message, MessageId, Subject, Timestamp, TopicArn, Type, in this order, which is the
byte order of the names, the Subject pair being there exactly when the subject is not
empty. -/
theorem generateSignature_text (msg : SNSMessage) :
    (generateSignature msg).written
      = stringBytes
          (String.join ((signedPairs msg).map (fun p => p.1 ++ "\n" ++ p.2 ++ "\n"))) ∧
    signedPairs msg
      = (if msg.Subject = "" then
          [("Message", msg.Message), ("MessageId", msg.MessageId),
           ("Timestamp", msg.Timestamp), ("TopicArn", msg.TopicArn), ("Type", msg.MessageType)]
         else
          [("Message", msg.Message), ("MessageId", msg.MessageId), ("Subject", msg.Subject),
           ("Timestamp", msg.Timestamp), ("TopicArn", msg.TopicArn),
           ("Type", msg.MessageType)]) ∧
    List.Pairwise (fun a b => stringBytes a < stringBytes b)
      ((signedPairs msg).map Prod.fst) := by
  by_cases hs : msg.Subject = ""
  · refine ⟨?_, by simp [signedPairs, hs], ?_⟩
    · simp only [generateSignature, hs, ne_eq, not_true_eq_false, if_false, Hash.Write,
        List.nil_append, signedPairs, if_true]
      congr 1
      simp [fmtSprintf, sprintfLoop, String.join, string_mk_eq_iff]
    · simp only [signedPairs, hs, if_true, List.append_nil, List.cons_append, List.nil_append,
        List.map_cons, List.map_nil]
      decide
  · refine ⟨?_, by simp [signedPairs, hs], ?_⟩
    · simp only [generateSignature, hs, ne_eq, not_false_eq_true, if_true, Hash.Write,
        List.nil_append, signedPairs, if_false]
      congr 1
      simp [fmtSprintf, sprintfLoop, String.join, string_mk_eq_iff]
    · simp only [signedPairs, hs, if_false, List.cons_append, List.nil_append,
        List.map_cons, List.map_nil]
      decide

/-- The text hashed for the sample notification. -/
theorem generateSignature_sample :
    (generateSignature sampleSNSMessage).written
      = stringBytes ("Message\nHello world!\nMessageId\n22b80b92\nSubject\nMy First Message\n"
          ++ "Timestamp\n2012-05-02T00:54:06.655Z\nTopicArn\narn:aws:sns:us-west-2:1:T\n"
          ++ "Type\nNotification\n") := by
  decide

/-! ## `secure/handler`: `AuthorizationHandler` -/

/-- The function `WriteJsonError` panics on a code below 100 or above 999, on a writer that
has written no status yet. -/
theorem writeJsonError_invalid_code (response : ResponseWriter) (code : Int) (message : String)
    (hfresh : response.code = none) (hcode : code < 100 ∨ code > 999) :
    WriteJsonError response code message = none := by
  simp only [WriteJsonError, ResponseWriter.WriteHeader, hfresh, hcode, if_true]

/-- The sample handler on three requests: an accepted token reaches the delegate, which sees
the request path in the context values; a missing header and a refused token are answered
with status 403 without the delegate. -/
theorem AuthorizationHandler.decorate_sample :
    (({ Validator := some sampleValidator } : AuthorizationHandler).Decorate secureTable
        sampleDelegate none {}
        { URL := some { Path := "/device" },
          Header := [("Authorization", ["Basic dXNlcjpwYXNz"])] }).map
      (fun w => (w.code, w.body)) = some (some 200, "/device") ∧
    (({ Validator := some sampleValidator } : AuthorizationHandler).Decorate secureTable
        sampleDelegate none {} { URL := some { Path := "/device" } }).map
      (fun w => (w.code, w.body))
      = some (some 403, "\x7b\"message\": \"missing header: Authorization\"\x7d") ∧
    (({ Validator := some sampleValidator } : AuthorizationHandler).Decorate secureTable
        sampleDelegate none {}
        { URL := some { Path := "/device" },
          Header := [("Authorization", ["Basic b3RoZXI="])] }).map
      (fun w => (w.code, w.body))
      = some (some 403, "\x7b\"message\": \"request denied\"\x7d") ∧
    (({ ForbiddenStatusCode := 401, Validator := some sampleValidator } :
        AuthorizationHandler).Decorate secureTable sampleDelegate none {}
        { URL := some { Path := "/device" } }).map
      (fun w => (w.code, w.body))
      = some (some 401, "\x7b\"message\": \"missing header: Authorization\"\x7d") := by
  refine ⟨?_, ?_, ?_, ?_⟩ <;> decide

/-! ## `device/devicegate`: `AllowConnection` -/

/-- The function `filterMatch` on one parameter: the lookup in the set for a value that can
be hashed, a panic for a slice or a map. -/
theorem filterMatch_single (s : FilterSet) (v : Value) :
    filterMatch s [v] = if v.hashable then some (s.get v) else none := by
  unfold filterMatch FilterSet.Has
  by_cases h : v.hashable = true
  · simp only [h, if_true]
    cases s.get v <;> simp [filterMatch]
  · simp [h]

/-- The method `claimsMatch` by cases on the claim: no claim or a nil claim gives `false`, a
claim that can be hashed gives its lookup in the set, a slice or a map panics. -/
theorem claimsMatch_eq (key : String) (s : FilterSet) (m : Metadata) :
    claimsMatch key s m =
      match GoMap.get m.Claims key with
      | none => some false
      | some v => if v.isNil then some false else if v.hashable then some (s.get v) else none := by
  dsimp only [claimsMatch]
  cases GoMap.get m.Claims key with
  | none => rfl
  | some v =>
    simp only [filterMatch_single]
    cases v <;> simp [Value.isInterface, Value.isNil, Value.asSlice, Value.hashable]

/-- The method `metadataMapMatch` by cases on the loaded value. -/
theorem metadataMapMatch_eq (key : String) (s : FilterSet) (m : Metadata) :
    metadataMapMatch key s m =
      if (m.Load key).isNil then some false
      else if (m.Load key).hashable then some (s.get (m.Load key)) else none := by
  dsimp only [metadataMapMatch]
  simp only [filterMatch_single]
  cases m.Load key <;> simp [Value.isInterface, Value.isNil, Value.asSlice, Value.hashable]

/-- A claim that is a slice makes `claimsMatch` panic, whatever the filter set and the
elements, and so does a loaded value that is a slice in `metadataMapMatch`: the case
`[]interface{}` of the type switch is never taken. -/
theorem match_slice_panics (key : String) (s : FilterSet) (m : Metadata) (elems : List Value) :
    (GoMap.get m.Claims key = some (Value.slice elems) → claimsMatch key s m = none) ∧
    (m.Load key = Value.slice elems → metadataMapMatch key s m = none) := by
  constructor
  · intro h
    rw [claimsMatch_eq, h]
    rfl
  · intro h
    rw [metadataMapMatch_eq, h]
    rfl

/-- C27: a failing input. With the filter set `comcast`, `claimsMatch` on a device whose
claim under the key is the list `["comcast"]` panics, and so does `metadataMapMatch` on a
device whose metadata value is that list (and on the empty list, and with the empty filter
set), although the element `comcast` of the list is in the filter set. -/
theorem claimsMatch_list_value_panics :
    claimsMatch "partner-id" [(Value.string "comcast", true)]
      (deviceWithClaim (Value.slice [Value.string "comcast"])) = none ∧
    metadataMapMatch "partner-id" [(Value.string "comcast", true)]
      (deviceWithMetadata (Value.slice [Value.string "comcast"])) = none ∧
    claimsMatch "partner-id" [(Value.string "comcast", true)]
      (deviceWithClaim (Value.slice [])) = none ∧
    metadataMapMatch "partner-id" [] (deviceWithMetadata (Value.slice [])) = none ∧
    filterMatch [(Value.string "comcast", true)] [Value.string "comcast"] = some true := by
  refine ⟨?_, ?_, ?_, ?_, ?_⟩ <;> decide

/-- With an empty filter store every device is allowed, also one whose values are lists. -/
theorem FilterGate.allowConnection_empty_store (f : FilterGate) (d : Metadata)
    (hempty : f.store = []) : f.AllowConnection d = some (true, {}) := by
  simp [FilterGate.AllowConnection, hempty, allowConnectionLoop]

/-- The loop of `AllowConnection` on a device whose values under the keys of the store can
be hashed: it returns, it allows the device iff no key of the store has the claim or the
metadata value (nil apart) in its filter set, and a denial carries a key of the store. -/
theorem allowConnectionLoop_hashable (m : Metadata) (store : List (String × FilterSet))
    (hhash : ∀ key s, (key, s) ∈ store →
      (∀ v, GoMap.get m.Claims key = some v → v.hashable = true) ∧
      (m.Load key).hashable = true) :
    ∃ r, allowConnectionLoop m store = some r ∧
      (r = (true, {}) ↔ ∀ key s, (key, s) ∈ store →
        (∀ v, GoMap.get m.Claims key = some v → v.isNil = false → s.get v = false) ∧
        ((m.Load key).isNil = false → s.get (m.Load key) = false)) ∧
      (r.1 = false → ∃ s, (r.2.Key, s) ∈ store) := by
  induction store with
  | nil => exact ⟨(true, {}), rfl, by simp, by simp⟩
  | cons e rest ih =>
    obtain ⟨key, s⟩ := e
    have hk := hhash key s (List.mem_cons_self _ _)
    obtain ⟨r, hr, hiff, hden⟩ := ih (fun k t hmem => hhash k t (List.mem_cons_of_mem _ hmem))
    have hc : claimsMatch key s m =
        some (match GoMap.get m.Claims key with
          | none => false
          | some v => !v.isNil && s.get v) := by
      rw [claimsMatch_eq]
      cases hget : GoMap.get m.Claims key with
      | none => rfl
      | some v =>
        have := hk.1 v hget
        cases hn : v.isNil <;> simp [this, hn]
    have hm : metadataMapMatch key s m = some (!(m.Load key).isNil && s.get (m.Load key)) := by
      rw [metadataMapMatch_eq]
      cases hn : (m.Load key).isNil <;> simp [hk.2, hn]
    unfold allowConnectionLoop
    rw [hc]
    cases hcv : (match GoMap.get m.Claims key with
          | none => false
          | some v => !v.isNil && s.get v) with
    | true =>
      refine ⟨_, rfl, ?_, fun _ => ⟨s, List.mem_cons_self _ _⟩⟩
      constructor
      · intro h
        cases h
      · intro h
        exfalso
        have h1 := (h key s (List.mem_cons_self _ _)).1
        cases hget : GoMap.get m.Claims key with
        | none => rw [hget] at hcv; cases hcv
        | some v =>
          rw [hget] at hcv
          simp only [Bool.and_eq_true, Bool.not_eq_true'] at hcv
          have := h1 v hget hcv.1
          rw [this] at hcv
          exact absurd hcv.2 (by decide)
    | false =>
      simp only []
      rw [hm]
      cases hmv : (!(m.Load key).isNil && s.get (m.Load key)) with
      | true =>
        refine ⟨_, rfl, ?_, fun _ => ⟨s, List.mem_cons_self _ _⟩⟩
        constructor
        · intro h
          cases h
        · intro h
          exfalso
          have h2 := (h key s (List.mem_cons_self _ _)).2
          simp only [Bool.and_eq_true, Bool.not_eq_true'] at hmv
          rw [h2 hmv.1] at hmv
          exact absurd hmv.2 (by decide)
      | false =>
        refine ⟨r, hr, ?_, fun h => ?_⟩
        · rw [hiff]
          constructor
          · intro h k t hmem
            rcases List.mem_cons.1 hmem with heq | hmem
            · cases heq
              constructor
              · intro v hget hn
                rw [hget] at hcv
                simpa [hn] using hcv
              · intro hn
                simpa [hn] using hmv
            · exact h k t hmem
          · intro h k t hmem
            exact h k t (List.mem_cons_of_mem _ hmem)
        · obtain ⟨t, ht⟩ := hden h
          exact ⟨t, List.mem_cons_of_mem _ ht⟩

/-- C25: a failing input. The gate that filters `partner-id` on `comcast` panics on a device
whose claim under that key is a list, whether the list holds a filtered value or not, and on
a device whose metadata value under that key is a list: `AllowConnection` returns neither
`(true, zero)` nor a denial. -/
theorem FilterGate.allowConnection_list_value_panics :
    sampleGate.AllowConnection (deviceWithClaim (Value.slice [Value.string "comcast"])) = none ∧
    sampleGate.AllowConnection (deviceWithClaim (Value.slice [Value.string "sky"])) = none ∧
    sampleGate.AllowConnection (deviceWithMetadata (Value.slice [Value.string "sky"])) = none ∧
    sampleGate.AllowConnection (deviceWithClaim (Value.map [("name", Value.string "sky")]))
      = none := by
  refine ⟨?_, ?_, ?_, ?_⟩ <;> decide

/-- The method `AllowConnection` on a device whose values under the keys of the store can be
hashed (strings, numbers, booleans, nil): it returns, it allows the device iff no key of the
store has the claim or the metadata value (nil apart) in its filter set, and a denial
carries a key of the store. -/
theorem FilterGate.allowConnection_hashable (f : FilterGate) (d : Metadata)
    (hhash : ∀ key s, (key, s) ∈ f.store →
      (∀ v, GoMap.get d.Claims key = some v → v.hashable = true) ∧
      (d.Load key).hashable = true) :
    ∃ r, f.AllowConnection d = some r ∧
      (r = (true, {}) ↔ ∀ key s, (key, s) ∈ f.store →
        (∀ v, GoMap.get d.Claims key = some v → v.isNil = false → s.get v = false) ∧
        ((d.Load key).isNil = false → s.get (d.Load key) = false)) ∧
      (r.1 = false → ∃ s, (r.2.Key, s) ∈ f.store) :=
  allowConnectionLoop_hashable d f.store hhash

/-- A nil claim is never matched, also when nil is in the filter set: the type switch takes
no case for it. -/
theorem FilterGate.allowConnection_nil_claim :
    ({ FilterStore := some [("partner-id", [(Value.null, true)])] } : FilterGate).AllowConnection
      (deviceWithClaim Value.null) = some (true, {}) := by
  decide

/-- C26: a failing input. A device whose claim `partner-id` is the filtered value `comcast`,
with an empty metadata map, is denied with the location `metadata_map`, and a device without
claims whose metadata map holds `comcast` is denied with the location `claims`: the location
names the place where the value was not found. -/
theorem FilterGate.allowConnection_location_swapped :
    sampleGate.AllowConnection (deviceWithClaim (Value.string "comcast"))
      = some (false, { Location := "metadata_map", Key := "partner-id" }) ∧
    claimsMatch "partner-id" [(Value.string "comcast", true)]
      (deviceWithClaim (Value.string "comcast")) = some true ∧
    metadataMapMatch "partner-id" [(Value.string "comcast", true)]
      (deviceWithClaim (Value.string "comcast")) = some false ∧
    sampleGate.AllowConnection (deviceWithMetadata (Value.string "comcast"))
      = some (false, { Location := "claims", Key := "partner-id" }) ∧
    claimsMatch "partner-id" [(Value.string "comcast", true)]
      (deviceWithMetadata (Value.string "comcast")) = some false ∧
    metadataMapMatch "partner-id" [(Value.string "comcast", true)]
      (deviceWithMetadata (Value.string "comcast")) = some true := by
  refine ⟨?_, ?_, ?_, ?_, ?_, ?_⟩ <;> decide

/-- Every denial of the loop of `AllowConnection` carries a key of the store together with
the location `metadata_map` when the claims matched under that key, and the location
`claims` when the claims did not match and the metadata map did. -/
theorem allowConnectionLoop_denial (m : Metadata) (store : List (String × FilterSet))
    (r : MatchResult) (hdeny : allowConnectionLoop m store = some (false, r)) :
    ∃ s, (r.Key, s) ∈ store ∧
      ((claimsMatch r.Key s m = some true ∧ r.Location = "metadata_map") ∨
       (claimsMatch r.Key s m = some false ∧ metadataMapMatch r.Key s m = some true ∧
         r.Location = "claims")) := by
  induction store with
  | nil => simp [allowConnectionLoop] at hdeny
  | cons e rest ih =>
    obtain ⟨key, s⟩ := e
    unfold allowConnectionLoop at hdeny
    cases hc : claimsMatch key s m with
    | none => rw [hc] at hdeny; cases hdeny
    | some b =>
      rw [hc] at hdeny
      cases b with
      | true =>
        simp only [Option.some.injEq, Prod.mk.injEq, true_and] at hdeny
        subst hdeny
        exact ⟨s, List.mem_cons_self _ _, Or.inl ⟨hc, rfl⟩⟩
      | false =>
        simp only [] at hdeny
        cases hm : metadataMapMatch key s m with
        | none => rw [hm] at hdeny; cases hdeny
        | some b =>
          rw [hm] at hdeny
          cases b with
          | true =>
            simp only [Option.some.injEq, Prod.mk.injEq, true_and] at hdeny
            subst hdeny
            exact ⟨s, List.mem_cons_self _ _, Or.inr ⟨hc, hm, rfl⟩⟩
          | false =>
            simp only [] at hdeny
            obtain ⟨t, ht, h⟩ := ih hdeny
            exact ⟨t, List.mem_cons_of_mem _ ht, h⟩

/-- Every denial of `AllowConnection` carries the location `metadata_map` when the claims
matched under its key, and the location `claims` when the metadata map did. -/
theorem FilterGate.allowConnection_denial_location (f : FilterGate) (d : Metadata)
    (r : MatchResult) (hdeny : f.AllowConnection d = some (false, r)) :
    ∃ s, (r.Key, s) ∈ f.store ∧
      ((claimsMatch r.Key s d = some true ∧ r.Location = "metadata_map") ∨
       (claimsMatch r.Key s d = some false ∧ metadataMapMatch r.Key s d = some true ∧
         r.Location = "claims")) :=
  allowConnectionLoop_denial d f.store r hdeny

namespace YggdrasilClient

/-- The URL text `GetWebhook` hands to `http.NewRequest` is the unformatted format text
followed by the address and the prefix. -/
theorem getURL_eq (c : YggdrasilClient) :
    getURL c = "%s/store/%s" ++ c.config.Address ++ c.config.Prefix := by
  simp [getURL, fmtSprint, String.join]

/-- A text that is `%s/store/%s` followed by anything begins with the characters `%s/`. -/
theorem escape_prefix (rest : String) :
    "%s/".toList.isPrefixOf ("%s/store/%s" ++ rest).toList = true := by
  have h : ("%s/store/%s" ++ rest).toList = "%s/store/%s".toList ++ rest.toList := by
    simp
  rw [h]
  rfl

/-- C28: for every address, prefix, subscription and id, the URL texts of `GetWebhook`,
`Push` and `Remove` are the format text followed by the arguments; with a `url.Parse` that
rejects the texts beginning with the invalid escape `%s/`, `http.NewRequest` fails on each
of them, and each of the three operations returns, with an error, having acquired no token
and sent no request. -/
theorem operations_fail_on_url (lib : GoLib) (c : YggdrasilClient) (w : W) (id : String)
    (hparse : ∀ s : String, "%s/".toList.isPrefixOf s.toList = true →
      ∃ err, lib.parse s = .error err) :
    (getURL c = "%s/store/%s" ++ c.config.Address ++ c.config.Prefix ∧
     pushURL c w = "%s/store/%s/%s" ++ c.config.Address ++ c.config.Prefix
        ++ RawURLEncoding.EncodeToString (stringBytes w.ID) ∧
     removeURL c id = "%s/store/%s/%s" ++ c.config.Address ++ c.config.Prefix ++ id) ∧
    (∀ (method : String) (body : Option Body),
      (∃ err, NewRequest lib.parse method (getURL c) body = .error err) ∧
      (∃ err, NewRequest lib.parse method (pushURL c w) body = .error err) ∧
      (∃ err, NewRequest lib.parse method (removeURL c id) body = .error err)) ∧
    (∃ err,
      GetWebhook lib c = some { hooks := [], err := some err, acquired := false, sent := [] }) ∧
    (∃ err, Push lib c w = { err := some err, acquired := false, sent := [] }) ∧
    (∃ err, Remove lib c id = { err := some err, acquired := false, sent := [] }) := by
  have hg : ∃ err, lib.parse (getURL c) = .error err := by
    apply hparse
    rw [getURL_eq, String.append_assoc]
    exact escape_prefix _
  have hp : ∃ err, lib.parse (pushURL c w) = .error err := by
    apply hparse
    rw [pushURL_eq, String.append_assoc, String.append_assoc]
    exact escape_prefix ("/%s" ++ _)
  have hr : ∃ err, lib.parse (removeURL c id) = .error err := by
    apply hparse
    rw [removeURL_eq, String.append_assoc, String.append_assoc]
    exact escape_prefix ("/%s" ++ _)
  obtain ⟨eg, hg⟩ := hg
  obtain ⟨ep, hp⟩ := hp
  obtain ⟨er, hr⟩ := hr
  refine ⟨⟨getURL_eq c, pushURL_eq c w, removeURL_eq c id⟩, fun method body => ?_, ?_, ?_, ?_⟩
  · exact ⟨⟨eg, by simp [NewRequest, hg]⟩, ⟨ep, by simp [NewRequest, hp]⟩,
      ⟨er, by simp [NewRequest, hr]⟩⟩
  · exact ⟨eg, by simp [GetWebhook, NewRequest, hg]⟩
  · cases hm : lib.marshalW w with
    | error err => exact ⟨err, by simp [Push, hm]⟩
    | ok data => exact ⟨ep, by simp [Push, hm, NewRequest, hp]⟩
  · exact ⟨er, by simp [Remove, NewRequest, hr]⟩

/-- Witness for C28: the store at `http://yggdrasil:8080` with the prefix `hooks`, whose
parser rejects the texts that begin with `%s/`. -/
theorem operations_fail_on_url_witness :
    (∀ s : String, "%s/".toList.isPrefixOf s.toList = true →
      ∃ err, sampleLib.parse s = .error err) ∧
    (∃ err, GetWebhook sampleLib (sampleClient none)
      = some { hooks := [], err := some err, acquired := false, sent := [] }) ∧
    (∃ err, Push sampleLib (sampleClient none) neatWebhook
      = { err := some err, acquired := false, sent := [] }) ∧
    (∃ err, Remove sampleLib (sampleClient none) "http://localhost/events?neat"
      = { err := some err, acquired := false, sent := [] }) :=
  ⟨fun _ h => ⟨_, if_pos h⟩,
    (operations_fail_on_url sampleLib (sampleClient none) neatWebhook
      "http://localhost/events?neat"
      (fun _ h => ⟨_, if_pos h⟩)).2.2⟩

/-- The three operations on the sample store: the errors are those of `url.Parse` on the
unformatted texts for `GetWebhook` and `Remove`. -/
theorem operations_fail_sample :
    GetWebhook sampleLib (sampleClient none)
      = some { err := some ("parse \"%s/store/%shttp://yggdrasil:8080hooks\""
          ++ ": invalid URL escape \"%s/\"") } ∧
    Remove sampleLib (sampleClient none) "a"
      = { err := some ("parse \"%s/store/%s/%shttp://yggdrasil:8080hooksa\""
          ++ ": invalid URL escape \"%s/\"") } := by
  constructor <;> rfl

end YggdrasilClient

end WebpaCommon
